import Mathlib

/-!
# StatTrack CLI: offline queue, heartbeat sending, sanitizing and detection

A shallow embedding of `pkg/heartbeat/heartbeat.go`, `pkg/offline/offline.go`,
`cmd/heartbeat/heartbeat.go`, `pkg/heartbeat/sanitize.go`, `pkg/filter/filter.go`,
`cmd/params/params.go` (`parseBoolOrRegexList`), `pkg/regex/regex.go`,
`pkg/project/project.go`, `pkg/project/git.go` (`findGitBranch`,
`findGitRemote`), `pkg/project/mercurial.go`, `pkg/project/tfvc.go`,
`pkg/language/language.go` (`detectSpecialCases`), `pkg/apikey/apikey.go`,
`cmd/params/params.go` (`parseExtraHeartbeat`) and `cmd/offline/offline.go`
(`SaveHeartbeats`).

* Go strings are lists of characters; the functions of package `strings` and
  `path/filepath` used by the code are defined on them.  Paths use the
  separator `/`.  Where the code cuts a string at byte positions
  (`correspondingFileExists`) the string is taken as its UTF-8 bytes, and the
  path handed to `os.Stat` is a list of bytes.
* A call that does not return (it waits for a lock for ever) or that stops
  with a run-time panic has the value `none` of an `Option`.
* The packages `regexp` and `regexp2`, the project detectors, the file
  system, the constants of `heartbeat.Language`, the conversions of
  `strconv` and the case tables of `unicode` above ASCII are parameters
  (`RegexLib`, `ProjectEnv`, `FileSystem`, `Disk`, `LanguageNames`,
  `ParseEnv`, `CaseTables`).
* The current time is a parameter of `RateLimited`.

* Go `int` values are `Int`; no arithmetic in the embedded code can overflow
  (the only sums are `alreadySent + SendLimit` with `alreadySent` either `0`
  or the sync limit itself).
* A `float64` is carried as its IEEE-754 bit pattern; the `%f` rendering is a
  parameter of the embedding (`Env.fmtFloat`).
* The bolt bucket is the list of its key/value pairs in cursor order, which
  is ascending byte order of the keys.  Keys are strings; the byte order of
  UTF-8 encodings coincides with the code point order used here.
* Logging is omitted throughout.
-/

namespace StatTrack

/-! ## Data model (pkg/heartbeat) -/

/-- A Go `float64`, as its 64-bit pattern. -/
abbrev Float64 := Nat

/-- Go `type EntityType int`. -/
abbrev EntityType := Int

/-- Go `type Category int`; its declaration (category.go) is not among the
sources, its `String` method is the parameter `Env.categoryString`. -/
abbrev Category := Int

def FileType : EntityType := 0
def DomainType : EntityType := 1
def URLType : EntityType := 2
def EventType : EntityType := 3
def AppType : EntityType := 4

/-- The method `EntityType.String`. -/
def EntityType_String (t : EntityType) : String :=
  if t = FileType then "file"
  else if t = DomainType then "domain"
  else if t = URLType then "url"
  else if t = EventType then "event"
  else if t = AppType then "app"
  else ""

/-- The struct `heartbeat.Heartbeat`; a Go pointer field is an `Option`. -/
structure Heartbeat where
  APIKey : String
  Branch : Option String
  BranchAlternate : String
  Category : Category
  CursorPosition : Option Int
  Dependencies : List String
  Entity : String
  EntityType : EntityType
  IsUnsavedEntity : Bool
  IsWrite : Option Bool
  Language : Option String
  LanguageAlternate : String
  LineAdditions : Option Int
  LineDeletions : Option Int
  LineNumber : Option Int
  Lines : Option Int
  LocalFile : String
  LocalFileNeedsCleanup : Bool
  Project : Option String
  ProjectAlternate : String
  ProjectFromGitRemote : Bool
  ProjectOverride : String
  ProjectPath : String
  ProjectPathOverride : String
  ProjectRootCount : Option Int
  Time : Float64
  UserAgent : String
deriving DecidableEq, Repr

/-- The struct `heartbeat.Result` (the untyped `FileExpert` field is left out). -/
structure Result where
  Errors : List String
  Status : Int
  Heartbeat : Heartbeat
deriving DecidableEq, Repr

/-- Go `error` values that occur in the embedded code.  `wrap ctx e` stands
for `fmt.Errorf(ctx + ": %s", e)`, `abortRequeue` for the error built by
`pushHeartbeatsWithRetry` once its attempts are used up. -/
inductive Err where
  | api (msg : String)
  | auth (msg : String)
  | badRequest (msg : String)
  | backoff (msg : String)
  | timeout (msg : String)
  | text (msg : String)
  | wrap (ctx : String) (cause : Err)
  | abortRequeue (count : Int) (cause : Err) (hh : List Heartbeat)
deriving DecidableEq, Repr

/-- What the embedding takes from outside the repository: `fmt`, `encoding/json`
and the checks of bolt `Bucket.Put`, plus the missing `Category.String`. -/
structure Env where
  /-- The verb `%f` of `fmt.Sprintf` on a float64. -/
  fmtFloat : Float64 → String
  /-- The method `Category.String`. -/
  categoryString : Category → String
  /-- The call `json.Marshal(h)`; `none` when it returns an error. -/
  marshal : Heartbeat → Option String
  /-- The call `json.Unmarshal(value, &h)`; `none` when it returns an error. -/
  unmarshal : String → Option Heartbeat
  /-- Whether bolt `Bucket.Put` accepts the key and the value (it rejects an
  empty or oversized key and an oversized value). -/
  putOk : String → String → Bool

deriving instance DecidableEq for Except

/-- The type `heartbeat.Handle`: a Go result pair `(results, err)`. -/
abbrev Handle := List Heartbeat → Except Err (List Result)

/-- The method `Heartbeat.ID`: `fmt.Sprintf("%f-%s-%s-%s-%s-%s-%s-%t", ...)`. -/
def Heartbeat.ID (env : Env) (h : Heartbeat) : String :=
  let branch := match h.Branch with
    | some b => b
    | none => "unset"
  let project := match h.Project with
    | some p => p
    | none => "unset"
  let isWrite := match h.IsWrite with
    | some w => w
    | none => false
  let cursorPos := match h.CursorPosition with
    | some c => toString c
    | none => "nil"
  env.fmtFloat h.Time ++ "-" ++ cursorPos ++ "-" ++ EntityType_String h.EntityType ++ "-"
    ++ env.categoryString h.Category ++ "-" ++ project ++ "-" ++ branch ++ "-" ++ h.Entity
    ++ "-" ++ (if isWrite then "true" else "false")

/-! ## The bolt bucket -/

/-- The bucket `heartbeats`: its key/value pairs in cursor order. -/
abbrev Bucket := List (String × String)

/-- Byte order on keys: `bytes.Compare(a, b) < 0`. -/
def keyLt (a b : String) : Bool := decide (a.data < b.data)

/-- Bolt `Bucket.Put` (once the key and value are accepted): the value of an
existing key is replaced, a new key is inserted at its place in key order. -/
def Bucket.Put : Bucket → String → String → Bucket
  | [], k, v => [(k, v)]
  | (k', v') :: rest, k, v =>
    if keyLt k k' then (k, v) :: (k', v') :: rest
    else if k = k' then (k, v) :: rest
    else (k', v') :: Bucket.Put rest k v

/-- Bolt `Bucket.Delete`: removes the key when present. -/
def Bucket.Delete (b : Bucket) (k : String) : Bucket :=
  b.filter (fun e => e.1 ≠ k)

/-- Bolt `Bucket.Get`. -/
def Bucket.Get (b : Bucket) (k : String) : Option String :=
  (b.find? (fun e => e.1 = k)).map Prod.snd

/-- The keys of a bucket, in cursor order. -/
def Bucket.keys (b : Bucket) : List String := b.map Prod.fst

/-- Invariant of a bolt bucket: keys strictly ascending in byte order. -/
def Bucket.WF (b : Bucket) : Prop := List.Sorted (· < ·) b.keys

/-! ## The offline queue (pkg/offline) -/

/-- The constant `maxRequeueAttempts`. -/
def maxRequeueAttempts : Nat := 3

/-- The constant `SendLimit`. -/
def SendLimit : Int := 25

/-- The constant `SyncMaxDefault`. -/
def SyncMaxDefault : Int := 1000

/-- The constant `math.MaxInt32`. -/
def MaxInt32 : Int := 2147483647

/-- The method `Queue.PushMany`, run on the bucket of the open transaction: the
bucket as the transaction then sees it, and the error returned (if any).
`CreateBucketIfNotExists` cannot fail in a writable transaction. -/
def PushMany (env : Env) : Bucket → List Heartbeat → Bucket × Option Err
  | b, [] => (b, none)
  | b, h :: hh =>
    match env.marshal h with
    | none => (b, some (.wrap "failed to json marshal heartbeat" (.text "json")))
    | some data =>
      if env.putOk (h.ID env) data then PushMany env (b.Put (h.ID env) data) hh
      else (b, some (.wrap "failed to store heartbeat" (.text (h.ID env))))

/-- The cursor loop of `Queue.PopMany`: `heartbeats` and `ids` collected so far,
over the entries the cursor has yet to visit. -/
def PopMany.load (env : Env) (limit : Int) :
    List (String × String) → List Heartbeat → List String →
      Except Err (List Heartbeat × List String)
  | [], heartbeats, ids => .ok (heartbeats, ids)
  | (key, value) :: rest, heartbeats, ids =>
    if (heartbeats.length : Int) ≥ limit then .ok (heartbeats, ids)
    else
      match env.unmarshal value with
      | none => .error (.wrap "failed to json unmarshal heartbeat data" (.text "json"))
      | some h => PopMany.load env limit rest (heartbeats ++ [h]) (ids ++ [key])

/-- The method `Queue.PopMany`, run on the bucket of the open transaction.
`Bucket.Delete` cannot fail in a writable transaction on a key holding a value. -/
def PopMany (env : Env) (b : Bucket) (limit : Int) : Except Err (List Heartbeat) × Bucket :=
  match PopMany.load env limit b [] [] with
  | .error e => (.error e, b)
  | .ok (heartbeats, ids) => (.ok heartbeats, ids.foldl Bucket.Delete b)

/-- The method `Queue.Count`. -/
def Count (b : Bucket) : Int := b.length

/-- What can go wrong around a transaction on the queue file. -/
inductive TxFault where
  | openDB
  | begin
  | commit
deriving DecidableEq, Repr

/-- The state the offline package acts on: the committed bucket of the queue
file, the faults the upcoming transactions will meet (one entry per
transaction, none left meaning no fault), and the seconds slept so far. -/
structure World where
  bucket : Bucket
  faults : List (Option TxFault)
  slept : List Nat
deriving DecidableEq, Repr

/-- Takes the fault of the transaction that starts now. -/
def World.nextFault (w : World) : Option TxFault × World :=
  match w.faults with
  | [] => (none, w)
  | f :: fs => (f, { w with faults := fs })

/-- The call `time.Sleep(secs * time.Second)`. -/
def World.sleep (w : World) (secs : Nat) : World :=
  { w with slept := w.slept ++ [secs] }

/-- The function `pushHeartbeats`: one transaction around `PushMany`; `none`
when the call does not return.  When `PushMany` fails the function returns
without `tx.Rollback()`, so the deferred `db.Close()` waits for the write
transaction that is still open, for ever.  The bucket of the file changes only
when the transaction commits: after a failed commit (which bolt rolls back)
the file holds what it held before. -/
def pushHeartbeats (env : Env) (w : World) (hh : List Heartbeat) :
    Option (Option Err × World) :=
  match w.nextFault with
  | (some .openDB, w1) => some (some (.wrap "failed to open db file" (.text "bolt")), w1)
  | (some .begin, w1) => some (some (.wrap "failed to start db transaction" (.text "bolt")), w1)
  | (f, w1) =>
    match PushMany env w1.bucket hh with
    | (_, some _) => none
    | (b, none) =>
      if f = some .commit then
        some (some (.wrap "failed to commit db transaction" (.text "bolt")), w1)
      else some (none, { w1 with bucket := b })

/-- The function `popHeartbeats`: one transaction around `PopMany`, rolled back
when `PopMany` fails and without effect when the commit fails. -/
def popHeartbeats (env : Env) (w : World) (limit : Int) :
    Except Err (List Heartbeat) × World :=
  match w.nextFault with
  | (some .openDB, w1) => (.error (.wrap "failed to open db file" (.text "bolt")), w1)
  | (some .begin, w1) => (.error (.wrap "failed to start db transaction" (.text "bolt")), w1)
  | (f, w1) =>
    match PopMany env w1.bucket limit with
    | (.error e, _) => (.error (.wrap "failed to pop heartbeat(s) from queue" e), w1)
    | (.ok queued, b) =>
      if f = some .commit then
        (.error (.wrap "failed to commit db transaction" (.text "bolt")), w1)
      else (.ok queued, { w1 with bucket := b })

/-- The loop of `pushHeartbeatsWithRetry`, entered with the current `count`
and `err`; `none` when an attempt does not return. -/
def pushHeartbeatsWithRetry.loop (env : Env) (hh : List Heartbeat)
    (count : Nat) (err : Option Err) (w : World) : Option (Option Err × World) :=
  if count ≥ maxRequeueAttempts then
    some (some (.abortRequeue count (err.getD (.text "%!s(<nil>)")) hh), w)
  else
    match pushHeartbeats env w hh with
    | none => none
    | some (some e, w1) =>
      pushHeartbeatsWithRetry.loop env hh (count + 1) (some e) (w1.sleep (2 ^ (count + 1)))
    | some (none, w1) => some (none, w1)
termination_by maxRequeueAttempts - count
decreasing_by omega

/-- The function `pushHeartbeatsWithRetry`; `none` when it does not return. -/
def pushHeartbeatsWithRetry (env : Env) (w : World) (hh : List Heartbeat) :
    Option (Option Err × World) :=
  pushHeartbeatsWithRetry.loop env hh 0 none w

/-- The first loop of `handleResults`, at index `n` over the results not yet
visited: the heartbeats collected in `withInvalidStatus`. -/
def handleResults.collect (hh : List Heartbeat) :
    Nat → List Result → List Heartbeat → List Heartbeat
  | _, [], withInvalidStatus => withInvalidStatus
  | n, result :: rest, withInvalidStatus =>
    match hh[n]? with
    | none => withInvalidStatus
    | some h =>
      if result.Status = 400 then handleResults.collect hh (n + 1) rest withInvalidStatus
      else if result.Status < 200 ∨ result.Status > 299 then
        handleResults.collect hh (n + 1) rest (withInvalidStatus ++ [h])
      else handleResults.collect hh (n + 1) rest withInvalidStatus

/-- The function `handleResults`; `none` when a push does not return. -/
def handleResults (env : Env) (w : World) (results : List Result) (hh : List Heartbeat) :
    Option (Option Err × World) :=
  let withInvalidStatus := handleResults.collect hh 0 results []
  let first : Option (Option Err × World) :=
    if withInvalidStatus.length > 0 then pushHeartbeatsWithRetry env w withInvalidStatus
    else some (none, w)
  match first with
  | none => none
  | some r1 =>
    let leftovers : Int := (hh.length : Int) - (results.length : Int)
    if leftovers > 0 then
      let start : Int := (hh.length : Int) - leftovers
      pushHeartbeatsWithRetry env r1.2 (hh.drop start.toNat)
    else some r1

/-- The handle returned by `WithQueue(filepath)(next)`; `none` when a push to
the queue does not return. -/
def WithQueue (env : Env) (next : Handle) (w : World) (hh : List Heartbeat) :
    Option (Except Err (List Result) × World) :=
  if hh.length = 0 then some (.ok [], w)
  else
    match next hh with
    | .error err =>
      match pushHeartbeatsWithRetry env w hh with
      | none => none
      | some (some requeueErr, w1) =>
        some (.error (.wrap "failed to push heartbeats to queue" requeueErr), w1)
      | some (none, w1) => some (.error err, w1)
    | .ok results =>
      match handleResults env w results hh with
      | none => none
      | some (some err, w1) => some (.error (.wrap "failed to handle results" err), w1)
      | some (none, w1) => some (.ok results, w1)

/-- The outcome of a run of `Sync`: the error returned, the state left, and
the batches popped and passed to `next`, in order. -/
structure SyncRun where
  err : Option Err
  world : World
  batches : List (List Heartbeat)
deriving DecidableEq, Repr

/-- The loop of `Sync`, entered with the current `alreadySent`; `fuel` bounds
the number of iterations.  The value is `none` when the call does not return
within them: the fuel runs out, or a push to the queue does not return. -/
def Sync.loop (env : Env) (next : Handle) (syncLimit : Int) :
    Nat → Int → World → List (List Heartbeat) → Option SyncRun
  | 0, _, _, _ => none
  | fuel + 1, alreadySent, w, batches =>
    if alreadySent ≥ syncLimit then some ⟨none, w, batches⟩
    else
      let over : Bool := decide (alreadySent + SendLimit > syncLimit)
      let num : Int := if over then syncLimit - alreadySent else SendLimit
      let alreadySent1 : Int := if over then alreadySent + num else alreadySent
      match popHeartbeats env w num with
      | (.error e, w1) =>
        some ⟨some (.wrap "failed to fetch heartbeat from offline queue" e), w1, batches⟩
      | (.ok hh, w1) =>
        if hh.length = 0 then some ⟨none, w1, batches⟩
        else
          match next hh with
          | .error err =>
            (pushHeartbeatsWithRetry env w1 hh).map
              (fun requeued => ⟨some err, requeued.2, batches ++ [hh]⟩)
          | .ok results =>
            match handleResults env w1 results hh with
            | none => none
            | some (some err, w2) =>
              some ⟨some (.wrap "failed to handle heartbeats api results" err), w2,
                batches ++ [hh]⟩
            | some (none, w2) =>
              Sync.loop env next syncLimit fuel alreadySent1 w2 (batches ++ [hh])

/-- The function returned by `Sync(ctx, filepath, syncLimit)`, applied to `next`. -/
def Sync (env : Env) (next : Handle) (fuel : Nat) (syncLimit : Int) (w : World) :
    Option SyncRun :=
  let syncLimit := if syncLimit = 0 then MaxInt32 else syncLimit
  Sync.loop env next syncLimit fuel 0 w []

/-! ## Sending heartbeats (cmd/heartbeat) -/

/-- What the main path of `SendHeartbeats` does with heartbeats, in order. -/
inductive Step where
  /-- The call `offlinecmd.SaveHeartbeats(ctx, v, hh, queueFilepath)`, with
  `none` for a nil slice. -/
  | saveOffline (hh : Option (List Heartbeat))
  /-- The statement `go func(done chan<- bool) { ... }(chOfflineSave)`: the worker
  that saves `extraHeartbeats` and then sends on `done`. -/
  | launchSave (extraHeartbeats : List Heartbeat)
  /-- The call `handle(ctx, heartbeats)` of the send pipeline. -/
  | handle (hh : List Heartbeat)
  /-- The receive `<-chOfflineSave`. -/
  | awaitSave
  /-- The call `ResetRateLimit(ctx, v)`. -/
  | resetRateLimit
deriving DecidableEq, Repr

/-- What `SendHeartbeats` gets from the functions it calls. -/
structure SendInput where
  /-- The error of `LoadParams(ctx, v)`, if any. -/
  paramsErr : Option Err
  /-- The field `params.Offline.Disabled`. -/
  offlineDisabled : Bool
  /-- The value of `RateLimited(...)`. -/
  rateLimited : Bool
  /-- The error of `offlinecmd.SaveHeartbeats(ctx, v, nil, queueFilepath)`, if any. -/
  saveErr : Option Err
  /-- The value of `buildHeartbeats(ctx, params)`. -/
  built : List Heartbeat
  /-- The error of `apicmd.NewClientWithoutAuth(ctx, params.API)`, if any. -/
  clientErr : Option Err
  /-- The pipeline `heartbeat.NewHandle(apiClient, handleOpts...)`. -/
  pipeline : Handle

/-- The function `SendHeartbeats`: the error it returns and the steps of its
main path. -/
def SendHeartbeats (i : SendInput) : Option Err × List Step :=
  match i.paramsErr with
  | some e => (some (.wrap "failed to load command parameters" e), [])
  | none =>
    if i.rateLimited ∧ i.saveErr = none then (none, [.saveOffline none])
    else
      let steps0 : List Step := if i.rateLimited then [.saveOffline none] else []
      let heartbeats := i.built
      let over : Bool := decide ((heartbeats.length : Int) > SendLimit)
      let steps1 : List Step :=
        if over then steps0 ++ [.launchSave (heartbeats.drop SendLimit.toNat)] else steps0
      let heartbeats := if over then heartbeats.take SendLimit.toNat else heartbeats
      match i.clientErr with
      | some e =>
        (some (.wrap "failed to initialize api client" e),
          if !i.offlineDisabled then steps1 ++ [.saveOffline (some heartbeats)] else steps1)
      | none =>
        let steps2 := steps1 ++ [.handle heartbeats]
        let steps3 : List Step :=
          if (heartbeats.length : Int) > SendLimit then steps2 ++ [.awaitSave] else steps2
        match i.pipeline heartbeats with
        | .error err => (some err, steps3)
        | .ok _ => (none, steps3 ++ [.resetRateLimit])

/-- The batch a step passes to the send pipeline. -/
def Step.sent : Step → Option (List Heartbeat)
  | .handle hh => some hh
  | _ => none

/-- The batch a step hands to the surplus-save worker. -/
def Step.surplus : Step → Option (List Heartbeat)
  | .launchSave hh => some hh
  | _ => none

/-- The batch a step hands to a synchronous offline save. -/
def Step.saved : Step → Option (List Heartbeat)
  | .saveOffline (some hh) => some hh
  | _ => none

/-! ## Go strings (package strings, path/filepath with separator `/`) -/

/-- The function `unicode.IsSpace`. -/
def isSpace (c : Char) : Bool :=
  c.toNat = 32 || (9 ≤ c.toNat && c.toNat ≤ 13) || c.toNat = 0x85 || c.toNat = 0xA0 ||
    c.toNat = 0x1680 || (0x2000 ≤ c.toNat && c.toNat ≤ 0x200a) || c.toNat = 0x2028 ||
    c.toNat = 0x2029 || c.toNat = 0x202f || c.toNat = 0x205f || c.toNat = 0x3000

/-- Removes the trailing characters that satisfy `p`. -/
def trimRightL (p : Char → Bool) : List Char → List Char
  | [] => []
  | c :: cs =>
    match trimRightL p cs with
    | [] => if p c then [] else [c]
    | d :: ds => c :: d :: ds

/-- Removes the leading and trailing characters that satisfy `p`. -/
def trimL (p : Char → Bool) (s : List Char) : List Char :=
  trimRightL p (s.dropWhile p)

/-- The function `strings.TrimSpace`. -/
def TrimSpace (s : String) : String := ⟨trimL isSpace s.data⟩

/-- The function `strings.Trim(s, cutset)`. -/
def Trim (s cutset : String) : String := ⟨trimL (fun c => cutset.data.contains c) s.data⟩

/-- The function `strings.HasPrefix`. -/
def HasPrefix (s pre : String) : Bool := pre.data.isPrefixOf s.data

/-- The function `strings.HasSuffix`. -/
def HasSuffix (s suf : String) : Bool := suf.data.reverse.isPrefixOf s.data.reverse

/-- The function `strings.TrimPrefix`. -/
def TrimPrefix (s pre : String) : String :=
  if HasPrefix s pre then ⟨s.data.drop pre.data.length⟩ else s

/-- The function `strings.TrimSuffix`. -/
def TrimSuffix (s suf : String) : String :=
  if HasSuffix s suf then ⟨s.data.take (s.data.length - suf.data.length)⟩ else s

/-- Splits at the first occurrence of `sep`: the text before and the text after. -/
def cutL (sep : Char) : List Char → Option (List Char × List Char)
  | [] => none
  | c :: cs =>
    if c = sep then some ([], cs)
    else
      match cutL sep cs with
      | some (a, b) => some (c :: a, b)
      | none => none

/-- The function `strings.SplitN(s, sep, n)` for a separator of one character
and `n ≥ 0`, on character lists. -/
def splitNL (sep : Char) : Nat → List Char → List (List Char)
  | 0, _ => []
  | 1, s => [s]
  | n + 2, s =>
    match cutL sep s with
    | none => [s]
    | some (a, b) => a :: splitNL sep (n + 1) b

/-- The function `strings.SplitN(s, sep, n)` for a separator of one character. -/
def SplitN (s : String) (sep : Char) (n : Nat) : List String :=
  (splitNL sep n s.data).map String.mk

/-- The function `strings.Split(s, sep)` for a separator of one character, on
character lists. -/
def splitL (sep : Char) : List Char → List (List Char)
  | [] => [[]]
  | c :: cs =>
    if c = sep then [] :: splitL sep cs
    else
      match splitL sep cs with
      | [] => [[c]]
      | p :: ps => (c :: p) :: ps

/-- The function `strings.Split(s, sep)` for a separator of one character. -/
def Split (s : String) (sep : Char) : List String := (splitL sep s.data).map String.mk

/-- The function `strings.ReplaceAll(s, old, new)` for `old` and `new` of one
character each. -/
def ReplaceAllChar (s : String) (old new : Char) : String :=
  ⟨s.data.map (fun c => if c = old then new else c)⟩

/-- Removes the occurrences of the non-empty text `old`, left to right; `fuel`
bounds the characters visited. -/
def removeAllL (old : List Char) : Nat → List Char → List Char
  | 0, s => s
  | _ + 1, [] => []
  | fuel + 1, c :: cs =>
    if old.isPrefixOf (c :: cs) then removeAllL old fuel ((c :: cs).drop old.length)
    else c :: removeAllL old fuel cs

/-- The function `strings.ReplaceAll(s, old, "")`; an empty `old` changes nothing. -/
def RemoveAll (s old : String) : String :=
  if old.data = [] then s else ⟨removeAllL old.data (s.data.length + 1) s.data⟩

/-- The function `strings.ToLower`, on the letters `A` to `Z`, for the places
where the result is only compared with `true` and `false`.  (Beyond these
letters Unicode lower-casing yields no ASCII letter but `i` and `k`, so no
letter of those two words.) -/
def ToLower (s : String) : String := ⟨s.data.map Char.toLower⟩

/-- The loop of `filepath.Ext`, from the last character backwards: `acc` is
the text already passed. -/
def Ext.scan : List Char → List Char → List Char
  | [], _ => []
  | c :: rest, acc =>
    if c = '/' then []
    else if c = '.' then '.' :: acc
    else Ext.scan rest (c :: acc)

/-- The function `filepath.Ext`: the suffix from the last dot of the last
path element, empty without such a dot. -/
def Ext (path : String) : String := ⟨Ext.scan path.data.reverse []⟩

/-- The text after the last `/` of a path: its base name. -/
def baseL (path : List Char) : List Char := (path.reverse.takeWhile (fun c => c ≠ '/')).reverse

/-- The function `firstNonEmptyString`. -/
def firstNonEmptyString : List String → String
  | [] => ""
  | v :: values => if v ≠ "" then v else firstNonEmptyString values

/-! ## Regular expressions (pkg/regex) -/

/-- The two engines behind the interface `regex.Regex`. -/
inductive RegexEngine where
  | regexp
  | regexp2
deriving DecidableEq, Repr

/-- A value of the interface `regex.Regex`: the wrapped engine and the source
text its `String` method returns. -/
structure Regex where
  engine : RegexEngine
  source : String
deriving DecidableEq, Repr

/-- The packages `regexp` and `regexp2`, by source text of the pattern. -/
structure RegexLib where
  /-- Whether `regexp.Compile` accepts the source. -/
  regexpCompiles : String → Bool
  /-- Whether `regexp2.Compile` accepts the source. -/
  regexp2Compiles : String → Bool
  /-- The method `MatchString` of a compiled `regexp.Regexp`. -/
  regexpMatch : String → String → Bool
  /-- The method `MatchString` of a compiled `regexp2.Regexp` (false on error). -/
  regexp2Match : String → String → Bool
  /-- The method `FindStringSubmatch` of a compiled `regexp.Regexp`. -/
  regexpFindStringSubmatch : String → String → List String

/-- The function `regex.Compile`. -/
def Compile (lib : RegexLib) (s : String) : Option Regex :=
  if lib.regexpCompiles s then some ⟨.regexp, s⟩
  else if lib.regexp2Compiles s then some ⟨.regexp2, s⟩
  else none

/-- The method `MatchString` of `regex.Regex`. -/
def Regex.MatchString (lib : RegexLib) (re : Regex) (s : String) : Bool :=
  match re.engine with
  | .regexp => lib.regexpMatch re.source s
  | .regexp2 => lib.regexp2Match re.source s

/-! ## Rate limit and pipeline (cmd/heartbeat, pkg/heartbeat) -/

/-- A `time.Time`: nanoseconds since the zero time. -/
abbrev GoTime := Int

/-- A `time.Duration`: nanoseconds, a 64-bit integer. -/
abbrev Duration := Int

def minDuration : Duration := -(2 ^ 63)

def maxDuration : Duration := 2 ^ 63 - 1

/-- The method `Time.IsZero`. -/
def GoTime.IsZero (t : GoTime) : Bool := decide (t = 0)

/-- The method `Time.Sub`: the difference, kept within the range of a Duration. -/
def GoTime.Sub (t u : GoTime) : Duration :=
  if t - u > maxDuration then maxDuration
  else if t - u < minDuration then minDuration
  else t - u

/-- The function `time.Since`, at the current time `now`. -/
def Since (now t : GoTime) : Duration := GoTime.Sub now t

/-- The struct `RateLimitParams`. -/
structure RateLimitParams where
  Disabled : Bool
  LastSentAt : GoTime
  Timeout : Duration
deriving DecidableEq, Repr

/-- The function `RateLimited`, at the current time `now`. -/
def RateLimited (now : GoTime) (params : RateLimitParams) : Bool :=
  if params.Disabled then false
  else if params.Timeout = 0 then false
  else if params.LastSentAt.IsZero then false
  else decide (Since now params.LastSentAt < params.Timeout)

/-- The type `heartbeat.HandleOption`. -/
abbrev HandleOption := Handle → Handle

/-- The loop of `NewHandle`: entered with `i + 1` for the loop variable `i`
(so `0` ends it), it wraps `handle` in `opts[i]` and goes on with `i - 1`. -/
def NewHandle.loop (opts : List HandleOption) : Nat → Handle → Handle
  | 0, handle => handle
  | i + 1, handle =>
    match opts[i]? with
    | some opt => NewHandle.loop opts i (opt handle)
    | none => NewHandle.loop opts i handle

/-- The function `NewHandle`; `sender` stands for `sender.SendHeartbeats`. -/
def NewHandle (sender : Handle) (opts : List HandleOption) : Handle :=
  fun hh => NewHandle.loop opts opts.length sender hh

/-! ## Sanitizing (pkg/heartbeat/sanitize.go) -/

/-- The source of `remoteAddressRegex`. -/
def remoteAddressSource : String :=
  "(?i)^((ssh|sftp)://)+(?P<credentials>[^:@]+(:([^:@])+)?@)?[^:]+(:\\d+)?"

/-- The method `Heartbeat.IsRemote`. -/
def Heartbeat.IsRemote (lib : RegexLib) (h : Heartbeat) : Bool :=
  if h.EntityType ≠ FileType then false
  else if h.IsUnsavedEntity then false
  else lib.regexpMatch remoteAddressSource h.Entity

/-- The struct `SanitizeConfig`. -/
structure SanitizeConfig where
  BranchPatterns : List Regex
  DependencyPatterns : List Regex
  FilePatterns : List Regex
  HideProjectFolder : Bool
  ProjectPatterns : List Regex
deriving DecidableEq, Repr

/-- The struct `SanitizeCheck`. -/
structure SanitizeCheck where
  Entity : String
  Patterns : List Regex
  ProjectPath : String
  ProjectPathOverride : String
deriving DecidableEq, Repr

/-- The function `ShouldSanitize`. -/
def ShouldSanitize (lib : RegexLib) (check : SanitizeCheck) : Bool :=
  check.Patterns.any (fun p =>
    p.MatchString lib check.Entity || p.MatchString lib check.ProjectPath ||
      p.MatchString lib check.ProjectPathOverride)

/-- The function `sanitizeMetaData`. -/
def sanitizeMetaData (h : Heartbeat) : Heartbeat :=
  { h with CursorPosition := none, LineNumber := none, Lines := none, ProjectRootCount := none }

/-- The statement `if !strings.HasSuffix(p, "/") { p += "/" }`. -/
def withSlash (p : String) : String := if HasSuffix p "/" = false then p ++ "/" else p

/-- The function `hideProjectFolder`. -/
def hideProjectFolder (h : Heartbeat) (hide : Bool) : Heartbeat :=
  if h.EntityType ≠ FileType ∨ hide = false then h
  else if h.ProjectPath ≠ "" ∧ HasPrefix h.Entity (withSlash h.ProjectPath) = true then
    { h with ProjectPath := withSlash h.ProjectPath,
             Entity := TrimPrefix h.Entity (withSlash h.ProjectPath),
             ProjectRootCount := none }
  else
    let h1 : Heartbeat :=
      if h.ProjectPath ≠ "" then { h with ProjectPath := withSlash h.ProjectPath } else h
    if h.ProjectPathOverride ≠ "" then
      { h1 with ProjectPathOverride := withSlash h.ProjectPathOverride,
                Entity := TrimPrefix h.Entity (withSlash h.ProjectPathOverride),
                ProjectRootCount := none }
    else h1

/-- The function `hideCredentials`: the group named `credentials` is the third
of `remoteAddressRegex`. -/
def hideCredentials (lib : RegexLib) (h : Heartbeat) : Heartbeat :=
  if h.IsRemote lib = false then h
  else
    match (lib.regexpFindStringSubmatch remoteAddressSource h.Entity)[3]? with
    | some creds => { h with Entity := RemoveAll h.Entity creds }
    | none => h

/-- The variable `check` of `Sanitize`, without patterns: it keeps the values
of the heartbeat as passed in. -/
def Sanitize.check (h : Heartbeat) : SanitizeCheck :=
  { Entity := h.Entity, Patterns := [], ProjectPath := h.ProjectPath,
    ProjectPathOverride := h.ProjectPathOverride }

/-- Block `project patterns` of `Sanitize`. -/
def Sanitize.projectPatterns (lib : RegexLib) (config : SanitizeConfig) (check : SanitizeCheck)
    (h : Heartbeat) : Heartbeat :=
  if h.Project.isSome ∧
      ShouldSanitize lib { check with Patterns := config.ProjectPatterns } = true
  then sanitizeMetaData h else h

/-- The assignment to `h.Entity` in block `file patterns` of `Sanitize`. -/
def Sanitize.hideEntity (h : Heartbeat) : Heartbeat :=
  if h.EntityType = FileType then { h with Entity := "HIDDEN" ++ Ext h.Entity }
  else { h with Entity := "HIDDEN" }

/-- Block `file patterns` of `Sanitize`. -/
def Sanitize.filePatterns (lib : RegexLib) (config : SanitizeConfig) (check : SanitizeCheck)
    (h : Heartbeat) : Heartbeat :=
  if ShouldSanitize lib { check with Patterns := config.FilePatterns } = true then
    let a : Heartbeat := Sanitize.hideEntity h
    let b : Heartbeat := if config.BranchPatterns.length = 0 then { a with Branch := none } else a
    let c : Heartbeat :=
      if config.DependencyPatterns.length = 0 then { b with Dependencies := [] } else b
    sanitizeMetaData c
  else h

/-- Block `branch patterns` of `Sanitize`. -/
def Sanitize.branchPatterns (lib : RegexLib) (config : SanitizeConfig) (check : SanitizeCheck)
    (h : Heartbeat) : Heartbeat :=
  if h.Branch.isSome ∧
      ShouldSanitize lib { check with Patterns := config.BranchPatterns } = true
  then { h with Branch := none } else h

/-- Block `dependency patterns` of `Sanitize`. -/
def Sanitize.dependencyPatterns (lib : RegexLib) (config : SanitizeConfig)
    (check : SanitizeCheck) (h : Heartbeat) : Heartbeat :=
  if h.Dependencies ≠ [] ∧
      ShouldSanitize lib { check with Patterns := config.DependencyPatterns } = true
  then { h with Dependencies := [] } else h

/-- The function `Sanitize`.  A nil and an empty `Dependencies` are both the
empty list, so the opening `if len(h.Dependencies) == 0` changes nothing. -/
def Sanitize (lib : RegexLib) (h : Heartbeat) (config : SanitizeConfig) : Heartbeat :=
  let check := Sanitize.check h
  hideCredentials lib
    (hideProjectFolder
      (Sanitize.dependencyPatterns lib config check
        (Sanitize.branchPatterns lib config check
          (Sanitize.filePatterns lib config check
            (Sanitize.projectPatterns lib config check h))))
      config.HideProjectFolder)

/-! ## Filtering (pkg/filter) and pattern lists (cmd/params) -/

/-- The function `filterByPattern`: the error that tells to skip, if any.
The parameter `quote` is the quoting of a string by the verb `%q` of `fmt`
(`strconv.Quote`). -/
def filterByPattern (lib : RegexLib) (quote : String → String) (entity : String)
    (includes excludes : List Regex) : Option Err :=
  if entity = "" then none
  else if includes.any (fun pattern => pattern.MatchString lib entity) then none
  else
    match excludes.find? (fun pattern => pattern.MatchString lib entity) with
    | some pattern =>
      some (.text ("skipping because matches exclude pattern " ++ quote pattern.source))
    | none => none

/-- The variable `matchAllRegex`. -/
def matchAllRegex : Regex := ⟨.regexp, ".*"⟩

/-- The variable `matchNoneRegex`. -/
def matchNoneRegex : Regex := ⟨.regexp, "a^"⟩

/-- The loop of `parseBoolOrRegexList` over the lines left, with the `patterns`
collected so far. -/
def parseBoolOrRegexList.lines (lib : RegexLib) : List String → List Regex → List Regex
  | [], patterns => patterns
  | s :: rest, patterns =>
    let s1 := Trim s "\n\t "
    if s1 = "" then parseBoolOrRegexList.lines lib rest patterns
    else
      let s2 := if HasPrefix s1 "(?i)" = false then "(?i)" ++ s1 else s1
      match Compile lib s2 with
      | none => parseBoolOrRegexList.lines lib rest patterns
      | some compiled => parseBoolOrRegexList.lines lib rest (patterns ++ [compiled])

/-- The function `parseBoolOrRegexList`: the patterns and the error. -/
def parseBoolOrRegexList (lib : RegexLib) (s : String) : List Regex × Option Err :=
  let s1 := ReplaceAllChar s '\r' '\n'
  let s2 := Trim s1 "\n\t "
  if s2 = "" then ([], none)
  else if ToLower s2 = "false" then ([matchNoneRegex], none)
  else if ToLower s2 = "true" then ([matchAllRegex], none)
  else (parseBoolOrRegexList.lines lib (Split s2 '\n') [], none)

/-! ## Project detection (pkg/project) -/

/-- The struct `project.Result`. -/
structure ProjectResult where
  Project : String
  Branch : String
  Folder : String
deriving DecidableEq, Repr

/-- The type `DetectorID`. -/
inductive DetectorID where
  | UnknownDetector
  | FileDetector
  | MapDetector
  | GitDetector
  | MercurialDetector
  | SubversionDetector
  | TfvcDetector
deriving DecidableEq, Repr

/-- The struct `MapPattern`. -/
structure MapPattern where
  Name : String
  Regex : Regex
deriving DecidableEq, Repr

/-- The struct `DetecterArg`. -/
structure DetecterArg where
  Filepath : String
  ShouldRun : Bool
deriving DecidableEq, Repr

/-- The struct `Submodule`. -/
structure Submodule where
  DisabledPatterns : List Regex
  MapPatterns : List MapPattern
deriving DecidableEq, Repr

/-- The struct `project.Config`. -/
structure ProjectConfig where
  HideProjectNames : List Regex
  MapPatterns : List MapPattern
  ProjectFromGitRemote : Bool
  Submodule : Submodule
deriving DecidableEq, Repr

/-- The triple `(Result, bool, error)` returned by the method `Detect` of a
detector. -/
structure Detection where
  result : ProjectResult
  detected : Bool
  err : Option Err
deriving DecidableEq, Repr

/-- What project detection reads from the machine: the answers of the
detectors on a path, the platform, and the path functions. -/
structure ProjectEnv where
  /-- The method `File.Detect`, by `Filepath`. -/
  fileDetect : String → Detection
  /-- The method `Map.Detect`, by `Filepath` and `Patterns`. -/
  mapDetect : String → List MapPattern → Detection
  /-- The method `Git.Detect`, by the fields of `Git`. -/
  gitDetect : String → Bool → List Regex → List MapPattern → Detection
  /-- The method `Mercurial.Detect`, by `Filepath`. -/
  mercurialDetect : String → Detection
  /-- The method `Subversion.Detect`, by `Filepath`. -/
  subversionDetect : String → Detection
  /-- The method `Tfvc.Detect`, by `Filepath`. -/
  tfvcDetect : String → Detection
  /-- The function `obfuscateProjectName` (a random name, written to disk). -/
  obfuscateProjectName : String → String
  /-- Whether `runtime.GOOS` is `windows`. -/
  isWindows : Bool
  /-- The function `windows.FormatFilePath`. -/
  windowsFormatFilePath : String → String
  /-- The function `filepath.Dir`. -/
  Dir : String → String
  /-- The result of `filepath.Abs` followed by `realpath.Realpath`, as
  `FormatProjectFolder` returns it for a non-empty path. -/
  absRealpath : String → String

/-- The inner loop of `Detect` and `DetectWithRevControl` over the detectors
of one argument. -/
def runDetecters : List (DetectorID × Detection) → Option (ProjectResult × DetectorID)
  | [] => none
  | (id, d) :: rest =>
    if d.err.isSome then runDetecters rest
    else if d.detected then some (d.result, id)
    else runDetecters rest

/-- The function `Detect`. -/
def Detect (env : ProjectEnv) (patterns : List MapPattern) :
    List DetecterArg → ProjectResult × DetectorID
  | [] => (⟨"", "", ""⟩, .UnknownDetector)
  | arg :: args =>
    if arg.ShouldRun = false ∨ arg.Filepath = "" then Detect env patterns args
    else
      match runDetecters [(.FileDetector, env.fileDetect arg.Filepath),
          (.MapDetector, env.mapDetect arg.Filepath patterns)] with
      | some r => r
      | none => Detect env patterns args

/-- The function `DetectWithRevControl`. -/
def DetectWithRevControl (env : ProjectEnv) (submoduleDisabledPatterns : List Regex)
    (submoduleProjectMapPatterns : List MapPattern) (projectFromGitRemote : Bool) :
    List DetecterArg → ProjectResult
  | [] => ⟨"", "", ""⟩
  | arg :: args =>
    if arg.ShouldRun = false ∨ arg.Filepath = "" then
      DetectWithRevControl env submoduleDisabledPatterns submoduleProjectMapPatterns
        projectFromGitRemote args
    else
      match runDetecters [
          (.GitDetector, env.gitDetect arg.Filepath projectFromGitRemote
            submoduleDisabledPatterns submoduleProjectMapPatterns),
          (.MercurialDetector, env.mercurialDetect arg.Filepath),
          (.SubversionDetector, env.subversionDetect arg.Filepath),
          (.TfvcDetector, env.tfvcDetect arg.Filepath)] with
      | some r => r.1
      | none =>
        DetectWithRevControl env submoduleDisabledPatterns submoduleProjectMapPatterns
          projectFromGitRemote args

/-- The function `CountSlashesInProjectFolder`. -/
def CountSlashesInProjectFolder (env : ProjectEnv) (directory : String) : Int :=
  if directory = "" then 0
  else
    let d1 := env.windowsFormatFilePath directory
    let d2 := if HasSuffix d1 "/" = false then d1 ++ "/" else d1
    (d2.data.count '/' : Nat)

/-- The function `FormatProjectFolder`. -/
def FormatProjectFolder (env : ProjectEnv) (fp : String) : String :=
  if fp = "" then ""
  else if env.isWindows then env.windowsFormatFilePath fp
  else env.absRealpath fp

/-- The arguments `WithDetection` passes to `Detect` and `DetectWithRevControl`. -/
def WithDetection.args (h : Heartbeat) : List DetecterArg :=
  [⟨h.Entity, decide (h.EntityType = FileType)⟩, ⟨h.ProjectPathOverride, true⟩]

/-- Step `second, use project override` of `WithDetection`. -/
def WithDetection.useOverride (h : Heartbeat) (result : ProjectResult) : ProjectResult :=
  if result.Project = "" ∧ h.ProjectOverride ≠ "" then
    { result with Project := h.ProjectOverride, Folder := h.ProjectPathOverride }
  else result

/-- Step `third, autodetect with revision control` of `WithDetection`. -/
def WithDetection.useRevControl (env : ProjectEnv) (config : ProjectConfig) (h : Heartbeat)
    (result : ProjectResult) : ProjectResult :=
  if result.Project = "" ∨ result.Branch = "" ∨ result.Folder = "" then
    let revControlResult := DetectWithRevControl env config.Submodule.DisabledPatterns
      config.Submodule.MapPatterns config.ProjectFromGitRemote (WithDetection.args h)
    { Project := firstNonEmptyString [result.Project, revControlResult.Project],
      Branch := firstNonEmptyString [result.Branch, revControlResult.Branch],
      Folder := firstNonEmptyString [result.Folder, revControlResult.Folder] }
  else result

/-- Step `fourth, use alternate project` of `WithDetection`. -/
def WithDetection.useAlternateProject (h : Heartbeat) (result : ProjectResult) :
    ProjectResult :=
  if result.Project = "" ∧ h.ProjectAlternate ≠ "" then
    { result with Project := h.ProjectAlternate,
                  Folder := firstNonEmptyString [h.ProjectPathOverride, result.Folder] }
  else result

/-- Step `fifth, use alternate branch` of `WithDetection`. -/
def WithDetection.useAlternateBranch (h : Heartbeat) (result : ProjectResult) :
    ProjectResult :=
  if result.Branch = "" ∧ h.BranchAlternate ≠ "" then { result with Branch := h.BranchAlternate }
  else result

/-- Steps `sixth` and `seventh` of `WithDetection` and the Windows formatting:
the folder found, else the project folder, else the directory of a file entity. -/
def WithDetection.useFolder (env : ProjectEnv) (h : Heartbeat) (result : ProjectResult) :
    ProjectResult :=
  let r5 : ProjectResult :=
    { result with Folder := firstNonEmptyString [result.Folder, h.ProjectPathOverride] }
  let r6 : ProjectResult :=
    if h.EntityType = FileType ∧ r5.Folder = "" then { r5 with Folder := env.Dir h.Entity }
    else r5
  if env.isWindows = true ∧ r6.Folder ≠ "" then
    { r6 with Folder := env.windowsFormatFilePath r6.Folder }
  else r6

/-- Step `finally, obfuscate project name if necessary` of `WithDetection`. -/
def WithDetection.obfuscate (env : ProjectEnv) (lib : RegexLib) (config : ProjectConfig)
    (h : Heartbeat) (detector : DetectorID) (result : ProjectResult) : ProjectResult :=
  if ShouldSanitize lib
      { Entity := h.Entity, ProjectPath := result.Folder, Patterns := config.HideProjectNames,
        ProjectPathOverride := h.ProjectPathOverride } = true
      ∧ result.Project ≠ "" ∧ detector ≠ .FileDetector then
    { result with Project := env.obfuscateProjectName result.Folder }
  else result

/-- The body of the loop of `WithDetection` for one heartbeat, up to and
including `result.Folder = FormatProjectFolder(ctx, result.Folder)`: the value
of `result` there. -/
def WithDetection.result (env : ProjectEnv) (lib : RegexLib) (config : ProjectConfig)
    (h : Heartbeat) : ProjectResult :=
  let found := Detect env config.MapPatterns (WithDetection.args h)
  let r := WithDetection.obfuscate env lib config h found.2
    (WithDetection.useFolder env h
      (WithDetection.useAlternateBranch h
        (WithDetection.useAlternateProject h
          (WithDetection.useRevControl env config h
            (WithDetection.useOverride h found.1)))))
  { r with Folder := FormatProjectFolder env r.Folder }

/-- Step `count total subfolders in project's path` of `WithDetection`. -/
def WithDetection.countSubfolders (env : ProjectEnv) (h : Heartbeat) (result : ProjectResult) :
    Heartbeat :=
  if result.Folder ≠ "" ∧ HasPrefix h.Entity result.Folder = true then
    if CountSlashesInProjectFolder env result.Folder > 0 then
      { h with ProjectRootCount := some (CountSlashesInProjectFolder env result.Folder) }
    else h
  else h

/-- The last three assignments of the loop of `WithDetection`. -/
def WithDetection.assign (h : Heartbeat) (result : ProjectResult) : Heartbeat :=
  { h with Project := some result.Project, Branch := some result.Branch,
           ProjectPath := result.Folder }

/-- The body of the loop of `WithDetection` for one heartbeat: the heartbeat
as the loop leaves it in the batch. -/
def WithDetection.one (env : ProjectEnv) (lib : RegexLib) (config : ProjectConfig)
    (h : Heartbeat) : Heartbeat :=
  WithDetection.assign
    (WithDetection.countSubfolders env h (WithDetection.result env lib config h))
    (WithDetection.result env lib config h)

/-- The files `findGitBranch` and `findGitRemote` read. -/
structure FileSystem where
  /-- The function `fileOrDirExists`. -/
  fileOrDirExists : String → Bool
  /-- The lines a scanner yields from the opened file, or the error of `os.Open`. -/
  scanLines : String → Except Err (List String)

/-- The function `ReadFile`. -/
def ReadFile (fs : FileSystem) (fp : String) (max : Nat) : Except Err (List String) :=
  if fp = "" then .error (.text "filepath cannot be empty")
  else
    match fs.scanLines fp with
    | .error e => .error (.wrap "failed while opening file" e)
    | .ok lines => .ok (lines.take max)

/-- The function `findGitBranch`. -/
def findGitBranch (fs : FileSystem) (fp : String) : Except Err String :=
  if fs.fileOrDirExists fp = false then .ok "master"
  else
    match ReadFile fs fp 1 with
    | .error e => .error (.wrap "failed while opening file" e)
    | .ok lines =>
      match lines with
      | line0 :: _ =>
        if HasPrefix (TrimSpace line0) "ref: " then
          if (SplitN line0 '/' 3).length < 3 then .ok ""
          else .ok (TrimSpace ((SplitN line0 '/' 3).getD 2 ""))
        else .ok ""
      | [] => .ok ""

/-- The inner loop of `findGitRemote` over the lines after the line
`[remote "origin"]`: `none` when it breaks or runs out of lines. -/
def findGitRemote.sublines : List String → Option (Except Err String)
  | [] => none
  | subline :: rest =>
    if HasPrefix subline "[" then none
    else if HasPrefix (TrimSpace subline) "url = " then
      let remote := Trim subline "\n\r\t"
      let parts := SplitN remote '=' 2
      if parts.length ≠ 2 then some (.error (.text ("invalid origin url: " ++ subline)))
      else
        let parts2 := SplitN (parts.getD 1 "") ':' 2
        if parts2.length ≠ 2 then some (.error (.text ("invalid origin url: " ++ subline)))
        else some (.ok (TrimSpace (TrimSuffix (parts2.getD 1 "") ".git")))
    else findGitRemote.sublines rest

/-- The outer loop of `findGitRemote` over the lines. -/
def findGitRemote.lines : List String → Except Err String
  | [] => .ok ""
  | line :: rest =>
    if Trim line "\n\r\t" ≠ "[remote \"origin\"]" then findGitRemote.lines rest
    else
      match findGitRemote.sublines rest with
      | some r => r
      | none => findGitRemote.lines rest

/-- The function `findGitRemote`. -/
def findGitRemote (fs : FileSystem) (fp : String) : Except Err String :=
  if fs.fileOrDirExists fp = false then .ok ""
  else
    match ReadFile fs fp 1000 with
    | .error e => .error (.wrap "failed while opening file" e)
    | .ok lines => findGitRemote.lines lines

/-! ## Paths (package path/filepath, separator `/`) -/

/-- The function `strings.ToUpper`, on the letters `a` to `z`. -/
def ToUpper (s : String) : String := ⟨s.data.map Char.toUpper⟩

/-- The function `strings.Join` with the separator `/`, on character lists. -/
def joinSlashL : List (List Char) → List Char
  | [] => []
  | [e] => e
  | e :: rest => e ++ '/' :: joinSlashL rest

/-- The elements `filepath.Clean` keeps, most recent first: `stack` holds the
elements kept so far.  A `..` removes the element before it, stays when
nothing is left to remove in a relative path, and is dropped at the root. -/
def cleanL.walk (rooted : Bool) : List (List Char) → List (List Char) → List (List Char)
  | [], stack => stack
  | e :: rest, stack =>
    if e = [] ∨ e = ['.'] then cleanL.walk rooted rest stack
    else if e = ['.', '.'] then
      match stack with
      | top :: below =>
        if top = ['.', '.'] then cleanL.walk rooted rest (e :: stack)
        else cleanL.walk rooted rest below
      | [] => if rooted then cleanL.walk rooted rest [] else cleanL.walk rooted rest [e]
    else cleanL.walk rooted rest (e :: stack)

/-- The function `filepath.Clean`, on character lists. -/
def cleanL (path : List Char) : List Char :=
  if path = [] then ['.']
  else
    let rooted : Bool := path.head? = some '/'
    let kept := (cleanL.walk rooted (splitL '/' path) []).reverse
    if rooted then '/' :: joinSlashL kept
    else if kept = [] then ['.']
    else joinSlashL kept

/-- The function `filepath.Clean`. -/
def Clean (path : String) : String := ⟨cleanL path.data⟩

/-- The text up to and including the last `/` of a path (empty without one). -/
def dirPartL (path : List Char) : List Char :=
  path.take (path.length - (baseL path).length)

/-- The function `filepath.Split`: the directory part, ending in `/`, and the
file name. -/
def filepathSplit (path : String) : String × String := (⟨dirPartL path.data⟩, ⟨baseL path.data⟩)

/-- The function `filepath.Dir`. -/
def Dir (path : String) : String := ⟨cleanL (dirPartL path.data)⟩

/-- The function `filepath.Base`. -/
def Base (path : String) : String :=
  if path = "" then "."
  else if baseL (trimRightL (fun c => c == '/') path.data) = [] then "/"
  else ⟨baseL (trimRightL (fun c => c == '/') path.data)⟩

/-- The function `filepath.Join`. -/
def Join : List String → String
  | [] => ""
  | e :: rest => if e ≠ "" then ⟨cleanL (joinSlashL ((e :: rest).map String.data))⟩ else Join rest

/-! ## Finding a repository (pkg/project) -/

/-- The constant `maxRecursiveIteration`. -/
def maxRecursiveIteration : Nat := 500

/-- The pattern `driveLetterRegex`, a letter followed by a colon and a backslash. -/
def driveLetterMatch (s : String) : Bool :=
  match s.data with
  | [c, ':', '\\'] => (decide ('a' ≤ c ∧ c ≤ 'z')) || (decide ('A' ≤ c ∧ c ≤ 'Z'))
  | _ => false

/-- The function `filepath.VolumeName`: empty where the separator is `/`. -/
def VolumeName (_path : String) : String := ""

/-- The function `isRootPath`. -/
def isRootPath (directory : String) : Bool :=
  decide (directory = "" ∨ directory = "." ∨ directory = "/" ∨ directory = Dir directory
    ∨ directory = VolumeName directory ∨ directory = "\\\\wsl$") || driveLetterMatch directory

/-- The loop of `FindFileOrDirectory`, with `fuel` iterations left of the
`maxRecursiveIteration`. -/
def FindFileOrDirectory.loop (fs : FileSystem) (filename : String) :
    Nat → String → String × Bool
  | 0, _ => ("", false)
  | fuel + 1, directory =>
    if isRootPath directory then ("", false)
    else if fs.fileOrDirExists (Join [directory, filename]) then (Join [directory, filename], true)
    else FindFileOrDirectory.loop fs filename fuel (Clean (Join [directory, ".."]))

/-- The function `FindFileOrDirectory`. -/
def FindFileOrDirectory (fs : FileSystem) (directory filename : String) : String × Bool :=
  FindFileOrDirectory.loop fs filename maxRecursiveIteration directory

/-- The function `findHgBranch`. -/
def findHgBranch (fs : FileSystem) (fp : String) : Except Err String :=
  if fs.fileOrDirExists (Join [fp, "branch"]) = false then .ok "default"
  else
    match ReadFile fs (Join [fp, "branch"]) 1 with
    | .error e => .error (.wrap "failed while opening file" e)
    | .ok lines =>
      match lines with
      | line :: _ => .ok (TrimSpace line)
      | [] => .ok "default"

/-- The method `Mercurial.Detect`, by the field `Filepath`. -/
def Mercurial.Detect (fs : FileSystem) (Filepath : String) : Detection :=
  let fp := if fs.fileOrDirExists Filepath then Dir Filepath else ""
  match FindFileOrDirectory fs fp ".hg" with
  | (_, false) => ⟨⟨"", "", ""⟩, false, none⟩
  | (hgDirectory, true) =>
    let project := Base (Dir hgDirectory)
    let branch := match findHgBranch fs hgDirectory with
      | .ok b => b
      | .error _ => ""
    ⟨⟨project, branch, Dir (Dir hgDirectory)⟩, true, none⟩

/-- The method `Tfvc.Detect`, by the field `Filepath`; `isWindows` tells
whether `runtime.GOOS` is `windows`. -/
def Tfvc.Detect (fs : FileSystem) (isWindows : Bool) (Filepath : String) : Detection :=
  let fp := if fs.fileOrDirExists Filepath then Dir Filepath else ""
  let tfFolderName := if isWindows then "$tf" else ".tf"
  match FindFileOrDirectory fs fp (Join [tfFolderName, "properties.tf1"]) with
  | (_, false) => ⟨⟨"", "", ""⟩, false, none⟩
  | (tfDirectory, true) =>
    let project := Base (Join [tfDirectory, "..", ".."])
    ⟨⟨project, "", Dir (Join [tfDirectory, "..", ".."])⟩, true, none⟩

/-! ## Language detection by file name (pkg/language) -/

/-- The constants of `heartbeat.Language` that `detectSpecialCases` returns.
The type and its constants are declared outside the embedded sources, so they
are a parameter. -/
structure LanguageNames (Language : Type) where
  LanguageUnknown : Language
  LanguageGo : Language
  LanguageCMake : Language
  LanguageC : Language
  LanguageObjectiveC : Language
  LanguageObjectiveCPP : Language
  LanguageCPP : Language

/-- The case mappings of package `unicode` for the runes above
`unicode.MaxASCII`; the tables are outside the embedded sources. -/
structure CaseTables where
  /-- The function `unicode.ToLower` on a rune above `MaxASCII`. -/
  lower : Char → Char
  /-- The function `unicode.ToUpper` on a rune above `MaxASCII`. -/
  upper : Char → Char

/-- The function `strings.ToLower`, rune by rune: up to `MaxASCII` the letters
`A` to `Z` are shifted and every other rune is kept, above it the tables map
the rune. -/
def CaseTables.ToLower (t : CaseTables) (s : String) : String :=
  ⟨s.data.map (fun c => if c.toNat < 128 then c.toLower else t.lower c)⟩

/-- The function `strings.ToUpper`, rune by rune. -/
def CaseTables.ToUpper (t : CaseTables) (s : String) : String :=
  ⟨s.data.map (fun c => if c.toNat < 128 then c.toUpper else t.upper c)⟩

/-- The UTF-8 encoding of a rune. -/
def utf8Bytes (c : Char) : List Nat :=
  let n := c.toNat
  if n < 0x80 then [n]
  else if n < 0x800 then [0xC0 + n / 64, 0x80 + n % 64]
  else if n < 0x10000 then [0xE0 + n / 4096, 0x80 + n / 64 % 64, 0x80 + n % 64]
  else [0xF0 + n / 262144, 0x80 + n / 4096 % 64, 0x80 + n / 64 % 64, 0x80 + n % 64]

/-- The bytes of a Go string. -/
def bytesOf (s : String) : List Nat := (s.data.map utf8Bytes).flatten

/-- What language detection reads from the disk. -/
structure Disk where
  /-- Whether `os.Stat` on the path, given as its bytes, returns no error. -/
  statOk : List Nat → Bool
  /-- The names `os.ReadDir` lists for a directory, or its error. -/
  readDir : String → Except Err (List String)

/-- The function `loadFolderExtensions`. -/
def loadFolderExtensions (t : CaseTables) (disk : Disk) (dir : String) :
    Except Err (List String) :=
  match disk.readDir dir with
  | .error e => .error (.wrap "failed to read directory" e)
  | .ok files => .ok (files.map (fun name => t.ToLower (Ext (filepathSplit name).2)))

/-- The function `folderContainsCFiles`. -/
def folderContainsCFiles (t : CaseTables) (disk : Disk) (dir : String) : Bool :=
  match loadFolderExtensions t disk dir with
  | .error _ => false
  | .ok extensions => extensions.any (fun e => e = ".c")

/-- The variable `cppExtensions` of `folderContainsCPPFiles`. -/
def cppExtensions : List String :=
  [".cpp", ".hpp", ".c++", ".h++", ".cc", ".hh", ".cxx", ".hxx", ".C", ".H", ".cp", ".CPP"]

/-- The function `folderContainsCPPFiles`. -/
def folderContainsCPPFiles (t : CaseTables) (disk : Disk) (dir : String) : Bool :=
  match loadFolderExtensions t disk dir with
  | .error _ => false
  | .ok extensions => cppExtensions.any (fun cppExt => extensions.any (fun e => e = cppExt))

/-- The function `correspondingFileExists`.  The lengths in the slice
`fp[:len(fp)-len(ext)]` count bytes, and `ext` is the lower-cased extension:
where lower-casing changes the byte length of the extension, the cut is not at
the dot, and where the lower-cased extension is longer than the whole path the
slice expression panics (the value `none`). -/
def correspondingFileExists (t : CaseTables) (disk : Disk) (fp extension : String) :
    Option Bool :=
  let ext := t.ToLower (Ext (filepathSplit fp).2)
  if (bytesOf fp).length < (bytesOf ext).length then none
  else
    let noExtension : List Nat := (bytesOf fp).take ((bytesOf fp).length - (bytesOf ext).length)
    some ([extension, t.ToUpper extension].any
      (fun ext => disk.statOk (noExtension ++ bytesOf ext)))

/-- The C family part of `detectSpecialCases`, entered when the extension
starts with `.h` or `.c`: `some none` when it falls through, `none` when it
panics. -/
def detectSpecialCases.cFamily {Language : Type} (t : CaseTables) (k : LanguageNames Language)
    (disk : Disk) (fp dir : String) : Option (Option Language) :=
  match correspondingFileExists t disk fp ".c" with
  | none => none
  | some true => some (some k.LanguageC)
  | some false =>
    match correspondingFileExists t disk fp ".m" with
    | none => none
    | some true => some (some k.LanguageObjectiveC)
    | some false =>
      match correspondingFileExists t disk fp ".mm" with
      | none => none
      | some true => some (some k.LanguageObjectiveCPP)
      | some false =>
        if folderContainsCPPFiles t disk dir then some (some k.LanguageCPP)
        else if folderContainsCFiles t disk dir then some (some k.LanguageC)
        else some none

/-- The end of `detectSpecialCases`: the tests on `.m` and `.mm`, where
`correspondingFileExists` is called only after the test on `ext` holds. -/
def detectSpecialCases.objectiveC {Language : Type} (t : CaseTables)
    (k : LanguageNames Language) (disk : Disk) (fp ext : String) : Option (Language × Bool) :=
  match (if ext = ".m" then correspondingFileExists t disk fp ".h" else some false) with
  | none => none
  | some true => some (k.LanguageObjectiveC, true)
  | some false =>
    match (if ext = ".mm" then correspondingFileExists t disk fp ".h" else some false) with
    | none => none
    | some true => some (k.LanguageObjectiveCPP, true)
    | some false => some (k.LanguageUnknown, false)

/-- The function `detectSpecialCases`; `none` when it panics. -/
def detectSpecialCases {Language : Type} (t : CaseTables) (k : LanguageNames Language)
    (disk : Disk) (fp : String) : Option (Language × Bool) :=
  let dir := (filepathSplit fp).1
  let file := (filepathSplit fp).2
  let ext := t.ToLower (Ext file)
  if file = "go.mod" then some (k.LanguageGo, true)
  else if file = "CMmakeLists.txt" then some (k.LanguageCMake, true)
  else if HasPrefix ext ".h" = true ∨ HasPrefix ext ".c" = true then
    match detectSpecialCases.cFamily t k disk fp dir with
    | none => none
    | some (some language) => some (language, true)
    | some none => detectSpecialCases.objectiveC t k disk fp ext
  else detectSpecialCases.objectiveC t k disk fp ext

/-! ## The api key of a heartbeat (pkg/apikey) -/

/-- The struct `apikey.MapPattern`. -/
structure KeyPattern where
  APIKey : String
  Regex : Regex
deriving DecidableEq, Repr

/-- The struct `apikey.Config`. -/
structure KeyConfig where
  DefaultAPIKey : String
  MapPatterns : List KeyPattern
deriving DecidableEq, Repr

/-- The function `apikey.MatchPattern`. -/
def MatchPattern (lib : RegexLib) (fp : String) : List KeyPattern → String × Bool
  | [] => ("", false)
  | pattern :: patterns =>
    if pattern.Regex.MatchString lib fp then (pattern.APIKey, true)
    else MatchPattern lib fp patterns

/-- The body of the loop of `apikey.WithReplacing` for one heartbeat. -/
def WithReplacing.one (lib : RegexLib) (config : KeyConfig) (h : Heartbeat) : Heartbeat :=
  match MatchPattern lib h.Entity config.MapPatterns with
  | (result, true) => { h with APIKey := result }
  | (_, false) => { h with APIKey := config.DefaultAPIKey }

/-- The handle returned by `apikey.WithReplacing(config)(next)`. -/
def WithReplacing (lib : RegexLib) (config : KeyConfig) (next : Handle) : Handle :=
  fun hh => next (hh.map (WithReplacing.one lib config))

/-- The handle returned by `heartbeat.WithSanitization(config)(next)`. -/
def WithSanitization (lib : RegexLib) (config : SanitizeConfig) (next : Handle) : Handle :=
  fun hh => next (hh.map (fun h => Sanitize lib h config))

/-! ## Extra heartbeats (cmd/params) -/

/-- A Go value of type `any`: what `encoding/json` stores in such a field
(nil, a bool, a float64, a string, an array or object) and, for values a
caller builds, an int. -/
inductive AnyValue where
  | nil
  | bool (b : Bool)
  | float64 (f : Float64)
  | string (s : String)
  | int (n : Int)
  | other
deriving DecidableEq, Repr

/-- The comparison `v != nil` of a value of type `any`. -/
def AnyValue.neNil (v : AnyValue) : Bool := decide (v ≠ .nil)

/-- The comparison `v != 0` of a value of type `any`: the constant is the int
`0`, and two interface values are equal only when their dynamic types agree. -/
def AnyValue.neZero (v : AnyValue) : Bool := decide (v ≠ .int 0)

/-- The struct `ExtraHeartbeat`. -/
structure ExtraHeartbeat where
  BranchAlternate : String
  Category : Category
  CursorPosition : AnyValue
  Entity : String
  EntityType : String
  /-- The field `Type` (JSON `type`). -/
  Type_ : String
  IsUnsavedEntity : AnyValue
  IsWrite : AnyValue
  Language : Option String
  LanguageAlternate : String
  LineAdditions : AnyValue
  LineDeletions : AnyValue
  LineNumber : AnyValue
  Lines : AnyValue
  Project : String
  ProjectAlternate : String
  Time : AnyValue
  Timestamp : AnyValue
deriving DecidableEq, Repr

/-- What `parseExtraHeartbeat` takes from outside the repository. -/
structure ParseEnv where
  /-- The function `homedir.Expand`. -/
  homedirExpand : String → Except Err String
  /-- The function `strconv.Atoi`; `none` when it returns an error. -/
  Atoi : String → Option Int
  /-- The function `strconv.ParseFloat(s, 64)`; `none` when it returns an error. -/
  ParseFloat : String → Option Float64
  /-- The conversion `int(f)` of a float64. -/
  floatToInt : Float64 → Int

/-- The function `strconv.ParseBool`; `none` when it returns an error. -/
def ParseBool (str : String) : Option Bool :=
  if str = "1" ∨ str = "t" ∨ str = "T" ∨ str = "true" ∨ str = "TRUE" ∨ str = "True" then
    some true
  else if str = "0" ∨ str = "f" ∨ str = "F" ∨ str = "false" ∨ str = "FALSE" ∨ str = "False" then
    some false
  else none

/-- The function `heartbeat.ParseEntityType`. -/
def ParseEntityType (s : String) : Except Err EntityType :=
  if s = "file" then .ok FileType
  else if s = "domain" then .ok DomainType
  else if s = "url" then .ok URLType
  else if s = "event" then .ok EventType
  else if s = "app" then .ok AppType
  else .error (.text ("invalid entity type " ++ s))

/-- The type switches of `parseExtraHeartbeat` that fill a `*int`. -/
def parseExtraHeartbeat.intField (env : ParseEnv) (what : String) :
    AnyValue → Except Err (Option Int)
  | .float64 f => .ok (some (env.floatToInt f))
  | .string s =>
    match env.Atoi s with
    | some val => .ok (some val)
    | none => .error (.wrap ("failed to convert " ++ what ++ " to int") (.text s))
  | _ => .ok none

/-- The type switch of `parseExtraHeartbeat` on `h.IsWrite`. -/
def parseExtraHeartbeat.isWrite : AnyValue → Except Err (Option Bool)
  | .bool b => .ok (some b)
  | .string s =>
    match ParseBool s with
    | some val => .ok (some val)
    | none => .error (.wrap "failed to convert is write to bool" (.text s))
  | _ => .ok none

/-- The type switches of `parseExtraHeartbeat` on `h.Time` and `h.Timestamp`. -/
def parseExtraHeartbeat.floatField (env : ParseEnv) (what : String) :
    AnyValue → Except Err Float64
  | .float64 f => .ok f
  | .string s =>
    match env.ParseFloat s with
    | some val => .ok val
    | none => .error (.wrap ("failed to convert " ++ what ++ " to float64") (.text s))
  | _ => .ok 0

/-- The switch of `parseExtraHeartbeat` that chooses `timestampParsed`. -/
def parseExtraHeartbeat.timestampParsed (h : ExtraHeartbeat) (time timestamp : Float64) :
    Except Err Float64 :=
  if h.Time.neNil && h.Time.neZero then .ok time
  else if h.Timestamp.neNil && h.Timestamp.neZero then .ok timestamp
  else .error (.text "skipping extra heartbeat, as no valid timestamp was defined")

/-- The type switch of `parseExtraHeartbeat` on `h.IsUnsavedEntity`. -/
def parseExtraHeartbeat.isUnsavedEntity : AnyValue → Except Err Bool
  | .bool b => .ok b
  | .string s =>
    match ParseBool s with
    | some val => .ok val
    | none => .error (.wrap "failed to convert is_unsaved_entity to bool" (.text s))
  | _ => .ok false

/-- The entity type `parseExtraHeartbeat` derives from `type` and `entity_type`. -/
def parseExtraHeartbeat.entityType (h : ExtraHeartbeat) : Except Err EntityType :=
  if firstNonEmptyString [h.Type_, h.EntityType] ≠ "" then
    ParseEntityType (firstNonEmptyString [h.Type_, h.EntityType])
  else .ok 0

/-- The heartbeat `parseExtraHeartbeat` returns, from the values it parsed. -/
def parseExtraHeartbeat.build (h : ExtraHeartbeat) (entity : String) (entityType : EntityType)
    (cursorPosition : Option Int) (isWrite : Option Bool) (lineNumber lines : Option Int)
    (timestampParsed : Float64) (isUnsavedEntity : Bool) : Heartbeat :=
  { APIKey := "", Branch := none, BranchAlternate := h.BranchAlternate,
    Category := h.Category, CursorPosition := cursorPosition, Dependencies := [],
    Entity := entity, EntityType := entityType, IsUnsavedEntity := isUnsavedEntity,
    IsWrite := isWrite, Language := h.Language, LanguageAlternate := h.LanguageAlternate,
    LineAdditions := none, LineDeletions := none, LineNumber := lineNumber, Lines := lines,
    LocalFile := "", LocalFileNeedsCleanup := false, Project := none,
    ProjectAlternate := h.ProjectAlternate, ProjectFromGitRemote := false,
    ProjectOverride := h.Project, ProjectPath := "", ProjectPathOverride := "",
    ProjectRootCount := none, Time := timestampParsed, UserAgent := "" }

/-- The function `parseExtraHeartbeat`. -/
def parseExtraHeartbeat (env : ParseEnv) (h : ExtraHeartbeat) : Except Err Heartbeat :=
  match env.homedirExpand h.Entity with
  | .error e => .error (.wrap "failed expanding entity" e)
  | .ok entity =>
    (parseExtraHeartbeat.entityType h).bind fun entityType =>
    (parseExtraHeartbeat.intField env "cursor position" h.CursorPosition).bind
      fun cursorPosition =>
    (parseExtraHeartbeat.isWrite h.IsWrite).bind fun isWrite =>
    (parseExtraHeartbeat.intField env "line number" h.LineNumber).bind fun lineNumber =>
    (parseExtraHeartbeat.intField env "lines" h.Lines).bind fun lines =>
    (parseExtraHeartbeat.floatField env "time" h.Time).bind fun time =>
    (parseExtraHeartbeat.floatField env "timestamp" h.Timestamp).bind fun timestamp =>
    (parseExtraHeartbeat.timestampParsed h time timestamp).bind fun timestampParsed =>
    (parseExtraHeartbeat.isUnsavedEntity h.IsUnsavedEntity).bind fun isUnsavedEntity =>
    .ok (parseExtraHeartbeat.build h entity entityType cursorPosition isWrite lineNumber lines
      timestampParsed isUnsavedEntity)

/-! ## Saving without sending (cmd/offline) -/

/-- The method `Noop.SendHeartbeats`. -/
def Noop.SendHeartbeats : Handle :=
  fun _ => .error (.api "skip sending heartbeats and only save to offline db")

/-- What `SaveHeartbeats` gets from the functions it calls. -/
structure SaveInput where
  /-- The error of `loadParams(ctx, v)`, if any. -/
  paramsErr : Option Err
  /-- The field `params.Offline.Disabled`. -/
  offlineDisabled : Bool
  /-- The value of `buildHeartbeats(ctx, params)`. -/
  built : List Heartbeat
  /-- The handle `heartbeat.NewHandle(sender, handleOpts...)` with `WithQueue`
  appended to the options, acting on the queue file: what it returns and
  leaves in the file, for a pipeline that returns. -/
  handle : World → List Heartbeat → Except Err (List Result) × World

/-- The function `SaveHeartbeats` of cmd/offline: the error it returns and the
state of the queue file it leaves; `heartbeats` is `none` for a nil slice. -/
def SaveHeartbeats (i : SaveInput) (w : World) (heartbeats : Option (List Heartbeat)) :
    Option Err × World :=
  match i.paramsErr with
  | some err => (some (.wrap "failed to load command parameters" err), w)
  | none =>
    if i.offlineDisabled then (some (.text "saving to offline db disabled"), w)
    else
      let heartbeats := match heartbeats with
        | none => i.built
        | some hh => hh
      (none, (i.handle w heartbeats).2)

/-! ## Notions used to state the properties -/

/-- The last heartbeat of a batch whose identifier is `k`. -/
def lastWithID (env : Env) (k : String) : List Heartbeat → Option Heartbeat
  | [] => none
  | h :: hh =>
    match lastWithID env k hh with
    | some h' => some h'
    | none => if h.ID env = k then some h else none

/-- The number of heartbeats of a batch whose identifier collides: it is among
the keys `seen` (those of the bucket) or is the identifier of an earlier
heartbeat of the batch. -/
def collisions (env : Env) : List String → List Heartbeat → Nat
  | _, [] => 0
  | seen, h :: hh =>
    (if h.ID env ∈ seen then 1 else 0) + collisions env (h.ID env :: seen) hh

/-- The heartbeats to re-enqueue for their status, in the words of the
specification: each heartbeat paired with a result whose status is outside
200..299 and is not 400. -/
def invalidByStatus (results : List Result) (hh : List Heartbeat) : List Heartbeat :=
  ((hh.zip results).filter
    (fun p => decide ((p.2.Status < 200 ∨ p.2.Status > 299) ∧ p.2.Status ≠ 400))).map Prod.fst

/-- The heartbeats of a batch that `PushMany` stores before it stops: the
longest prefix whose members serialise and are accepted by `Put`. -/
def accepted (env : Env) : List Heartbeat → List Heartbeat
  | [] => []
  | h :: hh =>
    match env.marshal h with
    | none => []
    | some data => if env.putOk (h.ID env) data then h :: accepted env hh else []

/-! ## Sample inputs -/

/-- A heartbeat for a file entity at time `t` (all optional fields unset). -/
def sampleHeartbeat (t : Nat) : Heartbeat :=
  { APIKey := "", Branch := none, BranchAlternate := "", Category := 0,
    CursorPosition := none, Dependencies := [], Entity := "/tmp/main.go",
    EntityType := FileType, IsUnsavedEntity := false, IsWrite := none, Language := none,
    LanguageAlternate := "", LineAdditions := none, LineDeletions := none,
    LineNumber := none, Lines := none, LocalFile := "", LocalFileNeedsCleanup := false,
    Project := none, ProjectAlternate := "", ProjectFromGitRemote := false,
    ProjectOverride := "", ProjectPath := "", ProjectPathOverride := "",
    ProjectRootCount := none, Time := t, UserAgent := "wakatime" }

/-- The heartbeats at times `0 .. n-1`. -/
def sampleBatch (n : Nat) : List Heartbeat := (List.range n).map sampleHeartbeat

/-- A sample environment: times print as naturals, a heartbeat is serialised
as its time, and the times below 40 are read back. -/
def sampleEnv : Env :=
  { fmtFloat := fun t => toString t
    categoryString := fun c => if c = 0 then "coding" else "debugging"
    marshal := fun h => some (toString h.Time)
    unmarshal := fun s => ((sampleBatch 40).find? (fun h => toString h.Time = s))
    putOk := fun k _ => decide (k ≠ "") }

/-- A sender that accepts every heartbeat with status 201. -/
def acceptAll : Handle := fun hh => .ok (hh.map (fun h => ⟨[], 201, h⟩))

/-- A sender that fails with a general api error. -/
def apiDown : Handle := fun _ => .error (.api "connection refused")

/-- A sender that fails with `ErrBadRequest`. -/
def rejectBadRequest : Handle := fun _ => .error (.badRequest "bad request")

/-- A run of `SendHeartbeats` on `n` built heartbeats: parameters load, no rate
limit, the api client initialises and the pipeline accepts everything. -/
def sampleSend (n : Nat) : SendInput :=
  { paramsErr := none, offlineDisabled := false, rateLimited := false, saveErr := none,
    built := sampleBatch n, clientErr := none, pipeline := acceptAll }

/-- A queue file holding the heartbeats of `sampleBatch n`, no faults ahead. -/
def sampleWorld (n : Nat) : World :=
  { bucket := (PushMany sampleEnv [] (sampleBatch n)).1, faults := [], slept := [] }

/-! ## Sample inputs and notions for sanitizing, patterns and detection -/

/-- A regexp library for the samples: `.*` matches everything, `a^` nothing,
`remoteAddressRegex` only texts that begin with `ssh://` or `sftp://` (and all
of those), a pattern `(?i)` + text matches the texts containing that text in
lower case, and every source compiles except an unclosed bracket. -/
def sampleRegexLib : RegexLib :=
  { regexpCompiles := fun s => decide (s ≠ "(?i)[")
    regexp2Compiles := fun _ => false
    regexpMatch := fun src s =>
      if src = ".*" then true
      else if src = "a^" then false
      else if src = remoteAddressSource then
        HasPrefix (ToLower s) "ssh://" || HasPrefix (ToLower s) "sftp://"
      else decide ((TrimPrefix src "(?i)").data <:+: (ToLower s).data)
    regexp2Match := fun _ _ => false
    regexpFindStringSubmatch := fun src s =>
      if src = remoteAddressSource ∧ s = "ssh://u:p@h/f" then
        ["ssh://u:p@h/f", "ssh://", "ssh", "u:p@", ":p", "p", ""]
      else [] }

/-- A machine on which no detector finds a project: not Windows, paths are
already absolute and real. -/
def sampleProjectEnv : ProjectEnv :=
  { fileDetect := fun _ => ⟨⟨"", "", ""⟩, false, none⟩
    mapDetect := fun _ _ => ⟨⟨"", "", ""⟩, false, none⟩
    gitDetect := fun _ _ _ _ => ⟨⟨"", "", ""⟩, false, none⟩
    mercurialDetect := fun _ => ⟨⟨"", "", ""⟩, false, none⟩
    subversionDetect := fun _ => ⟨⟨"", "", ""⟩, false, none⟩
    tfvcDetect := fun _ => ⟨⟨"", "", ""⟩, false, none⟩
    obfuscateProjectName := fun _ => "Hidden Lake 7"
    isWindows := false
    windowsFormatFilePath := fun p => p
    Dir := fun p => ⟨((p.data.reverse.dropWhile (fun c => c ≠ '/')).drop 1).reverse⟩
    absRealpath := fun p => p }

/-- A project configuration without patterns. -/
def sampleProjectConfig : ProjectConfig :=
  { HideProjectNames := [], MapPatterns := [], ProjectFromGitRemote := false,
    Submodule := ⟨[], []⟩ }

/-- A file heartbeat for `/work/main.go` sent with `--project proj` and the
project folder `/other`. -/
def overrideHeartbeat : Heartbeat :=
  { sampleHeartbeat 0 with
    Entity := "/work/main.go", ProjectOverride := "proj", ProjectPathOverride := "/other",
    ProjectAlternate := "alt" }

/-- A repository whose `HEAD` names the branch `feature/x` and whose `config`
has the origin `git@github.com:wakatime/wakatime-cli.git`; no other file exists. -/
def sampleFileSystem : FileSystem :=
  { fileOrDirExists := fun fp => decide (fp = "/r/.git/HEAD" ∨ fp = "/r/.git/config")
    scanLines := fun fp =>
      if fp = "/r/.git/HEAD" then .ok ["ref: refs/heads/feature/x "]
      else if fp = "/r/.git/config" then
        .ok ["[core]", "\tbare = false", "[remote \"origin\"]",
          "\turl = git@github.com:wakatime/wakatime-cli.git",
          "\tfetch = +refs/heads/*:refs/remotes/origin/*", "[branch \"main\"]"]
      else .error (.text "no such file or directory") }

/-- The folder project detection reports, before it is formatted, in the
words of the description of `WithDetection`: the first non-empty of the folder
of the project file or project map (replaced by the project folder override
when that detector names no project and `--project` is given), the folder
found by revision control and the project folder override, the override coming
first when the project is the alternate project; without any of them, for a
file the directory of the entity. -/
def detectedFolder (env : ProjectEnv) (config : ProjectConfig) (h : Heartbeat) : String :=
  let found := (Detect env config.MapPatterns (WithDetection.args h)).1
  let revControl := DetectWithRevControl env config.Submodule.DisabledPatterns
    config.Submodule.MapPatterns config.ProjectFromGitRemote (WithDetection.args h)
  let first :=
    if found.Project = "" ∧ h.ProjectOverride ≠ "" then h.ProjectPathOverride else found.Folder
  let folder :=
    if found.Project = "" ∧ h.ProjectOverride = "" ∧ revControl.Project = "" ∧
        h.ProjectAlternate ≠ "" then
      firstNonEmptyString [h.ProjectPathOverride, first, revControl.Folder]
    else firstNonEmptyString [first, revControl.Folder, h.ProjectPathOverride]
  if h.EntityType = FileType ∧ folder = "" then env.Dir h.Entity else folder

/-- The part of the base name of a path before its extension. -/
def stemL (path : List Char) : List Char :=
  (baseL path).take ((baseL path).length - (Ext.scan path.reverse []).length)

/-- A configuration that hides all file names (`hide_file_names = true`). -/
def hideFileNames : SanitizeConfig :=
  { BranchPatterns := [], DependencyPatterns := [], FilePatterns := [matchAllRegex],
    HideProjectFolder := false, ProjectPatterns := [] }

/-- A configuration that only hides the project folder. -/
def hideFolderOnly : SanitizeConfig :=
  { BranchPatterns := [], DependencyPatterns := [], FilePatterns := [],
    HideProjectFolder := true, ProjectPatterns := [] }

/-- A text without its leading and its trailing characters that satisfy `p`. -/
def specStrip (p : Char → Bool) (s : List Char) : List Char :=
  (s.dropWhile p).rdropWhile p

/-- The lines of a text as C16 words them: the pieces between the characters
`\n` and `\r`. -/
def specLines (s : List Char) : List (List Char) :=
  s.splitOnP (fun c => c == '\n' || c == '\r')

/-- The pattern C16 gives for one line: none for a line blank after trimming
spaces and tabs, else the compiled trimmed line, prefixed with `(?i)` unless it
starts with `(?i)`; none when that does not compile. -/
def specLinePattern (lib : RegexLib) (line : List Char) : Option Regex :=
  if specStrip (fun c => c == ' ' || c == '\t') line = [] then none
  else if "(?i)".data.isPrefixOf (specStrip (fun c => c == ' ' || c == '\t') line) then
    Compile lib (String.mk (specStrip (fun c => c == ' ' || c == '\t') line))
  else Compile lib ("(?i)" ++ String.mk (specStrip (fun c => c == ' ' || c == '\t') line))

/-- The patterns C16 describes for an input: none for blank input, `.*` for
`true` and `a^` for `false` in any letter case (white space around them
aside), else the patterns of the lines, in order. -/
def specBoolOrRegexList (lib : RegexLib) (s : String) : List Regex :=
  if specStrip (fun c => c == ' ' || c == '\t' || c == '\n' || c == '\r') s.data = [] then []
  else if (specStrip (fun c => c == ' ' || c == '\t' || c == '\n' || c == '\r') s.data).map
      Char.toLower = "true".data then [⟨.regexp, ".*"⟩]
  else if (specStrip (fun c => c == ' ' || c == '\t' || c == '\n' || c == '\r') s.data).map
      Char.toLower = "false".data then [⟨.regexp, "a^"⟩]
  else (specLines s.data).filterMap (specLinePattern lib)

/-! ## Sample inputs for languages, extra heartbeats, repositories and keys -/

/-- Names for the languages, as sample values of the constants. -/
def sampleLanguages : LanguageNames String :=
  { LanguageUnknown := "", LanguageGo := "Go", LanguageCMake := "CMake", LanguageC := "C",
    LanguageObjectiveC := "Objective-C", LanguageObjectiveCPP := "Objective-C++",
    LanguageCPP := "C++" }

/-- Case tables with the mappings of three runes: the Kelvin sign `U+212A`
and `U+0130` lower-case to `k` and `i`, and `U+023A` to `U+2C65`. -/
def sampleTables : CaseTables :=
  { lower := fun c =>
      if c.toNat = 0x212A then 'k' else if c.toNat = 0x130 then 'i'
      else if c.toNat = 0x23A then Char.ofNat 0x2C65 else c
    upper := fun c => if c.toNat = 0x2C65 then Char.ofNat 0x23A else c }

/-- A disk with the folder `/p` holding `a.c` and `a.css`, the folder `/proj`
holding `CMakeLists.txt` and `go.mod`, and the folder `/q` holding `a.m`. -/
def sampleDisk : Disk :=
  { statOk := fun p => [bytesOf "/p/a.c", bytesOf "/p/a.css", bytesOf "/proj/CMakeLists.txt",
      bytesOf "/proj/go.mod", bytesOf "/q/a.m"].contains p
    readDir := fun d =>
      if d = "/p/" then .ok ["a.c", "a.css"]
      else if d = "/proj/" then .ok ["CMakeLists.txt", "go.mod"]
      else if d = "/q/" then .ok ["a.m"]
      else .error (.text "no such file or directory") }

/-- A sample of the functions `parseExtraHeartbeat` calls: no home directory to
expand, decimal integers, and the floats `0` and `1585598059` read from text. -/
def sampleParseEnv : ParseEnv :=
  { homedirExpand := fun s => .ok s
    Atoi := fun s => s.toInt?
    ParseFloat := fun s =>
      if s = "0" then some 0
      else if s = "1585598059" then some 4744437288275017728
      else none
    floatToInt := fun f => if f = 0 then 0 else if f = 4607182418800017408 then 1 else 2 }

/-- The extra heartbeat `{"entity": "/tmp/main.go", "type": "file", "time": 0,
"timestamp": 1585598059, "line_additions": 1, "line_deletions": 2}` as decoded
from JSON: a number is a float64, given by its bit pattern; an absent key is nil. -/
def zeroTimeExtra : ExtraHeartbeat :=
  { BranchAlternate := "", Category := 0, CursorPosition := .nil, Entity := "/tmp/main.go",
    EntityType := "", Type_ := "file", IsUnsavedEntity := .nil, IsWrite := .nil,
    Language := none, LanguageAlternate := "", LineAdditions := .float64 4607182418800017408,
    LineDeletions := .float64 4611686018427387904, LineNumber := .nil, Lines := .nil,
    Project := "", ProjectAlternate := "", Time := .float64 0,
    Timestamp := .float64 4744437288275017728 }

/-- A machine with the Mercurial repository `/home/u/repo` (holding
`src/main.go`) and the TFVC workspace `/home/u/tf` (holding `a.cs`). -/
def sampleRepos : FileSystem :=
  { fileOrDirExists := fun fp => decide (fp = "/home/u/repo/src/main.go" ∨ fp = "/home/u/repo/.hg"
      ∨ fp = "/home/u/tf/.tf/properties.tf1" ∨ fp = "/home/u/tf/a.cs")
    scanLines := fun _ => .error (.text "no such file or directory") }

/-- The sample environment with the rule of `json.Marshal` for floats: a
heartbeat whose Time is NaN or infinite (all exponent bits set) is not
serialised. -/
def strictEnv : Env :=
  { sampleEnv with
    marshal := fun h =>
      if (h.Time / 2 ^ 52) % 2048 = 2047 then none else some (toString h.Time) }

/-- A heartbeat whose Time is NaN (bit pattern `0x7FF8000000000001`). -/
def nanHeartbeat : Heartbeat := sampleHeartbeat 0x7FF8000000000001

/-- A sender whose answer gives every heartbeat the status 500. -/
def serverError : Handle := fun hh => .ok (hh.map (fun h => ⟨[], 500, h⟩))

/-- The api key `key-secret` for paths that contain `secret`, else `key-default`. -/
def sampleKeyConfig : KeyConfig :=
  { DefaultAPIKey := "key-default", MapPatterns := [⟨"key-secret", ⟨.regexp, "(?i)secret"⟩⟩] }

/-- A file heartbeat for `/work/secret/main.go`. -/
def secretHeartbeat : Heartbeat := { sampleHeartbeat 0 with Entity := "/work/secret/main.go" }

/-- A heartbeat for the remote file `ssh://u:p@h/f`. -/
def remoteHeartbeat : Heartbeat := { sampleHeartbeat 0 with Entity := "ssh://u:p@h/f" }

/-- The empty `SanitizeConfig`. -/
def emptySanitizeConfig : SanitizeConfig :=
  { BranchPatterns := [], DependencyPatterns := [], FilePatterns := [],
    HideProjectFolder := false, ProjectPatterns := [] }

/-- A configuration whose only patterns are project patterns, matching every path. -/
def hideProjectMeta : SanitizeConfig :=
  { BranchPatterns := [], DependencyPatterns := [], FilePatterns := [],
    HideProjectFolder := false, ProjectPatterns := [matchAllRegex] }

/-- A heartbeat of project `secret` at line 7 of 42, cursor 3, importing `os`. -/
def projectHeartbeat : Heartbeat :=
  { sampleHeartbeat 0 with
    Project := some "secret", Dependencies := ["os"], CursorPosition := some 3,
    LineNumber := some 7, Lines := some 42 }

/-- A call of `SaveHeartbeats` whose parameters load with offline saving
enabled and whose pipeline is `WithQueue` around the `Noop` sender.  (The
sample environment serialises every heartbeat, so this pipeline returns.) -/
def sampleSave : SaveInput :=
  { paramsErr := none, offlineDisabled := false, built := sampleBatch 1,
    handle := fun w hh =>
      match WithQueue sampleEnv Noop.SendHeartbeats w hh with
      | some r => r
      | none => (.error (.text "unreachable"), w) }

/-- A queue file that cannot be opened for the next three transactions. -/
def lockedWorld : World :=
  { bucket := [], faults := [some .openDB, some .openDB, some .openDB], slept := [] }

/-! ## Facts about the bucket -/

theorem keyLt_iff (a b : String) : keyLt a b = true ↔ a < b := by
  simp [keyLt, String.lt_iff_toList_lt]

theorem Bucket.Get_nil (k : String) : Bucket.Get [] k = none := rfl

theorem Bucket.Get_cons (k' v' : String) (rest : Bucket) (k : String) :
    Bucket.Get ((k', v') :: rest) k = if k' = k then some v' else Bucket.Get rest k := by
  by_cases h : k' = k <;> simp [Bucket.Get, List.find?_cons, h]

theorem Bucket.Get_Put (b : Bucket) (k v k2 : String) :
    (b.Put k v).Get k2 = if k = k2 then some v else b.Get k2 := by
  induction b with
  | nil => simp [Bucket.Put, Bucket.Get_cons]
  | cons e rest ih =>
    obtain ⟨k', v'⟩ := e
    by_cases hk : k = k2
    · subst hk
      rw [if_pos rfl]
      unfold Bucket.Put
      split_ifs with h1 h2
      · rw [Bucket.Get_cons, if_pos rfl]
      · rw [Bucket.Get_cons, if_pos rfl]
      · rw [Bucket.Get_cons, if_neg (Ne.symm h2), ih, if_pos rfl]
    · rw [if_neg hk]
      unfold Bucket.Put
      split_ifs with h1 h2
      · rw [Bucket.Get_cons, if_neg hk]
      · subst h2
        rw [Bucket.Get_cons, if_neg hk, Bucket.Get_cons, if_neg hk]
      · rw [Bucket.Get_cons, ih, if_neg hk, Bucket.Get_cons]

theorem Bucket.keys_Put (b : Bucket) (k v k2 : String) :
    k2 ∈ (b.Put k v).keys ↔ k2 = k ∨ k2 ∈ b.keys := by
  induction b with
  | nil => simp [Bucket.Put, Bucket.keys]
  | cons e rest ih =>
    obtain ⟨k', v'⟩ := e
    unfold Bucket.Put
    split_ifs with h1 h2
    · simp [Bucket.keys]
    · subst h2; simp [Bucket.keys]
    · have := ih
      simp only [Bucket.keys, List.map_cons, List.mem_cons] at this ⊢
      rw [this]; tauto

theorem Bucket.WF_Put (b : Bucket) (k v : String) (hb : b.WF) : (b.Put k v).WF := by
  induction b with
  | nil => simp [Bucket.Put, Bucket.WF, Bucket.keys]
  | cons e rest ih =>
    obtain ⟨k', v'⟩ := e
    have hb' := hb
    simp only [Bucket.WF, Bucket.keys, List.map_cons, List.sorted_cons] at hb'
    unfold Bucket.Put
    split_ifs with h1 h2
    · rw [keyLt_iff] at h1
      simp only [Bucket.WF, Bucket.keys, List.map_cons, List.sorted_cons, List.mem_cons]
      refine ⟨?_, hb'⟩
      rintro x (rfl | hx)
      · exact h1
      · exact lt_trans h1 (hb'.1 x hx)
    · subst h2
      simpa [Bucket.WF, Bucket.keys] using hb'
    · have hlt : k' < k := by
        rcases lt_trichotomy k k' with h | h | h
        · exact absurd ((keyLt_iff k k').2 h) h1
        · exact absurd h h2
        · exact h
      have ih' := ih hb'.2
      simp only [Bucket.WF, Bucket.keys, List.map_cons, List.sorted_cons]
      refine ⟨?_, ih'⟩
      intro x hx
      rcases (Bucket.keys_Put rest k v x).1 hx with rfl | hx
      · exact hlt
      · exact hb'.1 x hx

theorem Bucket.Get_eq_none (b : Bucket) (k : String) (h : k ∉ b.keys) : b.Get k = none := by
  induction b with
  | nil => rfl
  | cons e rest ih =>
    obtain ⟨k', v'⟩ := e
    simp only [Bucket.keys, List.map_cons, List.mem_cons, not_or] at h
    rw [Bucket.Get_cons, if_neg (Ne.symm h.1)]
    exact ih h.2

theorem Bucket.ext (b1 b2 : Bucket) (h1 : b1.WF) (h2 : b2.WF)
    (h : ∀ k, b1.Get k = b2.Get k) : b1 = b2 := by
  induction b1 generalizing b2 with
  | nil =>
    cases b2 with
    | nil => rfl
    | cons e r =>
      obtain ⟨k, v⟩ := e
      have := h k
      simp [Bucket.Get_cons, Bucket.Get_nil] at this
  | cons e1 r1 ih =>
    obtain ⟨k1, v1⟩ := e1
    cases b2 with
    | nil =>
      have := h k1
      simp [Bucket.Get_cons, Bucket.Get_nil] at this
    | cons e2 r2 =>
      obtain ⟨k2, v2⟩ := e2
      simp only [Bucket.WF, Bucket.keys, List.map_cons, List.sorted_cons] at h1 h2
      have n1 : k1 ∉ Bucket.keys r1 := fun hm => lt_irrefl _ (h1.1 k1 hm)
      have n2 : k2 ∉ Bucket.keys r2 := fun hm => lt_irrefl _ (h2.1 k2 hm)
      rcases lt_trichotomy k1 k2 with hlt | heq | hgt
      · exfalso
        have := h k1
        rw [Bucket.Get_cons, if_pos rfl, Bucket.Get_cons, if_neg (ne_of_gt hlt),
          Bucket.Get_eq_none r2 k1 (fun hm => lt_asymm hlt (h2.1 k1 hm))] at this
        exact Option.noConfusion this
      · subst heq
        have hv := h k1
        rw [Bucket.Get_cons, if_pos rfl, Bucket.Get_cons, if_pos rfl] at hv
        have hv' : v1 = v2 := Option.some.inj hv
        subst hv'
        congr 1
        apply ih r2 h1.2 h2.2
        intro k
        by_cases hk : k1 = k
        · subst hk
          rw [Bucket.Get_eq_none r1 k1 n1, Bucket.Get_eq_none r2 k1 n2]
        · have := h k
          rwa [Bucket.Get_cons, if_neg hk, Bucket.Get_cons, if_neg hk] at this
      · exfalso
        have := h k2
        rw [Bucket.Get_cons, if_neg (ne_of_gt hgt), Bucket.Get_cons, if_pos rfl,
          Bucket.Get_eq_none r1 k2 (fun hm => lt_asymm hgt (h1.1 k2 hm))] at this
        exact Option.noConfusion this

/-! ## Facts about the queue operations -/

theorem pushHeartbeats_slept (env : Env) (w : World) (hh : List Heartbeat)
    (r : Option Err × World) (h : pushHeartbeats env w hh = some r) :
    r.2.slept = w.slept := by
  unfold pushHeartbeats World.nextFault at h
  rcases hf : w.faults with _ | ⟨f, fs⟩ <;> rw [hf] at h <;> simp only at h
  · rcases hp : PushMany env w.bucket hh with ⟨b, _ | e⟩ <;> rw [hp] at h <;> simp at h
    rw [← h]
  · rcases f with _ | _ | _ | _ <;> simp only at h
    all_goals first
      | (cases h; rfl)
      | (rcases hp : PushMany env w.bucket hh with ⟨b, _ | e⟩ <;> rw [hp] at h <;> simp at h
         try (rw [← h]))

theorem pushHeartbeats_faults (env : Env) (w : World) (hh : List Heartbeat)
    (r : Option Err × World) (h : pushHeartbeats env w hh = some r) :
    r.2.faults = w.faults.tail := by
  unfold pushHeartbeats World.nextFault at h
  rcases hf : w.faults with _ | ⟨f, fs⟩ <;> rw [hf] at h <;> simp only at h
  · rcases hp : PushMany env w.bucket hh with ⟨b, _ | e⟩ <;> rw [hp] at h <;> simp at h
    rw [← h]
    exact hf
  · rcases f with _ | _ | _ | _ <;> simp only at h
    all_goals first
      | (cases h; rfl)
      | (rcases hp : PushMany env w.bucket hh with ⟨b, _ | e⟩ <;> rw [hp] at h <;> simp at h
         try (rw [← h]; rfl))

theorem pushHeartbeats_bucket (env : Env) (w : World) (hh : List Heartbeat)
    (r : Option Err × World) (h : pushHeartbeats env w hh = some r) :
    (r.1 = none ∧ (PushMany env w.bucket hh).2 = none ∧
        r.2.bucket = (PushMany env w.bucket hh).1) ∨
      (r.1 ≠ none ∧ r.2.bucket = w.bucket) := by
  unfold pushHeartbeats World.nextFault at h
  rcases hf : w.faults with _ | ⟨f, fs⟩ <;> rw [hf] at h <;> simp only at h
  · rcases hp : PushMany env w.bucket hh with ⟨b, _ | e⟩ <;> rw [hp] at h <;> simp at h
    rw [← h]
    left
    simp
  · rcases f with _ | _ | _ | _ <;> simp only at h
    all_goals first
      | (cases h; right; simp)
      | (rcases hp : PushMany env w.bucket hh with ⟨b, _ | e⟩ <;> rw [hp] at h <;> simp at h
         try (rw [← h]; simp))

/-- An attempt does not return exactly when it gets to `PushMany` and
`PushMany` fails. -/
theorem pushHeartbeats_eq_none (env : Env) (w : World) (hh : List Heartbeat) :
    pushHeartbeats env w hh = none ↔
      (w.faults.head? ≠ some (some .openDB) ∧ w.faults.head? ≠ some (some .begin) ∧
        (PushMany env w.bucket hh).2 ≠ none) := by
  unfold pushHeartbeats World.nextFault
  rcases hf : w.faults with _ | ⟨f, fs⟩ <;> simp only
  · rcases hp : PushMany env w.bucket hh with ⟨b, _ | e⟩ <;> simp
  · rcases f with _ | _ | _ | _ <;> simp only <;>
      rcases hp : PushMany env w.bucket hh with ⟨b, _ | e⟩ <;> simp

theorem pushHeartbeatsWithRetry.loop_step (env : Env) (hh : List Heartbeat) (count : Nat)
    (err : Option Err) (w : World) (hc : count < maxRequeueAttempts) :
    pushHeartbeatsWithRetry.loop env hh count err w =
      match pushHeartbeats env w hh with
      | none => none
      | some (some e, w1) =>
        pushHeartbeatsWithRetry.loop env hh (count + 1) (some e) (w1.sleep (2 ^ (count + 1)))
      | some (none, w1) => some (none, w1) := by
  rw [pushHeartbeatsWithRetry.loop, if_neg (by omega)]

theorem pushHeartbeatsWithRetry.loop_done (env : Env) (hh : List Heartbeat) (count : Nat)
    (err : Option Err) (w : World) (hc : count ≥ maxRequeueAttempts) :
    pushHeartbeatsWithRetry.loop env hh count err w =
      some (some (.abortRequeue count (err.getD (.text "%!s(<nil>)")) hh), w) := by
  rw [pushHeartbeatsWithRetry.loop, if_pos hc]

/-- The loop of `pushHeartbeatsWithRetry` written out: three attempts, none
of them made after one that does not return. -/
theorem pushHeartbeatsWithRetry_unroll (env : Env) (w : World) (hh : List Heartbeat) :
    pushHeartbeatsWithRetry env w hh =
      match pushHeartbeats env w hh with
      | none => none
      | some (none, w1) => some (none, w1)
      | some (some _, w1) =>
        match pushHeartbeats env (w1.sleep 2) hh with
        | none => none
        | some (none, w2) => some (none, w2)
        | some (some _, w2) =>
          match pushHeartbeats env (w2.sleep 4) hh with
          | none => none
          | some (none, w3) => some (none, w3)
          | some (some e3, w3) => some (some (.abortRequeue 3 e3 hh), w3.sleep 8) := by
  unfold pushHeartbeatsWithRetry
  rw [pushHeartbeatsWithRetry.loop_step env hh 0 none w (by decide)]
  rcases h1 : pushHeartbeats env w hh with _ | ⟨_ | e1, w1⟩ <;> simp only
  rw [pushHeartbeatsWithRetry.loop_step env hh (0 + 1) _ _ (by decide)]
  rcases h2 : pushHeartbeats env (w1.sleep (2 ^ (0 + 1))) hh with _ | ⟨_ | e2, w2⟩
  · simp_all
  · simp_all
  simp only
  rw [pushHeartbeatsWithRetry.loop_step env hh (0 + 1 + 1) _ _ (by decide)]
  rcases h3 : pushHeartbeats env (w2.sleep (2 ^ (0 + 1 + 1))) hh with _ | ⟨_ | e3, w3⟩
  · simp_all
  · simp_all
  simp only
  rw [pushHeartbeatsWithRetry.loop_done env hh (0 + 1 + 1 + 1) _ _ (by decide)]
  simp_all

theorem pushHeartbeatsWithRetry_success (env : Env) (w w' : World) (hh : List Heartbeat)
    (h : pushHeartbeatsWithRetry env w hh = some (none, w')) :
    (PushMany env w.bucket hh).2 = none ∧ w'.bucket = (PushMany env w.bucket hh).1 := by
  rw [pushHeartbeatsWithRetry_unroll] at h
  rcases h1 : pushHeartbeats env w hh with _ | ⟨_ | e1, w1⟩ <;> rw [h1] at h <;> simp only at h
  · cases h
  · cases h
    have b1 := pushHeartbeats_bucket env w hh _ h1
    simpa using b1
  · have b1 := pushHeartbeats_bucket env w hh _ h1
    have hw1 : (w1.sleep 2).bucket = w.bucket := by
      simpa [World.sleep] using b1
    rcases h2 : pushHeartbeats env (w1.sleep 2) hh with _ | ⟨_ | e2, w2⟩ <;> rw [h2] at h <;>
      simp only at h
    · cases h
    · cases h
      have b2 := pushHeartbeats_bucket env (w1.sleep 2) hh _ h2
      rw [hw1] at b2
      simpa using b2
    · have b2 := pushHeartbeats_bucket env (w1.sleep 2) hh _ h2
      rw [hw1] at b2
      have hw2 : (w2.sleep 4).bucket = w.bucket := by
        simpa [World.sleep] using b2
      rcases h3 : pushHeartbeats env (w2.sleep 4) hh with _ | ⟨_ | e3, w3⟩ <;> rw [h3] at h <;>
        simp only at h
      · cases h
      · cases h
        have b3 := pushHeartbeats_bucket env (w2.sleep 4) hh _ h3
        rw [hw2] at b3
        simpa using b3
      · cases h

theorem PushMany_WF (env : Env) (b : Bucket) (hh : List Heartbeat) (hb : b.WF) :
    (PushMany env b hh).1.WF := by
  induction hh generalizing b with
  | nil => simpa [PushMany] using hb
  | cons h t ih =>
    unfold PushMany
    rcases hm : env.marshal h with _ | data
    · simpa using hb
    · simp only
      split_ifs with hp
      · exact ih _ (Bucket.WF_Put b _ _ hb)
      · simpa using hb

theorem lastWithID_cons (env : Env) (k : String) (h : Heartbeat) (hh : List Heartbeat) :
    lastWithID env k (h :: hh) =
      match lastWithID env k hh with
      | some h' => some h'
      | none => if h.ID env = k then some h else none := rfl

theorem PushMany_Get (env : Env) (b b' : Bucket) (hh : List Heartbeat)
    (h : PushMany env b hh = (b', none)) (k : String) :
    b'.Get k = match lastWithID env k hh with
      | some h' => env.marshal h'
      | none => b.Get k := by
  induction hh generalizing b with
  | nil =>
    simp only [PushMany, Prod.mk.injEq, and_true] at h
    subst h
    simp [lastWithID]
  | cons x t ih =>
    unfold PushMany at h
    rcases hm : env.marshal x with _ | data
    · simp [hm] at h
    · simp only [hm] at h
      split_ifs at h with hp
      · rw [ih _ h, lastWithID_cons]
        rcases hl : lastWithID env k t with _ | h'
        · simp only
          rw [Bucket.Get_Put]
          split_ifs with hk
          · simp [hm]
          · rfl
        · rfl
      · simp at h

theorem lastWithID_some (env : Env) (k : String) (hh : List Heartbeat) (h : Heartbeat)
    (hl : lastWithID env k hh = some h) : h ∈ hh ∧ h.ID env = k := by
  induction hh with
  | nil => simp [lastWithID] at hl
  | cons x t ih =>
    rw [lastWithID_cons] at hl
    rcases ht : lastWithID env k t with _ | h'
    · simp only [ht] at hl
      split_ifs at hl with hx
      cases hl
      exact ⟨List.mem_cons_self _ _, hx⟩
    · simp only [ht, Option.some.injEq] at hl
      subst hl
      exact ⟨List.mem_cons_of_mem _ (ih ht).1, (ih ht).2⟩

theorem lastWithID_ne_none (env : Env) (hh : List Heartbeat) (h : Heartbeat) (hm : h ∈ hh) :
    lastWithID env (h.ID env) hh ≠ none := by
  induction hh with
  | nil => simp at hm
  | cons x t ih =>
    rw [lastWithID_cons]
    rcases ht : lastWithID env (h.ID env) t with _ | h'
    · rcases List.mem_cons.1 hm with rfl | hm'
      · simp
      · exact absurd ht (ih hm')
    · simp

theorem PushMany_marshal (env : Env) (b b' : Bucket) (hh : List Heartbeat)
    (h : PushMany env b hh = (b', none)) (x : Heartbeat) (hx : x ∈ hh) :
    env.marshal x ≠ none := by
  induction hh generalizing b with
  | nil => simp at hx
  | cons y t ih =>
    unfold PushMany at h
    rcases hm : env.marshal y with _ | data
    · simp [hm] at h
    · simp only [hm] at h
      split_ifs at h with hp
      · rcases List.mem_cons.1 hx with rfl | hx'
        · simp [hm]
        · exact ih _ h hx'
      · simp at h

theorem Bucket.length_Put (b : Bucket) (k v : String) (hb : b.WF) :
    (b.Put k v).length = if k ∈ b.keys then b.length else b.length + 1 := by
  induction b with
  | nil => simp [Bucket.Put, Bucket.keys]
  | cons e rest ih =>
    obtain ⟨k', v'⟩ := e
    have hb' := hb
    simp only [Bucket.WF, Bucket.keys, List.map_cons, List.sorted_cons] at hb'
    unfold Bucket.Put
    split_ifs with h1 h2 h3 h4 h5
    · rw [keyLt_iff] at h1
      exfalso
      simp only [Bucket.keys, List.map_cons, List.mem_cons] at h2
      rcases h2 with rfl | h2
      · exact lt_irrefl _ h1
      · exact lt_asymm h1 (hb'.1 k h2)
    · rfl
    · simp
    · exfalso
      subst h3
      exact h4 (by simp [Bucket.keys])
    · have hk : k ∈ Bucket.keys rest := by
        simp only [Bucket.keys, List.map_cons, List.mem_cons] at h5
        rcases h5 with rfl | h5
        · exact absurd rfl h3
        · exact h5
      simp [List.length_cons, ih hb'.2, hk]
    · have hk : k ∉ Bucket.keys rest := by
        intro hm
        apply ‹k ∉ Bucket.keys ((k', v') :: rest)›
        simp only [Bucket.keys, List.map_cons, List.mem_cons]
        exact Or.inr hm
      simp [List.length_cons, ih hb'.2, hk]

theorem collisions_congr (env : Env) (s1 s2 : List String) (hh : List Heartbeat)
    (h : ∀ k, k ∈ s1 ↔ k ∈ s2) : collisions env s1 hh = collisions env s2 hh := by
  induction hh generalizing s1 s2 with
  | nil => rfl
  | cons x t ih =>
    simp only [collisions]
    rw [ih (x.ID env :: s1) (x.ID env :: s2) (fun k => by simp [h k])]
    simp only [h (x.ID env)]

theorem PushMany_length (env : Env) (b b' : Bucket) (hh : List Heartbeat) (hb : b.WF)
    (h : PushMany env b hh = (b', none)) :
    b'.length + collisions env b.keys hh = b.length + hh.length := by
  induction hh generalizing b with
  | nil =>
    simp only [PushMany, Prod.mk.injEq, and_true] at h
    subst h
    simp [collisions]
  | cons x t ih =>
    unfold PushMany at h
    rcases hm : env.marshal x with _ | data
    · simp [hm] at h
    · simp only [hm] at h
      split_ifs at h with hp
      · have h1 := ih _ (Bucket.WF_Put b (x.ID env) data hb) h
        have h2 := Bucket.length_Put b (x.ID env) data hb
        have h3 : collisions env (Bucket.keys (b.Put (x.ID env) data)) t =
            collisions env (x.ID env :: b.keys) t :=
          collisions_congr env _ _ t (fun k => by
            rw [Bucket.keys_Put]; simp)
        rw [h3] at h1
        simp only [collisions, List.length_cons]
        split_ifs at h2 with hk
        · simp only [hk, if_true]
          omega
        · simp only [hk, if_false]
          omega
      · simp at h

theorem Bucket.mem_keys_of_Get (b : Bucket) (k : String) (h : b.Get k ≠ none) :
    k ∈ b.keys := by
  by_contra hk
  exact h (Bucket.Get_eq_none b k hk)

theorem WithQueue_of_error (env : Env) (next : Handle) (w : World) (hh : List Heartbeat)
    (err : Err) (hne : hh ≠ []) (hnext : next hh = .error err) :
    WithQueue env next w hh =
      match pushHeartbeatsWithRetry env w hh with
      | none => none
      | some (some requeueErr, w1) =>
        some (.error (.wrap "failed to push heartbeats to queue" requeueErr), w1)
      | some (none, w1) => some (.error err, w1) := by
  have hlen : hh.length ≠ 0 := fun h0 => hne (List.length_eq_zero.1 h0)
  unfold WithQueue
  rw [if_neg hlen]
  simp only [hnext]

theorem Sync_first_batch_error (env : Env) (next : Handle) (fuel : Nat) (syncLimit : Int)
    (w w1 : World) (hh : List Heartbeat) (err : Err) (hL : 0 ≤ syncLimit)
    (hpop : popHeartbeats env w
      (min SendLimit (if syncLimit = 0 then MaxInt32 else syncLimit)) = (.ok hh, w1))
    (hne : hh ≠ []) (hnext : next hh = .error err) :
    Sync env next (fuel + 1) syncLimit w =
      (pushHeartbeatsWithRetry env w1 hh).map
        (fun requeued => ⟨some err, requeued.2, [hh]⟩) := by
  have hlen : hh.length ≠ 0 := fun h0 => hne (List.length_eq_zero.1 h0)
  unfold Sync
  simp only
  generalize hLdef : (if syncLimit = 0 then MaxInt32 else syncLimit) = L at hpop ⊢
  have hLpos : 0 < L := by
    subst hLdef
    split_ifs with h0
    · decide
    · omega
  unfold Sync.loop
  rw [if_neg (by omega)]
  have hnum : (if decide (0 + SendLimit > L) = true then L - 0 else SendLimit)
      = min SendLimit L := by
    simp only [SendLimit, decide_eq_true_eq]
    split_ifs with h <;> omega
  simp only [hnum, hpop, if_neg hlen, hnext, List.nil_append]

theorem PushMany_accepted (env : Env) (b : Bucket) (hh : List Heartbeat) :
    PushMany env b (accepted env hh) = ((PushMany env b hh).1, none) := by
  induction hh generalizing b with
  | nil => rfl
  | cons x t ih =>
    unfold accepted
    rw [PushMany]
    rcases hm : env.marshal x with _ | data
    · rfl
    · simp only
      split_ifs with hp
      · rw [PushMany]
        simp only [hm, hp, if_true]
        exact ih _
      · rfl

theorem PushMany_err_indep (env : Env) (b1 b2 : Bucket) (hh : List Heartbeat) :
    (PushMany env b1 hh).2 = (PushMany env b2 hh).2 := by
  induction hh generalizing b1 b2 with
  | nil => rfl
  | cons x t ih =>
    rw [PushMany, PushMany]
    rcases hm : env.marshal x with _ | data
    · rfl
    · simp only
      split_ifs with hp
      · exact ih _ _
      · rfl

theorem PopMany.load_eq (env : Env) (limit : Int) (rest : List (String × String))
    (hs : List Heartbeat) (ids : List String)
    (hv : ∀ e ∈ rest, env.unmarshal e.2 ≠ none) :
    PopMany.load env limit rest hs ids =
      .ok (hs ++ (rest.take (limit - hs.length).toNat).filterMap (fun e => env.unmarshal e.2),
        ids ++ (rest.take (limit - hs.length).toNat).map Prod.fst) := by
  induction rest generalizing hs ids with
  | nil => simp [PopMany.load]
  | cons e rest ih =>
    obtain ⟨key, value⟩ := e
    unfold PopMany.load
    split_ifs with hge
    · have : (limit - (hs.length : Int)).toNat = 0 := by omega
      simp [this]
    · rcases hu : env.unmarshal value with _ | h
      · exact absurd hu (hv (key, value) (List.mem_cons_self _ _))
      · simp only
        rw [ih (hs ++ [h]) (ids ++ [key]) (fun e he => hv e (List.mem_cons_of_mem _ he))]
        have hm : (limit - (hs.length : Int)).toNat
            = (limit - ((hs ++ [h]).length : Int)).toNat + 1 := by
          simp only [List.length_append, List.length_singleton, Nat.cast_add, Nat.cast_one]
          omega
        rw [hm]
        simp [List.take_succ_cons, List.filterMap_cons, hu]

theorem Bucket.foldl_Delete (b : Bucket) (ks : List String) :
    ks.foldl Bucket.Delete b = b.filter (fun e => decide (e.1 ∉ ks)) := by
  induction ks generalizing b with
  | nil => simp
  | cons k ks ih =>
    rw [List.foldl_cons, ih, Bucket.Delete, List.filter_filter]
    congr 1
    funext e
    simp only [List.mem_cons, not_or, Bool.decide_and, ne_eq, decide_not]
    rw [Bool.and_comm]

theorem Bucket.take_keys_lt_drop_keys (b : Bucket) (n : Nat) (hb : b.WF) :
    ∀ k ∈ Bucket.keys (b.take n), ∀ k' ∈ Bucket.keys (b.drop n), k < k' := by
  have h : Bucket.keys b = Bucket.keys (b.take n) ++ Bucket.keys (b.drop n) := by
    simp only [Bucket.keys, ← List.map_append, List.take_append_drop]
  unfold Bucket.WF List.Sorted at hb
  rw [h, List.pairwise_append] at hb
  exact hb.2.2

theorem Bucket.filter_take_keys (b : Bucket) (n : Nat) (hb : b.WF) :
    b.filter (fun e => decide (e.1 ∉ Bucket.keys (b.take n))) = b.drop n := by
  have hlt := Bucket.take_keys_lt_drop_keys b n hb
  conv_lhs => rw [← List.take_append_drop n b]
  rw [List.filter_append]
  have h1 : (b.take n).filter
      (fun e => decide (e.1 ∉ Bucket.keys ((b.take n ++ b.drop n).take n))) = [] := by
    rw [List.filter_eq_nil_iff]
    intro e he
    simp only [List.take_append_drop, decide_eq_true_eq, not_not]
    exact List.mem_map_of_mem _ he
  have h2 : (b.drop n).filter
      (fun e => decide (e.1 ∉ Bucket.keys ((b.take n ++ b.drop n).take n))) = b.drop n := by
    rw [List.filter_eq_self]
    intro e he
    simp only [List.take_append_drop, decide_eq_true_eq]
    intro hm
    exact lt_irrefl _ (hlt e.1 hm e.1 (List.mem_map_of_mem _ he))
  rw [h1, h2, List.nil_append]

theorem tail_tail_eq_drop {α : Type} (l : List α) : l.tail.tail = l.drop 2 := by
  rcases l with _ | ⟨a, _ | ⟨b, t⟩⟩ <;> rfl

theorem tail_tail_tail_eq_drop {α : Type} (l : List α) : l.tail.tail.tail = l.drop 3 := by
  rcases l with _ | ⟨a, _ | ⟨b, _ | ⟨c, t⟩⟩⟩ <;> rfl

/-! ## Facts about strings, patterns, sanitizing and detection -/

theorem NewHandle.loop_eq (opts : List HandleOption) (n : Nat) (handle : Handle) :
    NewHandle.loop opts n handle = (opts.take n).foldr (fun opt next => opt next) handle := by
  induction n generalizing handle with
  | zero => rfl
  | succ i ih =>
    unfold NewHandle.loop
    rcases hi : opts[i]? with _ | opt
    · simp only
      rw [ih]
      have hlen : opts.length ≤ i := List.getElem?_eq_none_iff.1 hi
      rw [List.take_of_length_le hlen, List.take_of_length_le (by omega)]
    · simp only
      rw [ih]
      obtain ⟨hlt, hget⟩ := List.getElem?_eq_some_iff.1 hi
      rw [List.take_succ, hi]
      simp [List.foldr_append]

theorem trimRightL_cons_of_ne_nil (f : Char → Bool) (c : Char) (l : List Char)
    (h : trimRightL f l ≠ []) : trimRightL f (c :: l) = c :: trimRightL f l := by
  rw [trimRightL]
  rcases ht : trimRightL f l with _ | ⟨d, ds⟩
  · exact absurd ht h
  · rfl

theorem trimRightL_cons_of_not (f : Char → Bool) (c : Char) (l : List Char)
    (h : f c = false) : trimRightL f (c :: l) = c :: trimRightL f l := by
  rw [trimRightL]
  rcases trimRightL f l with _ | ⟨d, ds⟩
  · simp [h]
  · rfl

theorem trimRightL_append (f : Char → Bool) (p b : List Char) (c : Char) (h : f c = false) :
    trimRightL f (p ++ c :: b) = p ++ c :: trimRightL f b := by
  induction p with
  | nil => exact trimRightL_cons_of_not f c b h
  | cons x p ih =>
    rw [List.cons_append, trimRightL_cons_of_ne_nil f x _ (by rw [ih]; simp), ih]
    rfl

theorem splitNL_two (sep : Char) (s a b : List Char) (h : cutL sep s = some (a, b)) :
    splitNL sep 2 s = [a, b] := by
  show (match cutL sep s with
    | none => [s]
    | some (a, b) => a :: splitNL sep 1 b) = [a, b]
  rw [h]
  rfl

theorem findGitRemote.sublines_skip (mid : List String) (rest : List String)
    (hmid : ∀ l ∈ mid, HasPrefix l "[" = false ∧ HasPrefix (TrimSpace l) "url = " = false) :
    findGitRemote.sublines (mid ++ rest) = findGitRemote.sublines rest := by
  induction mid with
  | nil => rfl
  | cons l mid ih =>
    obtain ⟨h1, h2⟩ := hmid l (List.mem_cons_self _ _)
    rw [List.cons_append, findGitRemote.sublines]
    simp only [h1, h2, Bool.false_eq_true, if_false]
    exact ih (fun x hx => hmid x (List.mem_cons_of_mem _ hx))

theorem findGitRemote.lines_skip (pre : List String) (rest : List String)
    (hpre : ∀ l ∈ pre, Trim l "\n\r\t" ≠ "[remote \"origin\"]") :
    findGitRemote.lines (pre ++ rest) = findGitRemote.lines rest := by
  induction pre with
  | nil => rfl
  | cons l pre ih =>
    rw [List.cons_append, findGitRemote.lines, if_pos (hpre l (List.mem_cons_self _ _))]
    exact ih (fun x hx => hpre x (List.mem_cons_of_mem _ hx))

theorem HasPrefix_mem (s p : String) (h : HasPrefix s p = true) (c : Char) (hc : c ∈ p.data) :
    c ∈ s.data := by
  unfold HasPrefix at h
  rw [List.isPrefixOf_iff_prefix] at h
  exact h.subset hc

theorem withSlash_mem (p : String) : '/' ∈ (withSlash p).data := by
  unfold withSlash
  split_ifs with h
  · rw [String.data_append]
    simp
  · have h' : HasSuffix p "/" = true := by simpa using h
    unfold HasSuffix at h'
    rw [List.isPrefixOf_iff_prefix] at h'
    have : '/' ∈ p.data.reverse := h'.subset (by decide)
    simpa using this

theorem TrimPrefix_of_not (s p : String) (h : HasPrefix s p = false) : TrimPrefix s p = s := by
  unfold TrimPrefix
  simp [h]

theorem hideProjectFolder_Entity (h : Heartbeat) (hide : Bool) :
    (hideProjectFolder h hide).Entity =
      if h.EntityType ≠ FileType ∨ hide = false then h.Entity
      else if h.ProjectPath ≠ "" ∧ HasPrefix h.Entity (withSlash h.ProjectPath) = true then
        TrimPrefix h.Entity (withSlash h.ProjectPath)
      else if h.ProjectPathOverride ≠ "" then
        TrimPrefix h.Entity (withSlash h.ProjectPathOverride)
      else h.Entity := by
  unfold hideProjectFolder
  simp only
  split_ifs <;> rfl

theorem hideProjectFolder_fields (h : Heartbeat) (hide : Bool) :
    (hideProjectFolder h hide).EntityType = h.EntityType ∧
    (hideProjectFolder h hide).IsUnsavedEntity = h.IsUnsavedEntity := by
  unfold hideProjectFolder
  simp only
  split_ifs <;> exact ⟨rfl, rfl⟩

theorem hideProjectFolder_Entity_of_no_slash (h : Heartbeat) (hide : Bool)
    (hs : '/' ∉ h.Entity.data) : (hideProjectFolder h hide).Entity = h.Entity := by
  have key : ∀ p : String, TrimPrefix h.Entity (withSlash p) = h.Entity := by
    intro p
    apply TrimPrefix_of_not
    by_contra hne
    exact hs (HasPrefix_mem h.Entity _ (by simpa using hne) '/' (withSlash_mem p))
  rw [hideProjectFolder_Entity]
  split_ifs
  · rfl
  · exact key _
  · exact key _
  · rfl

theorem hideCredentials_of_not_remote (lib : RegexLib) (h : Heartbeat)
    (hr : h.IsRemote lib = false) : hideCredentials lib h = h := by
  unfold hideCredentials
  rw [if_pos hr]

theorem Sanitize_no_patterns (lib : RegexLib) (h : Heartbeat) (hide : Bool) :
    Sanitize lib h ⟨[], [], [], hide, []⟩ = hideCredentials lib (hideProjectFolder h hide) := by
  unfold Sanitize Sanitize.dependencyPatterns Sanitize.branchPatterns Sanitize.filePatterns
    Sanitize.projectPatterns
  simp [ShouldSanitize]

theorem Ext.scan_no_slash (rev acc : List Char) (hacc : ∀ c ∈ acc, c ≠ '/') :
    ∀ c ∈ Ext.scan rev acc, c ≠ '/' := by
  induction rev generalizing acc with
  | nil => simp [Ext.scan]
  | cons x rest ih =>
    unfold Ext.scan
    split_ifs with h1 h2
    · simp
    · intro c hc
      rcases List.mem_cons.1 hc with rfl | hc
      · decide
      · exact hacc c hc
    · apply ih
      intro c hc
      rcases List.mem_cons.1 hc with rfl | hc
      · exact h1
      · exact hacc c hc

theorem Ext.scan_decomp (rev : List Char) :
    (∀ acc, Ext.scan rev acc = []) ∨
      ∃ pre rest, rev.takeWhile (fun c => decide (c ≠ '/')) = pre ++ '.' :: rest ∧
        '.' ∉ pre ∧ ∀ acc, Ext.scan rev acc = '.' :: (pre.reverse ++ acc) := by
  induction rev with
  | nil => left; intro acc; rfl
  | cons x rest ih =>
    by_cases h1 : x = '/'
    · left
      intro acc
      rw [Ext.scan.eq_def]
      simp [h1]
    · have ht : (x :: rest).takeWhile (fun c => decide (c ≠ '/'))
          = x :: rest.takeWhile (fun c => decide (c ≠ '/')) := by
        rw [List.takeWhile_cons, if_pos (by simpa using h1)]
      by_cases h2 : x = '.'
      · right
        refine ⟨[], rest.takeWhile (fun c => decide (c ≠ '/')), ?_, by simp, ?_⟩
        · rw [ht, h2]; rfl
        · intro acc
          rw [Ext.scan.eq_def]
          simp [h2]
      · have hs : ∀ a, Ext.scan (x :: rest) a = Ext.scan rest (x :: a) := by
          intro a
          rw [Ext.scan.eq_def]
          simp [h1, h2]
        rcases ih with e | ⟨pre, rs, e1, e2, e3⟩
        · left
          intro acc
          rw [hs, e]
        · right
          refine ⟨x :: pre, rs, ?_, ?_, ?_⟩
          · rw [ht, e1]; rfl
          · intro hm
            rcases List.mem_cons.1 hm with h | h
            · exact h2 h.symm
            · exact e2 h
          · intro acc
            rw [hs, e3]
            simp

/-- The base name of a path is its stem followed by its extension; the
extension has no `/` and is empty or a dot followed by no further dot. -/
theorem Ext_decomp (path : List Char) :
    baseL path = stemL path ++ Ext.scan path.reverse [] ∧
    (∀ c ∈ Ext.scan path.reverse [], c ≠ '/') ∧
    (Ext.scan path.reverse [] = [] ∨
      ∃ t, Ext.scan path.reverse [] = '.' :: t ∧ '.' ∉ t) := by
  refine ⟨?_, Ext.scan_no_slash _ _ (by simp), ?_⟩
  · unfold stemL
    rcases Ext.scan_decomp path.reverse with e | ⟨pre, rs, e1, _, e3⟩
    · rw [e []]
      simp
    · have hb : baseL path = rs.reverse ++ '.' :: pre.reverse := by
        unfold baseL
        rw [e1]
        simp
      rw [e3 [], hb]
      simp
  · rcases Ext.scan_decomp path.reverse with e | ⟨pre, rs, _, e2, e3⟩
    · left; exact e []
    · right
      exact ⟨pre.reverse, by rw [e3 []]; simp, by simpa using e2⟩

theorem infix_hidden_ext (stem ext : List Char)
    (hext : ext = [] ∨ ∃ t, ext = '.' :: t ∧ '.' ∉ t)
    (h : (stem ++ ext) <:+: ("HIDDEN".data ++ ext)) : stem <:+: "HIDDEN".data := by
  rcases hext with rfl | ⟨t, rfl, ht⟩
  · simpa using h
  · obtain ⟨u, v, huv⟩ := h
    have e : "HIDDEN".data ++ '.' :: t = (u ++ stem) ++ ('.' :: t ++ v) := by
      rw [← huv]
      simp
    have hlen := congrArg List.length e
    simp only [List.length_append, List.length_cons] at hlen
    rcases List.append_eq_append_iff.1 e with ⟨a, ha, hb⟩ | ⟨c, hc, hd⟩
    · have hl := congrArg List.length hb
      simp only [List.length_append, List.length_cons] at hl
      have ha0 : a = [] := List.length_eq_zero.1 (by omega)
      subst ha0
      exact ⟨u, [], by simpa using ha⟩
    · rcases c with _ | ⟨x, c⟩
      · exact ⟨u, [], by simpa using hc.symm⟩
      · exfalso
        have hx : x = '.' := by
          have := congrArg List.head? hd
          simpa using this.symm
        have hmem : x ∈ "HIDDEN".data := by
          rw [hc]
          simp
        rw [hx] at hmem
        exact absurd hmem (by decide)

theorem Sanitize.projectPatterns_fields (lib : RegexLib) (config : SanitizeConfig)
    (check : SanitizeCheck) (h : Heartbeat) :
    (Sanitize.projectPatterns lib config check h).Entity = h.Entity ∧
    (Sanitize.projectPatterns lib config check h).EntityType = h.EntityType ∧
    (Sanitize.projectPatterns lib config check h).IsUnsavedEntity = h.IsUnsavedEntity := by
  unfold Sanitize.projectPatterns
  split_ifs <;> exact ⟨rfl, rfl, rfl⟩

theorem Sanitize.branchPatterns_fields (lib : RegexLib) (config : SanitizeConfig)
    (check : SanitizeCheck) (h : Heartbeat) :
    (Sanitize.branchPatterns lib config check h).Entity = h.Entity ∧
    (Sanitize.branchPatterns lib config check h).EntityType = h.EntityType ∧
    (Sanitize.branchPatterns lib config check h).IsUnsavedEntity = h.IsUnsavedEntity := by
  unfold Sanitize.branchPatterns
  split_ifs <;> exact ⟨rfl, rfl, rfl⟩

theorem Sanitize.dependencyPatterns_fields (lib : RegexLib) (config : SanitizeConfig)
    (check : SanitizeCheck) (h : Heartbeat) :
    (Sanitize.dependencyPatterns lib config check h).Entity = h.Entity ∧
    (Sanitize.dependencyPatterns lib config check h).EntityType = h.EntityType ∧
    (Sanitize.dependencyPatterns lib config check h).IsUnsavedEntity = h.IsUnsavedEntity := by
  unfold Sanitize.dependencyPatterns
  split_ifs <;> exact ⟨rfl, rfl, rfl⟩

theorem Sanitize.filePatterns_fields (lib : RegexLib) (config : SanitizeConfig)
    (check : SanitizeCheck) (h : Heartbeat)
    (hs : ShouldSanitize lib { check with Patterns := config.FilePatterns } = true) :
    (Sanitize.filePatterns lib config check h).Entity =
      (if h.EntityType = FileType then "HIDDEN" ++ Ext h.Entity else "HIDDEN") ∧
    (Sanitize.filePatterns lib config check h).EntityType = h.EntityType ∧
    (Sanitize.filePatterns lib config check h).IsUnsavedEntity = h.IsUnsavedEntity := by
  unfold Sanitize.filePatterns
  rw [if_pos hs]
  simp only
  unfold Sanitize.hideEntity sanitizeMetaData
  split_ifs <;> exact ⟨rfl, rfl, rfl⟩

theorem ShouldSanitize_of_match_all (lib : RegexLib) (check : SanitizeCheck)
    (hall : ∃ p ∈ check.Patterns, ∀ s, p.MatchString lib s = true) :
    ShouldSanitize lib check = true := by
  obtain ⟨p, hp, hm⟩ := hall
  unfold ShouldSanitize
  rw [List.any_eq_true]
  exact ⟨p, hp, by simp [hm]⟩

theorem splitL_ne_nil (sep : Char) (l : List Char) : splitL sep l ≠ [] := by
  induction l with
  | nil => simp [splitL]
  | cons c cs ih =>
    rw [splitL.eq_def]
    simp only
    split_ifs
    · simp
    · rcases h : splitL sep cs with _ | ⟨p, ps⟩
      · exact absurd h ih
      · simp

theorem splitL_cons (sep c : Char) (cs : List Char) :
    splitL sep (c :: cs) = if c = sep then [] :: splitL sep cs
      else (splitL sep cs).modifyHead (fun p => c :: p) := by
  rw [splitL.eq_def]
  simp only
  split_ifs
  · rfl
  · rcases h : splitL sep cs with _ | ⟨p, ps⟩
    · exact absurd h (splitL_ne_nil sep cs)
    · rfl

theorem trimRightL_eq_nil (p : Char → Bool) (l : List Char) (h : ∀ x ∈ l, p x = true) :
    trimRightL p l = [] := by
  induction l with
  | nil => rfl
  | cons c cs ih =>
    rw [trimRightL.eq_def]
    simp only
    rw [ih (fun x hx => h x (List.mem_cons_of_mem _ hx))]
    simp [h c (List.mem_cons_self _ _)]

theorem trimRightL_concat_pos (p : Char → Bool) (q : List Char) (c : Char) (h : p c = true) :
    trimRightL p (q ++ [c]) = trimRightL p q := by
  induction q with
  | nil => simp [trimRightL, h]
  | cons x q ih =>
    rw [List.cons_append, trimRightL.eq_def]
    simp only
    rw [ih]
    conv_rhs => rw [trimRightL.eq_def]

theorem trimL_cons_pos (p : Char → Bool) (c : Char) (l : List Char) (h : p c = true) :
    trimL p (c :: l) = trimL p l := by
  unfold trimL
  rw [List.dropWhile_cons_of_pos h]

theorem trimL_concat_pos (p : Char → Bool) (q : List Char) (c : Char) (h : p c = true) :
    trimL p (q ++ [c]) = trimL p q := by
  unfold trimL
  rw [List.dropWhile_append]
  split_ifs with he
  · have hq : q.dropWhile p = [] := by simpa using he
    rw [hq, List.dropWhile_cons_of_pos h]
    rfl
  · exact trimRightL_concat_pos p _ c h

theorem trimRightL_eq_rdropWhile (p : Char → Bool) (l : List Char) :
    trimRightL p l = l.rdropWhile p := by
  induction l with
  | nil => simp [trimRightL]
  | cons c cs ih =>
    rw [trimRightL.eq_def]
    simp only
    rw [ih]
    unfold List.rdropWhile
    rw [List.reverse_cons, List.dropWhile_append]
    rcases hd : List.dropWhile p cs.reverse with _ | ⟨d, ds⟩
    · by_cases hc : p c = true <;> simp [hc]
    · simp
      rcases hr : (ds.reverse ++ [d]) with _ | ⟨e, es⟩
      · simp at hr
      · simp

theorem trimL_eq_specStrip (p : Char → Bool) (l : List Char) : trimL p l = specStrip p l := by
  unfold trimL specStrip
  exact trimRightL_eq_rdropWhile p _

theorem trimRightL_congr (p r : Char → Bool) (l : List Char) (h : ∀ x ∈ l, p x = r x) :
    trimRightL p l = trimRightL r l := by
  induction l with
  | nil => rfl
  | cons c cs ih =>
    rw [trimRightL.eq_def]
    conv_rhs => rw [trimRightL.eq_def]
    simp only
    rw [ih (fun x hx => h x (List.mem_cons_of_mem _ hx)), h c (List.mem_cons_self _ _)]

theorem dropWhile_congr_mem (p r : Char → Bool) (l : List Char) (h : ∀ x ∈ l, p x = r x) :
    l.dropWhile p = l.dropWhile r := by
  induction l with
  | nil => rfl
  | cons c cs ih =>
    rw [List.dropWhile_cons, List.dropWhile_cons, h c (List.mem_cons_self _ _),
      ih (fun x hx => h x (List.mem_cons_of_mem _ hx))]

theorem trimL_congr (p r : Char → Bool) (l : List Char) (h : ∀ x ∈ l, p x = r x) :
    trimL p l = trimL r l := by
  unfold trimL
  rw [← dropWhile_congr_mem p r l h]
  exact trimRightL_congr p r _ (fun x hx => h x ((List.dropWhile_sublist p).subset hx))

theorem trimRightL_map (f : Char → Char) (p : Char → Bool) (l : List Char) :
    trimRightL p (l.map f) = (trimRightL (p ∘ f) l).map f := by
  induction l with
  | nil => rfl
  | cons c cs ih =>
    rw [List.map_cons, trimRightL.eq_def]
    conv_rhs => rw [trimRightL.eq_def]
    simp only
    rw [ih]
    rcases trimRightL (p ∘ f) cs with _ | ⟨d, ds⟩
    · by_cases hc : p (f c) = true <;> simp [hc]
    · simp

theorem trimL_map (f : Char → Char) (p : Char → Bool) (l : List Char) :
    trimL p (l.map f) = (trimL (p ∘ f) l).map f := by
  unfold trimL
  rw [List.dropWhile_map, trimRightL_map]

theorem filterMap_splitL_blank {β : Type} (p : Char → Bool) (sep : Char)
    (F : List Char → Option β) (hF : ∀ a b, trimL p a = trimL p b → F a = F b)
    (hF0 : F [] = none) (cs : List Char) (hcs : ∀ x ∈ cs, p x = true) (q : List Char) :
    ((splitL sep cs).modifyHead (fun l => q ++ l)).filterMap F = [q].filterMap F := by
  induction cs generalizing q with
  | nil => simp [splitL]
  | cons c cs ih =>
    have hc := hcs c (List.mem_cons_self _ _)
    have hcs' : ∀ x ∈ cs, p x = true := fun x hx => hcs x (List.mem_cons_of_mem _ hx)
    rw [splitL_cons]
    split_ifs with h
    · have h0 := ih hcs' []
      simp only [List.nil_append, List.filterMap_cons, hF0, List.filterMap_nil] at h0
      have hid : (fun l : List Char => l) = id := rfl
      rw [hid, List.modifyHead_id] at h0
      rw [id_eq] at h0
      rw [List.modifyHead_cons, List.append_nil, List.filterMap_cons, h0]
      simp only [List.filterMap_cons, List.filterMap_nil]
    · rw [List.modifyHead_modifyHead]
      have h1 := ih hcs' (q ++ [c])
      have hfun : ((fun l : List Char => q ++ l) ∘ fun p => c :: p)
          = fun l => (q ++ [c]) ++ l := by
        funext l
        simp
      rw [hfun, h1]
      simp only [List.filterMap_cons, List.filterMap_nil]
      rw [hF (q ++ [c]) q (trimL_concat_pos p q c hc)]

theorem filterMap_splitL_trimRightL {β : Type} (p : Char → Bool) (sep : Char)
    (F : List Char → Option β) (hF : ∀ a b, trimL p a = trimL p b → F a = F b)
    (hF0 : F [] = none) (hsep : p sep = true) (r : List Char) (q : List Char) :
    ((splitL sep (trimRightL p r)).modifyHead (fun l => q ++ l)).filterMap F
      = ((splitL sep r).modifyHead (fun l => q ++ l)).filterMap F := by
  induction r generalizing q with
  | nil => rfl
  | cons c cs ih =>
    rcases ht : trimRightL p cs with _ | ⟨d, ds⟩
    · have hall : ∀ x ∈ cs, p x = true := by
        intro x hx
        by_contra hp
        obtain ⟨a, b, rfl⟩ := List.append_of_mem hx
        rw [trimRightL_append p a b x (by simpa using hp)] at ht
        simp at ht
      by_cases hc : p c = true
      · have hall' : ∀ x ∈ c :: cs, p x = true := by
          intro x hx
          rcases List.mem_cons.1 hx with rfl | hx
          · exact hc
          · exact hall x hx
        rw [trimRightL_eq_nil p _ hall', filterMap_splitL_blank p sep F hF hF0 _ hall' q]
        simp [splitL]
      · have hcs : c ≠ sep := fun h => hc (h ▸ hsep)
        rw [trimRightL_cons_of_not p c cs (by simpa using hc), ht, splitL_cons, if_neg hcs,
          splitL_cons, if_neg hcs, List.modifyHead_modifyHead, List.modifyHead_modifyHead]
        have hfun : ((fun l : List Char => q ++ l) ∘ fun p => c :: p)
            = fun l => (q ++ [c]) ++ l := by
          funext l
          simp
        rw [hfun, filterMap_splitL_blank p sep F hF hF0 _ hall (q ++ [c])]
        simp [splitL]
    · rw [trimRightL_cons_of_ne_nil p c cs (by rw [ht]; simp), splitL_cons, splitL_cons]
      split_ifs with h
      · have h0 := ih []
        have hid : (fun l : List Char => [] ++ l) = id := by
          funext l
          simp
        rw [hid, List.modifyHead_id] at h0
        simp only [id_eq] at h0
        rw [List.modifyHead_cons, List.modifyHead_cons, List.filterMap_cons,
          List.filterMap_cons, h0]
      · rw [List.modifyHead_modifyHead, List.modifyHead_modifyHead]
        have hfun : ((fun l : List Char => q ++ l) ∘ fun p => c :: p)
            = fun l => (q ++ [c]) ++ l := by
          funext l
          simp
        rw [hfun]
        exact ih (q ++ [c])

theorem filterMap_splitL_dropWhile {β : Type} (p : Char → Bool) (sep : Char)
    (F : List Char → Option β) (hF : ∀ a b, trimL p a = trimL p b → F a = F b)
    (hF0 : F [] = none) (r : List Char) :
    (splitL sep (r.dropWhile p)).filterMap F = (splitL sep r).filterMap F := by
  induction r with
  | nil => rfl
  | cons c cs ih =>
    by_cases hc : p c = true
    · rw [List.dropWhile_cons_of_pos hc, ih, splitL_cons]
      split_ifs with h
      · rw [List.filterMap_cons, hF0]
      · rcases hs : splitL sep cs with _ | ⟨a, as⟩
        · exact absurd hs (splitL_ne_nil sep cs)
        · rw [List.modifyHead_cons, List.filterMap_cons, List.filterMap_cons,
            hF (c :: a) a (trimL_cons_pos p c a hc)]
    · rw [List.dropWhile_cons_of_neg hc]

theorem filterMap_splitL_trimL {β : Type} (p : Char → Bool) (sep : Char)
    (F : List Char → Option β) (hF : ∀ a b, trimL p a = trimL p b → F a = F b)
    (hF0 : F [] = none) (hsep : p sep = true) (r : List Char) :
    (splitL sep (trimL p r)).filterMap F = (splitL sep r).filterMap F := by
  have h := filterMap_splitL_trimRightL p sep F hF hF0 hsep (r.dropWhile p) []
  have hid : (fun l : List Char => [] ++ l) = id := by
    funext l
    simp
  rw [hid, List.modifyHead_id] at h
  simp only [id_eq] at h
  unfold trimL
  rw [h, filterMap_splitL_dropWhile p sep F hF hF0]

theorem splitL_map_eq_splitOnP (l : List Char) :
    splitL '\n' (l.map (fun c => if c = '\r' then '\n' else c))
      = l.splitOnP (fun c => c == '\n' || c == '\r') := by
  induction l with
  | nil => simp [splitL]
  | cons c cs ih =>
    rw [List.map_cons, splitL_cons, List.splitOnP_cons, ih]
    by_cases h1 : c = '\r'
    · simp [h1]
    · by_cases h2 : c = '\n'
      · simp [h2]
      · simp [h1, h2]

theorem splitOnP_pieces {α : Type} (p : α → Bool) (l : List α) :
    ∀ piece ∈ l.splitOnP p, ∀ x ∈ piece, p x = false := by
  induction l with
  | nil => simp
  | cons c cs ih =>
    rw [List.splitOnP_cons]
    split_ifs with h
    · intro piece hp
      rcases List.mem_cons.1 hp with rfl | hp
      · simp
      · exact ih piece hp
    · rcases hs : cs.splitOnP p with _ | ⟨a, as⟩
      · exact absurd hs (List.splitOnP_ne_nil p cs)
      · rw [hs] at ih
        intro piece hp
        rw [List.modifyHead_cons] at hp
        rcases List.mem_cons.1 hp with rfl | hp
        · intro x hx
          rcases List.mem_cons.1 hx with rfl | hx
          · simpa using h
          · exact ih a (List.mem_cons_self _ _) x hx
        · exact ih piece (List.mem_cons_of_mem _ hp)

theorem parseBoolOrRegexList.lines_eq (lib : RegexLib) (ls : List String) (acc : List Regex) :
    parseBoolOrRegexList.lines lib ls acc = acc ++ ls.filterMap (fun s =>
      if Trim s "\n\t " = "" then none
      else Compile lib (if HasPrefix (Trim s "\n\t ") "(?i)" = false
        then "(?i)" ++ Trim s "\n\t " else Trim s "\n\t ")) := by
  induction ls generalizing acc with
  | nil => simp [parseBoolOrRegexList.lines]
  | cons s rest ih =>
    rw [parseBoolOrRegexList.lines.eq_def]
    simp only
    rw [List.filterMap_cons]
    by_cases h1 : Trim s "\n\t " = ""
    · rw [if_pos h1, if_pos h1, ih]
    · rw [if_neg h1, if_neg h1]
      rcases hc : Compile lib (if HasPrefix (Trim s "\n\t ") "(?i)" = false
        then "(?i)" ++ Trim s "\n\t " else Trim s "\n\t ") with _ | re
      · simp only [ih]
      · simp only [ih, List.append_assoc, List.singleton_append]

theorem map_toLower_replace (w t : List Char) (hw : ∀ x ∈ w, x ≠ '\n' ∧ x ≠ '\r') :
    (t.map (fun c => if c = '\r' then '\n' else c)).map Char.toLower = w
      ↔ t.map Char.toLower = w := by
  induction t generalizing w with
  | nil => simp
  | cons c cs ih =>
    rcases w with _ | ⟨x, xs⟩
    · simp
    · have hx := hw x (List.mem_cons_self _ _)
      have hxs : ∀ y ∈ xs, y ≠ '\n' ∧ y ≠ '\r' := fun y hy => hw y (List.mem_cons_of_mem _ hy)
      simp only [List.map_cons, List.cons.injEq]
      rw [ih xs hxs]
      by_cases hc : c = '\r'
      · subst hc
        have e1 : Char.toLower '\n' = '\n' := by decide
        have e2 : Char.toLower '\r' = '\r' := by decide
        rw [if_pos rfl, e1, e2]
        constructor
        · intro h
          exact absurd h.1.symm hx.1
        · intro h
          exact absurd h.1.symm hx.2
      · rw [if_neg hc]

theorem Trim_replace (s : String) :
    Trim (ReplaceAllChar s '\r' '\n') "\n\t " = String.mk
      ((specStrip (fun c => c == ' ' || c == '\t' || c == '\n' || c == '\r') s.data).map
        (fun c => if c = '\r' then '\n' else c)) := by
  unfold Trim ReplaceAllChar
  rw [trimL_map, ← trimL_eq_specStrip]
  congr 2
  apply trimL_congr
  intro c _
  by_cases h1 : c = '\r'
  · simp [h1]
  · by_cases h2 : c = '\n'
    · simp [h2]
    · by_cases h3 : c = '\t'
      · simp [h3]
      · by_cases h4 : c = ' '
        · simp [h4]
        · simp [h1, h2, h3, h4]

theorem linePattern_eq (lib : RegexLib) (line : List Char)
    (hline : ∀ x ∈ line, (x == '\n' || x == '\r') = false) :
    (if Trim (String.mk line) "\n\t " = "" then none
      else Compile lib (if HasPrefix (Trim (String.mk line) "\n\t ") "(?i)" = false
        then "(?i)" ++ Trim (String.mk line) "\n\t " else Trim (String.mk line) "\n\t "))
      = specLinePattern lib line := by
  have ht : Trim (String.mk line) "\n\t "
      = String.mk (specStrip (fun c => c == ' ' || c == '\t') line) := by
    unfold Trim
    rw [← trimL_eq_specStrip]
    congr 1
    apply trimL_congr
    intro c hc
    have hn := hline c hc
    have h2 : c ≠ '\n' := by
      intro h
      simp [h] at hn
    by_cases h3 : c = '\t'
    · simp [h3]
    · by_cases h4 : c = ' '
      · simp [h4]
      · simp [h2, h3, h4]
  rw [ht]
  unfold specLinePattern HasPrefix
  by_cases h1 : specStrip (fun c => c == ' ' || c == '\t') line = []
  · rw [if_pos h1, if_pos (by rw [h1])]
  · rw [if_neg h1, if_neg (by
      intro h
      exact h1 (congrArg String.data h))]
    by_cases h2 : "(?i)".data.isPrefixOf (specStrip (fun c => c == ' ' || c == '\t') line) = true
    · rw [if_pos h2, if_neg (by simp [h2])]
    · rw [if_neg h2, if_pos (Bool.eq_false_iff.2 h2)]

/-! ## Facts about extra heartbeats, the empty configuration and a failing server -/

theorem Except_bind_ok {ε α β : Type} (x : Except ε α) (f : α → Except ε β) (b : β)
    (h : x.bind f = .ok b) : ∃ a, x = .ok a ∧ f a = .ok b := by
  cases x with
  | error e => cases h
  | ok a => exact ⟨a, rfl, h⟩

/-- What `parseExtraHeartbeat` returns is built by `parseExtraHeartbeat.build`
from a `timestampParsed` the switch on `time` and `timestamp` accepted. -/
theorem parseExtraHeartbeat_ok (env : ParseEnv) (h : ExtraHeartbeat) (hb : Heartbeat)
    (hok : parseExtraHeartbeat env h = .ok hb) :
    ∃ entity entityType cursorPosition isWrite lineNumber lines time timestamp timestampParsed
      isUnsavedEntity,
      parseExtraHeartbeat.floatField env "time" h.Time = .ok time ∧
      parseExtraHeartbeat.floatField env "timestamp" h.Timestamp = .ok timestamp ∧
      parseExtraHeartbeat.timestampParsed h time timestamp = .ok timestampParsed ∧
      hb = parseExtraHeartbeat.build h entity entityType cursorPosition isWrite lineNumber lines
        timestampParsed isUnsavedEntity := by
  unfold parseExtraHeartbeat at hok
  rcases he : env.homedirExpand h.Entity with e | entity
  · rw [he] at hok
    cases hok
  · rw [he] at hok
    simp only at hok
    obtain ⟨entityType, -, hok⟩ := Except_bind_ok _ _ _ hok
    obtain ⟨cursorPosition, -, hok⟩ := Except_bind_ok _ _ _ hok
    obtain ⟨isWrite, -, hok⟩ := Except_bind_ok _ _ _ hok
    obtain ⟨lineNumber, -, hok⟩ := Except_bind_ok _ _ _ hok
    obtain ⟨lines, -, hok⟩ := Except_bind_ok _ _ _ hok
    obtain ⟨time, h1, hok⟩ := Except_bind_ok _ _ _ hok
    obtain ⟨timestamp, h2, hok⟩ := Except_bind_ok _ _ _ hok
    obtain ⟨timestampParsed, h3, hok⟩ := Except_bind_ok _ _ _ hok
    obtain ⟨isUnsavedEntity, -, hok⟩ := Except_bind_ok _ _ _ hok
    cases hok
    exact ⟨entity, entityType, cursorPosition, isWrite, lineNumber, lines, time, timestamp,
      timestampParsed, isUnsavedEntity, h1, h2, h3, rfl⟩

theorem hideProjectFolder_off (h : Heartbeat) : hideProjectFolder h false = h := by
  unfold hideProjectFolder
  rw [if_pos (Or.inr rfl)]

theorem popHeartbeats_sampleWorld_one :
    popHeartbeats sampleEnv (sampleWorld 1) SendLimit
      = (.ok (sampleBatch 1), { bucket := [], faults := [], slept := [] }) := by
  decide

theorem handleResults_serverError_one :
    handleResults sampleEnv { bucket := [], faults := [], slept := [] }
      [⟨[], 500, sampleHeartbeat 0⟩] (sampleBatch 1) = some (none, sampleWorld 1) := by
  simp only [handleResults, pushHeartbeatsWithRetry_unroll]
  decide

theorem Sync.loop_serverError (syncLimit : Int) (hL : 25 ≤ syncLimit) (fuel : Nat)
    (batches : List (List Heartbeat)) :
    Sync.loop sampleEnv serverError syncLimit fuel 0 (sampleWorld 1) batches = none := by
  induction fuel generalizing batches with
  | zero => rfl
  | succ n ih =>
    rw [Sync.loop]
    have h1 : ¬ ((0 : Int) ≥ syncLimit) := by omega
    have h2 : decide ((0 : Int) + SendLimit > syncLimit) = false := by
      simp only [SendLimit, decide_eq_false_iff_not]
      omega
    simp only [h1, h2, if_false, Bool.false_eq_true]
    rw [popHeartbeats_sampleWorld_one]
    simp only
    rw [if_neg (by decide)]
    have h3 : serverError (sampleBatch 1) = .ok [⟨[], 500, sampleHeartbeat 0⟩] := by decide
    rw [h3]
    simp only
    rw [handleResults_serverError_one]
    exact ih _

/-- On a text of ASCII runes `strings.ToLower` does not consult the tables. -/
theorem ToLower_tables_ascii (t : CaseTables) (s : String)
    (h : s.data.all (fun c => decide (c.toNat < 128)) = true) : t.ToLower s = ToLower s := by
  unfold CaseTables.ToLower ToLower
  congr 1
  apply List.map_congr_left
  intro c hc
  have := List.all_eq_true.1 h c hc
  simp only [decide_eq_true_eq] at this
  rw [if_pos this]

/-- The byte cut of `correspondingFileExists` at a path whose extension is
followed by the Kelvin sign: the sign has three bytes and its lower case `k`
one, so two bytes too few are cut off `/q/a.c` + `U+212A`; the files looked
for are `/q/a.c.c`, `/q/a.c.m` and `/q/a.c.mm`, not `/q/a.m`, which exists, and
no language is reported.  With `U+023A` as the whole name after `.c`, the
lower-cased extension is longer than the path and the slice expression
panics. -/
theorem correspondingFileExists_byte_cut :
    detectSpecialCases sampleTables sampleLanguages sampleDisk
      (String.mk ['/', 'q', '/', 'a', '.', 'c', Char.ofNat 0x212A]) = some ("", false) ∧
    correspondingFileExists sampleTables sampleDisk
      (String.mk ['/', 'q', '/', 'a', '.', 'c', Char.ofNat 0x212A]) ".m" = some false ∧
    correspondingFileExists sampleTables sampleDisk "/q/a.c" ".m" = some true ∧
    detectSpecialCases sampleTables sampleLanguages sampleDisk "/q/a.c" =
      some ("Objective-C", true) ∧
    detectSpecialCases sampleTables sampleLanguages sampleDisk
      (String.mk ['.', 'c', Char.ofNat 0x23A]) = none := by
  decide

theorem WithDetection.useOverride_fields (h : Heartbeat) (r : ProjectResult) :
    (WithDetection.useOverride h r).Folder =
        (if r.Project = "" ∧ h.ProjectOverride ≠ "" then h.ProjectPathOverride else r.Folder) ∧
      ((WithDetection.useOverride h r).Project = "" ↔ r.Project = "" ∧ h.ProjectOverride = "") := by
  unfold WithDetection.useOverride
  by_cases c : r.Project = "" ∧ h.ProjectOverride ≠ ""
  · rw [if_pos c, if_pos c]
    exact ⟨rfl, ⟨fun e => absurd e c.2, fun e => absurd e.2 c.2⟩⟩
  · rw [if_neg c, if_neg c]
    refine ⟨rfl, ⟨fun e => ⟨e, ?_⟩, fun e => e.1⟩⟩
    by_contra hne
    exact c ⟨e, hne⟩

theorem WithDetection.useRevControl_fields (env : ProjectEnv) (config : ProjectConfig)
    (h : Heartbeat) (r : ProjectResult) :
    (WithDetection.useRevControl env config h r).Folder =
        firstNonEmptyString [r.Folder, (DetectWithRevControl env config.Submodule.DisabledPatterns
          config.Submodule.MapPatterns config.ProjectFromGitRemote
          (WithDetection.args h)).Folder] ∧
      ((WithDetection.useRevControl env config h r).Project = "" ↔
        r.Project = "" ∧ (DetectWithRevControl env config.Submodule.DisabledPatterns
          config.Submodule.MapPatterns config.ProjectFromGitRemote
          (WithDetection.args h)).Project = "") := by
  unfold WithDetection.useRevControl
  generalize DetectWithRevControl env config.Submodule.DisabledPatterns
    config.Submodule.MapPatterns config.ProjectFromGitRemote (WithDetection.args h) = rc
  by_cases c : r.Project = "" ∨ r.Branch = "" ∨ r.Folder = ""
  · rw [if_pos c]
    refine ⟨rfl, ?_⟩
    show firstNonEmptyString [r.Project, rc.Project] = "" ↔ _
    by_cases a : r.Project = "" <;> by_cases b : rc.Project = "" <;>
      simp [firstNonEmptyString, a, b]
  · rw [if_neg c]
    have hp : r.Project ≠ "" := fun e => c (Or.inl e)
    have hf : r.Folder ≠ "" := fun e => c (Or.inr (Or.inr e))
    simp [firstNonEmptyString, hp, hf]

theorem WithDetection.useAlternateProject_Folder (h : Heartbeat) (r : ProjectResult) :
    (WithDetection.useAlternateProject h r).Folder =
      (if r.Project = "" ∧ h.ProjectAlternate ≠ "" then
        firstNonEmptyString [h.ProjectPathOverride, r.Folder]
      else r.Folder) := by
  unfold WithDetection.useAlternateProject
  split_ifs <;> rfl

theorem WithDetection.useAlternateBranch_Folder (h : Heartbeat) (r : ProjectResult) :
    (WithDetection.useAlternateBranch h r).Folder = r.Folder := by
  unfold WithDetection.useAlternateBranch
  split_ifs <;> rfl

theorem WithDetection.useFolder_Folder (env : ProjectEnv) (h : Heartbeat) (r : ProjectResult) :
    (WithDetection.useFolder env h r).Folder =
      (if env.isWindows = true ∧
          (if h.EntityType = FileType ∧ firstNonEmptyString [r.Folder, h.ProjectPathOverride] = ""
            then env.Dir h.Entity
            else firstNonEmptyString [r.Folder, h.ProjectPathOverride]) ≠ "" then
        env.windowsFormatFilePath
          (if h.EntityType = FileType ∧ firstNonEmptyString [r.Folder, h.ProjectPathOverride] = ""
            then env.Dir h.Entity
            else firstNonEmptyString [r.Folder, h.ProjectPathOverride])
      else
        (if h.EntityType = FileType ∧ firstNonEmptyString [r.Folder, h.ProjectPathOverride] = ""
          then env.Dir h.Entity
          else firstNonEmptyString [r.Folder, h.ProjectPathOverride])) := by
  unfold WithDetection.useFolder
  simp only
  split_ifs <;> rfl

theorem WithDetection.obfuscate_Folder (env : ProjectEnv) (lib : RegexLib)
    (config : ProjectConfig) (h : Heartbeat) (d : DetectorID) (r : ProjectResult) :
    (WithDetection.obfuscate env lib config h d r).Folder = r.Folder := by
  unfold WithDetection.obfuscate
  split_ifs <;> rfl

theorem firstNonEmptyString_fold (c : Prop) [Decidable c] (o first rf : String) :
    firstNonEmptyString
      [if c then firstNonEmptyString [o, firstNonEmptyString [first, rf]]
        else firstNonEmptyString [first, rf], o] =
      (if c then firstNonEmptyString [o, first, rf]
        else firstNonEmptyString [first, rf, o]) := by
  by_cases hc : c <;> by_cases a : o = "" <;>
    by_cases b : first = "" <;> by_cases d : rf = "" <;>
    simp [firstNonEmptyString, hc, a, b, d]

theorem WithDetection.result_Folder (env : ProjectEnv) (lib : RegexLib)
    (config : ProjectConfig) (h : Heartbeat) :
    (WithDetection.result env lib config h).Folder =
      FormatProjectFolder env
        (if env.isWindows = true ∧ detectedFolder env config h ≠ "" then
          env.windowsFormatFilePath (detectedFolder env config h)
        else detectedFolder env config h) := by
  show FormatProjectFolder env (WithDetection.obfuscate env lib config h _ _).Folder = _
  rw [WithDetection.obfuscate_Folder, WithDetection.useFolder_Folder,
    WithDetection.useAlternateBranch_Folder, WithDetection.useAlternateProject_Folder]
  obtain ⟨f3, p3⟩ := WithDetection.useRevControl_fields env config h
    (WithDetection.useOverride h (Detect env config.MapPatterns (WithDetection.args h)).1)
  obtain ⟨f2, p2⟩ := WithDetection.useOverride_fields h
    (Detect env config.MapPatterns (WithDetection.args h)).1
  have hcond : ((WithDetection.useRevControl env config h
        (WithDetection.useOverride h
          (Detect env config.MapPatterns (WithDetection.args h)).1)).Project = "" ∧
        h.ProjectAlternate ≠ "") ↔
      ((Detect env config.MapPatterns (WithDetection.args h)).1.Project = "" ∧
        h.ProjectOverride = "" ∧
        (DetectWithRevControl env config.Submodule.DisabledPatterns
          config.Submodule.MapPatterns config.ProjectFromGitRemote
          (WithDetection.args h)).Project = "" ∧ h.ProjectAlternate ≠ "") := by
    rw [p3, p2]
    tauto
  rw [f3, f2]
  simp only [hcond]
  unfold detectedFolder
  simp only
  generalize (if (Detect env config.MapPatterns (WithDetection.args h)).1.Project = "" ∧
      h.ProjectOverride ≠ "" then h.ProjectPathOverride
    else (Detect env config.MapPatterns (WithDetection.args h)).1.Folder) = first
  generalize (DetectWithRevControl env config.Submodule.DisabledPatterns
    config.Submodule.MapPatterns config.ProjectFromGitRemote (WithDetection.args h)).Folder = rf
  rw [firstNonEmptyString_fold]

/-! ## The claims -/

/-- C1 (code defect): with sync limit 25 and 26 queued heartbeats, all accepted
by the sender, one run of `Sync` pops and hands on 25 + 1 = 26 heartbeats,
more than the limit, and leaves the queue empty. -/
theorem Sync_exceeds_limit :
    (Sync sampleEnv acceptAll 3 25 (sampleWorld 26)).map
        (fun r => (r.err, r.batches.map List.length, (r.batches.map List.length).sum,
          Count r.world.bucket)) = some (none, [25, 1], 26, 0) ∧
      Count (sampleWorld 26).bucket = 26 := by
  decide

/-- C2: when the next handle fails on a non-empty batch and the push to the
queue succeeds, `WithQueue` returns the sender's error, every heartbeat of the
batch has its identifier as a key of the queue, holding the serialisation of
the last heartbeat of the batch with that identifier, all other keys are
untouched, and the count grows by the batch size minus the collisions. -/
theorem WithQueue_requeues_on_sender_error (env : Env) (next : Handle) (w w1 : World)
    (hh : List Heartbeat) (err : Err)
    (hne : hh ≠ []) (hwf : w.bucket.WF) (hnext : next hh = .error err)
    (hpush : pushHeartbeatsWithRetry env w hh = some (none, w1)) :
    WithQueue env next w hh = some (.error err, w1) ∧
    (∀ k, w1.bucket.Get k =
        match lastWithID env k hh with
        | some h' => env.marshal h'
        | none => w.bucket.Get k) ∧
    (∀ h ∈ hh, ∃ h' ∈ hh, ∃ data, h'.ID env = h.ID env ∧
        lastWithID env (h.ID env) hh = some h' ∧ env.marshal h' = some data ∧
        w1.bucket.Get (h.ID env) = some data) ∧
    (∀ h ∈ hh, h.ID env ∈ w1.bucket.keys) ∧
    Count w1.bucket + collisions env w.bucket.keys hh = Count w.bucket + hh.length := by
  obtain ⟨hp2, hpb⟩ := pushHeartbeatsWithRetry_success env w w1 hh hpush
  have hlen : hh.length ≠ 0 := by
    intro h0
    exact hne (List.length_eq_zero.1 h0)
  have hW : WithQueue env next w hh = some (.error err, w1) := by
    unfold WithQueue
    rw [if_neg hlen]
    simp only [hnext, hpush]
  have hPM : PushMany env w.bucket hh = (w1.bucket, none) := by
    rw [hpb, ← hp2]
  have hget := PushMany_Get env w.bucket _ hh hPM
  have hstored : ∀ h ∈ hh, ∃ h' ∈ hh, ∃ data, h'.ID env = h.ID env ∧
      lastWithID env (h.ID env) hh = some h' ∧ env.marshal h' = some data ∧
      w1.bucket.Get (h.ID env) = some data := by
    intro h hm
    rcases hl : lastWithID env (h.ID env) hh with _ | h'
    · exact absurd hl (lastWithID_ne_none env hh h hm)
    · obtain ⟨hmem, hid⟩ := lastWithID_some env _ hh h' hl
      rcases hd : env.marshal h' with _ | data
      · exact absurd hd (PushMany_marshal env w.bucket _ hh hPM h' hmem)
      · refine ⟨h', hmem, data, hid, rfl, hd, ?_⟩
        rw [hget (h.ID env), hl]
        exact hd
  refine ⟨hW, hget, hstored, ?_, ?_⟩
  · intro h hm
    obtain ⟨h', _, data, _, _, _, hg⟩ := hstored h hm
    apply Bucket.mem_keys_of_Get
    rw [hg]
    simp
  · have := PushMany_length env w.bucket _ hh hwf hPM
    simp only [Count]
    exact_mod_cast this

set_option maxRecDepth 8192 in
/-- C2 at a concrete input: the queue holds heartbeat 0, the sender is down
and the batch is heartbeats 0 and 1 (one collision). -/
theorem WithQueue_requeues_on_sender_error_witness :
    WithQueue sampleEnv apiDown (sampleWorld 1) (sampleBatch 2)
        = some (.error (.api "connection refused"), sampleWorld 2) ∧
      Count (sampleWorld 2).bucket
          + collisions sampleEnv (sampleWorld 1).bucket.keys (sampleBatch 2)
        = Count (sampleWorld 1).bucket + (sampleBatch 2).length ∧
      collisions sampleEnv (sampleWorld 1).bucket.keys (sampleBatch 2) = 1 :=
  have h := WithQueue_requeues_on_sender_error sampleEnv apiDown (sampleWorld 1)
    (sampleWorld 2) (sampleBatch 2) (.api "connection refused") (by decide)
    (PushMany_WF sampleEnv [] (sampleBatch 1) (by simp [Bucket.WF, Bucket.keys])) rfl
    (by rw [pushHeartbeatsWithRetry_unroll]; decide)
  ⟨h.1, h.2.2.2.2, by decide⟩

theorem handleResults.collect_eq (hh : List Heartbeat) (n : Nat) (results : List Result)
    (acc : List Heartbeat) :
    handleResults.collect hh n results acc = acc ++ invalidByStatus results (hh.drop n) := by
  induction results generalizing n acc with
  | nil => simp [handleResults.collect, invalidByStatus]
  | cons r rest ih =>
    unfold handleResults.collect
    rcases hn : hh[n]? with _ | h
    · have : hh.drop n = [] := by
        rw [List.drop_eq_nil_iff]
        exact List.getElem?_eq_none_iff.1 hn
      simp [this, invalidByStatus]
    · obtain ⟨hlt, hget⟩ := List.getElem?_eq_some_iff.1 hn
      have hd : hh.drop n = h :: hh.drop (n + 1) := by
        rw [← hget]
        exact List.drop_eq_getElem_cons hlt
      simp only
      split_ifs with h400 hout
      · rw [ih, hd]
        simp [invalidByStatus, List.filter_cons, h400]
      · rw [ih, hd]
        simp [invalidByStatus, List.filter_cons, h400, hout]
      · rw [ih, hd]
        simp [invalidByStatus, List.filter_cons, hout]

/-- C3: `handleResults` pushes back (with retry) exactly the heartbeats `hh[n]`
whose result `results[n]` has a status outside 200..299 and not 400, then the
tail of heartbeats without a result; a heartbeat is in the first list only
through an index with such a status, so none enters it for a 2xx or 400. -/
theorem handleResults_requeues (env : Env) (w : World) (results : List Result)
    (hh : List Heartbeat) :
    handleResults.collect hh 0 results [] = invalidByStatus results hh ∧
    handleResults env w results hh =
      (match (if invalidByStatus results hh ≠ [] then
            pushHeartbeatsWithRetry env w (invalidByStatus results hh)
          else some (none, w)) with
        | none => none
        | some r1 =>
          if results.length < hh.length then
            pushHeartbeatsWithRetry env r1.2 (hh.drop results.length)
          else some r1) ∧
    (∀ h, h ∈ handleResults.collect hh 0 results [] ↔
      ∃ (n : Nat) (r : Result), hh[n]? = some h ∧ results[n]? = some r ∧
        (r.Status < 200 ∨ r.Status > 299) ∧ r.Status ≠ 400) := by
  have hc : handleResults.collect hh 0 results [] = invalidByStatus results hh := by
    rw [handleResults.collect_eq]
    simp
  refine ⟨hc, ?_, ?_⟩
  · unfold handleResults
    simp only [hc]
    have e1 : ((invalidByStatus results hh).length > 0) ↔ invalidByStatus results hh ≠ [] := by
      rw [gt_iff_lt, List.length_pos]
    have e2 : ((hh.length : Int) - (results.length : Int) > 0) ↔ results.length < hh.length := by
      omega
    have e3 : ((hh.length : Int) - ((hh.length : Int) - (results.length : Int))).toNat
        = results.length := by
      omega
    simp only [e1, e2, e3]
  · intro h
    rw [hc]
    unfold invalidByStatus
    simp only [List.mem_map, List.mem_filter, decide_eq_true_eq, Prod.exists,
      exists_and_right, exists_eq_right]
    constructor
    · rintro ⟨r, hmem, hst⟩
      obtain ⟨n, hn⟩ := List.mem_iff_getElem?.1 hmem
      rw [List.getElem?_zip_eq_some] at hn
      exact ⟨n, r, hn.1, hn.2, hst.1, hst.2⟩
    · rintro ⟨n, r, h1, h2, hst⟩
      refine ⟨r, ?_, hst⟩
      apply List.mem_iff_getElem?.2
      exact ⟨n, List.getElem?_zip_eq_some.2 ⟨h1, h2⟩⟩

/-- C4, as stated, fails: a batch the sender rejects with `ErrBadRequest` is
written to the queue by `WithQueue` (the queue was empty) and written back by
`Sync` (which had popped it). -/
theorem badRequest_batch_not_dropped :
    (sampleWorld 0).bucket = [] ∧
    (WithQueue sampleEnv rejectBadRequest (sampleWorld 0) (sampleBatch 1)) =
      some (.error (.badRequest "bad request"), sampleWorld 1) ∧
    Sync sampleEnv rejectBadRequest 1 0 (sampleWorld 1) =
      some ⟨some (.badRequest "bad request"), sampleWorld 1, [sampleBatch 1]⟩ := by
  refine ⟨rfl, ?_, ?_⟩
  · rw [WithQueue_of_error sampleEnv rejectBadRequest _ _ (.badRequest "bad request")
      (by decide) rfl, pushHeartbeatsWithRetry_unroll]
    decide
  · rw [Sync_first_batch_error sampleEnv rejectBadRequest 0 0 (sampleWorld 1) (sampleWorld 0)
      (sampleBatch 1) (.badRequest "bad request") (by decide) (by decide) (by decide) rfl,
      pushHeartbeatsWithRetry_unroll]
    decide

/-- C4 amended: on `ErrBadRequest` from the sender, `WithQueue` pushes the whole
batch to the queue with retry, and `Sync` pushes the batch it popped back with
retry and returns the error, as for any other sender error; when the push
succeeds every heartbeat of the batch is a key of the queue. -/
theorem badRequest_batch_requeued (env : Env) (next : Handle) (w : World)
    (hh : List Heartbeat) (msg : String)
    (hne : hh ≠ []) (hnext : next hh = .error (.badRequest msg)) :
    (WithQueue env next w hh).map Prod.snd = (pushHeartbeatsWithRetry env w hh).map Prod.snd ∧
    (∀ w1, pushHeartbeatsWithRetry env w hh = some (none, w1) →
      WithQueue env next w hh = some (.error (.badRequest msg), w1) ∧
      ∀ h ∈ hh, h.ID env ∈ w1.bucket.keys) ∧
    (∀ (fuel : Nat) (syncLimit : Int) (w0 : World), 0 ≤ syncLimit →
      popHeartbeats env w0
        (min SendLimit (if syncLimit = 0 then MaxInt32 else syncLimit)) = (.ok hh, w) →
      Sync env next (fuel + 1) syncLimit w0 =
        (pushHeartbeatsWithRetry env w hh).map
          (fun requeued => ⟨some (.badRequest msg), requeued.2, [hh]⟩)) := by
  have hW := WithQueue_of_error env next w hh _ hne hnext
  refine ⟨?_, ?_, ?_⟩
  · rw [hW]
    rcases pushHeartbeatsWithRetry env w hh with _ | ⟨_ | e, w1⟩ <;> rfl
  · intro w1 hpush
    obtain ⟨hp2, hpb⟩ := pushHeartbeatsWithRetry_success env w w1 hh hpush
    have hPM : PushMany env w.bucket hh = (w1.bucket, none) := by
      rw [hpb, ← hp2]
    have hW2 : WithQueue env next w hh = some (.error (.badRequest msg), w1) := by
      rw [hW, hpush]
    refine ⟨hW2, ?_⟩
    intro h hm
    apply Bucket.mem_keys_of_Get
    rw [PushMany_Get env w.bucket _ hh hPM (h.ID env)]
    rcases hl : lastWithID env (h.ID env) hh with _ | h'
    · exact absurd hl (lastWithID_ne_none env hh h hm)
    · exact PushMany_marshal env w.bucket _ hh hPM h' (lastWithID_some env _ hh h' hl).1
  · intro fuel syncLimit w0 hL hpop
    exact Sync_first_batch_error env next fuel syncLimit w0 w hh _ hL hpop hne hnext

/-- C4 amended, at a concrete input: heartbeat 0 rejected with `ErrBadRequest`. -/
theorem badRequest_batch_requeued_witness :
    (WithQueue sampleEnv rejectBadRequest (sampleWorld 0) (sampleBatch 1)).map Prod.snd =
      (pushHeartbeatsWithRetry sampleEnv (sampleWorld 0) (sampleBatch 1)).map Prod.snd ∧
    Sync sampleEnv rejectBadRequest 1 0 (sampleWorld 1) =
      (pushHeartbeatsWithRetry sampleEnv (sampleWorld 0) (sampleBatch 1)).map
        (fun requeued => ⟨some (.badRequest "bad request"), requeued.2, [sampleBatch 1]⟩) ∧
    pushHeartbeatsWithRetry sampleEnv (sampleWorld 0) (sampleBatch 1)
      = some (none, sampleWorld 1) :=
  have h := badRequest_batch_requeued sampleEnv rejectBadRequest (sampleWorld 0)
    (sampleBatch 1) "bad request" (by decide) rfl
  ⟨h.1, h.2.2 0 0 (sampleWorld 1) (by decide) (by decide), by
    rw [pushHeartbeatsWithRetry_unroll]
    decide⟩

/-- C5: pushing the same heartbeats twice with `PushMany` leaves the bucket
(keys, values, count) and the returned error exactly as one push does. -/
theorem PushMany_idempotent (env : Env) (b : Bucket) (hh : List Heartbeat) (hb : b.WF) :
    PushMany env (PushMany env b hh).1 hh = PushMany env b hh ∧
    Count (PushMany env (PushMany env b hh).1 hh).1 = Count (PushMany env b hh).1 := by
  have key : PushMany env (PushMany env b hh).1 hh = PushMany env b hh := by
    apply Prod.ext
    · have hb1 := PushMany_WF env b hh hb
      apply Bucket.ext _ _ (PushMany_WF env _ hh hb1) hb1
      intro k
      rw [PushMany_Get env _ _ _ (PushMany_accepted env (PushMany env b hh).1 hh) k,
        PushMany_Get env _ _ _ (PushMany_accepted env b hh) k]
      rcases lastWithID env k (accepted env hh) with _ | h' <;> rfl
    · exact PushMany_err_indep env _ _ hh
  exact ⟨key, by rw [key]⟩

set_option maxRecDepth 8192 in
/-- C5 at a concrete input: heartbeats 0 and 1 pushed twice onto the queue
holding heartbeat 0. -/
theorem PushMany_idempotent_witness :
    PushMany sampleEnv (PushMany sampleEnv (sampleWorld 1).bucket (sampleBatch 2)).1
        (sampleBatch 2)
      = PushMany sampleEnv (sampleWorld 1).bucket (sampleBatch 2) ∧
    Count (PushMany sampleEnv (sampleWorld 1).bucket (sampleBatch 2)).1 = 2 :=
  ⟨(PushMany_idempotent sampleEnv (sampleWorld 1).bucket (sampleBatch 2)
      (PushMany_WF sampleEnv [] (sampleBatch 1) (by simp [Bucket.WF, Bucket.keys]))).1,
    by decide⟩

/-- C6: on a bucket of readable values, `PopMany` returns the heartbeats stored
under the first `min(limit, count)` keys in ascending key order, which are
smaller than all keys left, and the bucket it leaves is the old one without
exactly those keys (`limit.toNat` is `limit` for a limit `≥ 0`; a negative
limit pops nothing). -/
theorem PopMany_pops_smallest (env : Env) (b : Bucket) (limit : Int)
    (hb : b.WF) (hv : ∀ e ∈ b, env.unmarshal e.2 ≠ none) :
    PopMany env b limit =
      (.ok ((b.take limit.toNat).filterMap (fun e => env.unmarshal e.2)),
        b.drop limit.toNat) ∧
    (b.take limit.toNat).map (fun e => env.unmarshal e.2) =
      ((b.take limit.toNat).filterMap (fun e => env.unmarshal e.2)).map some ∧
    (b.take limit.toNat).length = min limit.toNat b.length ∧
    List.Sorted (· < ·) (Bucket.keys (b.take limit.toNat)) ∧
    (∀ k ∈ Bucket.keys (b.take limit.toNat), ∀ k' ∈ Bucket.keys (b.drop limit.toNat),
      k < k') ∧
    b.drop limit.toNat =
      b.filter (fun e => decide (e.1 ∉ Bucket.keys (b.take limit.toNat))) := by
  refine ⟨?_, ?_, ?_, ?_, Bucket.take_keys_lt_drop_keys b _ hb,
    (Bucket.filter_take_keys b _ hb).symm⟩
  · unfold PopMany
    rw [PopMany.load_eq env limit b [] [] hv]
    simp only [List.length_nil, Nat.cast_zero, sub_zero, List.nil_append]
    rw [Bucket.foldl_Delete]
    exact congrArg _ (Bucket.filter_take_keys b _ hb)
  · have hv' : ∀ e ∈ b.take limit.toNat, env.unmarshal e.2 ≠ none :=
      fun e he => hv e (List.mem_of_mem_take he)
    generalize b.take limit.toNat = l at hv'
    induction l with
    | nil => rfl
    | cons e l ih =>
      rcases hu : env.unmarshal e.2 with _ | h
      · exact absurd hu (hv' e (List.mem_cons_self _ _))
      · simp [List.filterMap_cons, hu, ih (fun e he => hv' e (List.mem_cons_of_mem _ he))]
  · exact List.length_take _ _
  · have h : Bucket.keys b
        = Bucket.keys (b.take limit.toNat) ++ Bucket.keys (b.drop limit.toNat) := by
      simp only [Bucket.keys, ← List.map_append, List.take_append_drop]
    unfold Bucket.WF List.Sorted at hb
    rw [h, List.pairwise_append] at hb
    exact hb.1

set_option maxRecDepth 8192 in
/-- C6 at a concrete input: popping 2 of the 3 queued heartbeats. -/
theorem PopMany_pops_smallest_witness :
    PopMany sampleEnv (sampleWorld 3).bucket 2 =
      (.ok (sampleBatch 2), (sampleWorld 3).bucket.drop 2) ∧
    Count ((sampleWorld 3).bucket.drop 2) = 1 :=
  have h := PopMany_pops_smallest sampleEnv (sampleWorld 3).bucket 2
    (PushMany_WF sampleEnv [] (sampleBatch 3) (by simp [Bucket.WF, Bucket.keys]))
    (by decide)
  ⟨h.1.trans (by decide), by decide⟩

/-- C7 (code defect): a push of a heartbeat that `json.Marshal` rejects (its
Time is NaN) does not return: the first attempt neither fails nor succeeds, so
no sleep, no second attempt and no abort error follow.  The same holds for
every attempt that reaches `PushMany` and finds it failing.  Where
`pushHeartbeatsWithRetry` does return, it has made `failed + 1` attempts (3
when all failed), slept the first `failed` of 2, 4, 8 seconds, and returns nil
unless 3 attempts failed, then the abort error. -/
theorem pushHeartbeatsWithRetry_blocks_on_push_error :
    pushHeartbeatsWithRetry strictEnv (sampleWorld 0) [nanHeartbeat] = none ∧
    (PushMany strictEnv (sampleWorld 0).bucket [nanHeartbeat]).2 ≠ none ∧
    (∀ (env : Env) (w : World) (hh : List Heartbeat),
      w.faults.head? ≠ some (some .openDB) → w.faults.head? ≠ some (some .begin) →
      (PushMany env w.bucket hh).2 ≠ none → pushHeartbeatsWithRetry env w hh = none) ∧
    (∀ (env : Env) (w : World) (hh : List Heartbeat) (r : Option Err × World),
      pushHeartbeatsWithRetry env w hh = some r →
      ∃ failed : Nat, failed ≤ 3 ∧
        r.2.slept = w.slept ++ [2, 4, 8].take failed ∧
        r.2.faults = w.faults.drop (min 3 (failed + 1)) ∧
        (r.1 = none ↔ failed < 3) ∧
        (failed = 3 ↔ ∃ e, r.1 = some (.abortRequeue 3 e hh))) := by
  refine ⟨?_, by decide, ?_, ?_⟩
  · rw [pushHeartbeatsWithRetry_unroll]
    decide
  · intro env w hh h1 h2 h3
    rw [pushHeartbeatsWithRetry_unroll, (pushHeartbeats_eq_none env w hh).2 ⟨h1, h2, h3⟩]
  · intro env w hh r hr
    rw [pushHeartbeatsWithRetry_unroll] at hr
    rcases h1 : pushHeartbeats env w hh with _ | ⟨_ | e1, w1⟩ <;> rw [h1] at hr <;>
      simp only at hr
    · cases hr
    · cases hr
      have s1 := pushHeartbeats_slept env w hh _ h1
      have f1 := pushHeartbeats_faults env w hh _ h1
      simp only at s1 f1
      refine ⟨0, by omega, ?_⟩
      simp [s1, f1]
    have s1 := pushHeartbeats_slept env w hh _ h1
    have f1 := pushHeartbeats_faults env w hh _ h1
    simp only at s1 f1
    rcases h2 : pushHeartbeats env (w1.sleep 2) hh with _ | ⟨_ | e2, w2⟩ <;> rw [h2] at hr <;>
      simp only at hr
    · cases hr
    · cases hr
      have s2 := pushHeartbeats_slept env (w1.sleep 2) hh _ h2
      have f2 := pushHeartbeats_faults env (w1.sleep 2) hh _ h2
      simp only [World.sleep] at s2 f2
      refine ⟨1, by omega, ?_⟩
      simp [s1, f1, s2, f2, tail_tail_eq_drop]
    have s2 := pushHeartbeats_slept env (w1.sleep 2) hh _ h2
    have f2 := pushHeartbeats_faults env (w1.sleep 2) hh _ h2
    simp only [World.sleep] at s2 f2
    rcases h3 : pushHeartbeats env (w2.sleep 4) hh with _ | ⟨_ | e3, w3⟩ <;> rw [h3] at hr <;>
      simp only at hr
    · cases hr
    · cases hr
      have s3 := pushHeartbeats_slept env (w2.sleep 4) hh _ h3
      have f3 := pushHeartbeats_faults env (w2.sleep 4) hh _ h3
      simp only [World.sleep] at s3 f3
      refine ⟨2, by omega, ?_⟩
      simp [s1, f1, s2, f2, s3, f3, tail_tail_tail_eq_drop]
    · cases hr
      have s3 := pushHeartbeats_slept env (w2.sleep 4) hh _ h3
      have f3 := pushHeartbeats_faults env (w2.sleep 4) hh _ h3
      simp only [World.sleep] at s3 f3
      refine ⟨3, by omega, ?_⟩
      simp [World.sleep, s1, f1, s2, f2, s3, f3, tail_tail_tail_eq_drop]

/-- C8: two heartbeats that agree on Time, CursorPosition, EntityType, Category,
Project, Branch, Entity and IsWrite have the same ID. -/
theorem Heartbeat.ID_depends_on_eight_fields (env : Env) (h1 h2 : Heartbeat)
    (hTime : h1.Time = h2.Time) (hCursor : h1.CursorPosition = h2.CursorPosition)
    (hType : h1.EntityType = h2.EntityType) (hCategory : h1.Category = h2.Category)
    (hProject : h1.Project = h2.Project) (hBranch : h1.Branch = h2.Branch)
    (hEntity : h1.Entity = h2.Entity) (hWrite : h1.IsWrite = h2.IsWrite) :
    h1.ID env = h2.ID env := by
  unfold Heartbeat.ID
  rw [hTime, hCursor, hType, hCategory, hProject, hBranch, hEntity, hWrite]

/-- C8 at a concrete input: two heartbeats that differ in language, user agent,
api key, line number and dependencies. -/
theorem Heartbeat.ID_depends_on_eight_fields_witness :
    sampleHeartbeat 7 ≠ { sampleHeartbeat 7 with
      Language := some "Go", UserAgent := "vim", APIKey := "k", LineNumber := some 3,
      Dependencies := ["os"] } ∧
    (sampleHeartbeat 7).ID sampleEnv = ({ sampleHeartbeat 7 with
      Language := some "Go", UserAgent := "vim", APIKey := "k", LineNumber := some 3,
      Dependencies := ["os"] } : Heartbeat).ID sampleEnv :=
  ⟨by decide, Heartbeat.ID_depends_on_eight_fields sampleEnv _ _ rfl rfl rfl rfl rfl rfl rfl rfl⟩

/-- C9, as stated, fails: with one built heartbeat and an api client that does
not initialise, nothing is passed to the send pipeline and the heartbeat is
handed to the offline save. -/
theorem SendHeartbeats_client_error_no_send :
    (SendHeartbeats { sampleSend 1 with clientErr := some (.text "invalid proxy") }).2
      = [.saveOffline (some (sampleBatch 1))] ∧
    ((SendHeartbeats { sampleSend 1 with clientErr := some (.text "invalid proxy") }).2).filterMap
      Step.sent = [] ∧
    ((SendHeartbeats { sampleSend 1 with clientErr := some (.text "invalid proxy") }).2).filterMap
      Step.saved = [sampleBatch 1] := by
  decide

/-- C9 amended: for a built batch of N heartbeats, the surplus worker is
launched exactly when N > 25, with the heartbeats after the first 25; if the
api client initialises, the pipeline receives exactly the first min(N, 25)
heartbeats and no synchronous offline save of a batch is made; if it does not,
the pipeline receives nothing and those first min(N, 25) heartbeats go to the
offline save unless offline is disabled. -/
theorem SendHeartbeats_surplus_split (i : SendInput) (hparams : i.paramsErr = none)
    (hbuilt : ¬ (i.rateLimited = true ∧ i.saveErr = none)) :
    ((SendHeartbeats i).2.filterMap Step.surplus =
      if i.built.length > 25 then [i.built.drop 25] else []) ∧
    (i.clientErr = none →
      (SendHeartbeats i).2.filterMap Step.sent = [i.built.take 25] ∧
      (SendHeartbeats i).2.filterMap Step.saved = []) ∧
    (i.clientErr ≠ none →
      (SendHeartbeats i).2.filterMap Step.sent = [] ∧
      (SendHeartbeats i).2.filterMap Step.saved =
        if i.offlineDisabled then [] else [i.built.take 25]) ∧
    (i.built.take 25).length = min i.built.length 25 ∧
    (i.built.drop 25).length = i.built.length - 25 ∧
    i.built.take 25 ++ i.built.drop 25 = i.built := by
  have hS : SendLimit.toNat = 25 := rfl
  have hover : ((i.built.length : Int) > SendLimit) ↔ i.built.length > 25 := by
    simp only [SendLimit]; omega
  have htake : ¬ i.built.length > 25 → i.built.take 25 = i.built := fun h =>
    List.take_of_length_le (by omega)
  refine ⟨?_, ?_, ?_, by simp [Nat.min_comm], by simp, List.take_append_drop _ _⟩
  · unfold SendHeartbeats
    simp only [hparams, if_neg hbuilt, hS, hover]
    rcases hc : i.clientErr with _ | e <;> rcases hp : i.pipeline
        (if decide (i.built.length > 25) = true then List.take 25 i.built else i.built)
        with err | res <;>
      by_cases hN : i.built.length > 25 <;> by_cases hr : i.rateLimited = true <;>
      by_cases hd : i.offlineDisabled = true <;>
      simp [hN, hr, hd, hp, SendLimit, Step.surplus, List.filterMap_append,
        List.filterMap_cons]
  · intro hc
    unfold SendHeartbeats
    simp only [hparams, if_neg hbuilt, hS, hover, hc]
    rcases hp : i.pipeline
        (if decide (i.built.length > 25) = true then List.take 25 i.built else i.built)
        with err | res <;>
      by_cases hN : i.built.length > 25 <;> by_cases hr : i.rateLimited = true <;>
      simp [hN, hr, hp, htake, SendLimit, Step.sent, Step.saved, List.filterMap_append,
        List.filterMap_cons]
  · intro hc
    obtain ⟨e, he⟩ := Option.ne_none_iff_exists'.1 hc
    unfold SendHeartbeats
    simp only [hparams, if_neg hbuilt, hS, hover, he]
    by_cases hN : i.built.length > 25 <;> by_cases hr : i.rateLimited = true <;>
      by_cases hd : i.offlineDisabled = true <;>
      simp [hN, hr, hd, htake, SendLimit, Step.sent, Step.saved, List.filterMap_append,
        List.filterMap_cons]

/-- C9 amended, at a concrete input: 27 built heartbeats, client initialised. -/
theorem SendHeartbeats_surplus_split_witness :
    (SendHeartbeats (sampleSend 27)).2.filterMap Step.surplus = [(sampleBatch 27).drop 25] ∧
    (SendHeartbeats (sampleSend 27)).2.filterMap Step.sent = [(sampleBatch 27).take 25] ∧
    (SendHeartbeats (sampleSend 27)).2.filterMap Step.saved = [] :=
  have h := SendHeartbeats_surplus_split (sampleSend 27) rfl (by decide)
  ⟨h.1.trans (by decide), (h.2.1 rfl).1, (h.2.1 rfl).2⟩

/-- C10 (code defect): the main path of `SendHeartbeats` never receives from the
done channel: the test before the receive reads the batch after it was cut to
25.  With 26 built heartbeats the worker is launched, the pipeline runs, and
the function returns without the receive. -/
theorem SendHeartbeats_never_awaits_save :
    (∀ i : SendInput, Step.awaitSave ∉ (SendHeartbeats i).2) ∧
    SendHeartbeats (sampleSend 26) =
      (none, [.launchSave ((sampleBatch 26).drop 25), .handle ((sampleBatch 26).take 25),
        .resetRateLimit]) ∧
    SendHeartbeats { sampleSend 26 with pipeline := apiDown } =
      (some (.api "connection refused"),
        [.launchSave ((sampleBatch 26).drop 25), .handle ((sampleBatch 26).take 25)]) := by
  refine ⟨?_, by decide, by decide⟩
  intro i
  have hS : SendLimit.toNat = 25 := rfl
  have hover : ((i.built.length : Int) > SendLimit) ↔ i.built.length > 25 := by
    simp only [SendLimit]; omega
  unfold SendHeartbeats
  rcases hpar : i.paramsErr with _ | e
  · simp only [hS, hover]
    by_cases h1 : i.rateLimited = true ∧ i.saveErr = none
    · simp [h1]
    · rw [if_neg h1]
      rcases hc : i.clientErr with _ | e
      · rcases hp : i.pipeline
            (if decide (i.built.length > 25) = true then List.take 25 i.built else i.built)
            with err | res <;>
          by_cases hN : i.built.length > 25 <;> by_cases hr : i.rateLimited = true <;>
          simp [hN, hr, hp, SendLimit]
      · by_cases hN : i.built.length > 25 <;> by_cases hr : i.rateLimited = true <;>
          by_cases hd : i.offlineDisabled = true <;> simp [hN, hr, hd]
  · simp

/-- C11: `RateLimited(p)` is true exactly when offline is not disabled, the
timeout is not zero, `LastSentAt` is not the zero time and `time.Since` of
`LastSentAt` is strictly less than the timeout; `time.Since` is the elapsed
time whenever that fits a Duration. -/
theorem RateLimited_iff (now : GoTime) (p : RateLimitParams) :
    (RateLimited now p = true ↔
      p.Disabled = false ∧ p.Timeout ≠ 0 ∧ p.LastSentAt ≠ 0 ∧
        Since now p.LastSentAt < p.Timeout) ∧
    (minDuration ≤ now - p.LastSentAt ∧ now - p.LastSentAt ≤ maxDuration →
      Since now p.LastSentAt = now - p.LastSentAt) := by
  constructor
  · unfold RateLimited GoTime.IsZero
    by_cases hd : p.Disabled = true <;> by_cases ht : p.Timeout = 0 <;>
      by_cases hz : p.LastSentAt = 0 <;> simp [hd, ht, hz]
  · rintro ⟨h1, h2⟩
    unfold Since GoTime.Sub
    rw [if_neg (not_lt.2 h2), if_neg (not_lt.2 h1)]

/-- C12: `NewHandle(sender, o1, ..., on)` applied to a batch is
`o1(o2(...on(sender.SendHeartbeats)...))` applied to it; without options it
is the sender. -/
theorem NewHandle_composes (sender : Handle) (opts : List HandleOption)
    (hh : List Heartbeat) :
    NewHandle sender opts hh = (opts.foldr (fun opt next => opt next) sender) hh ∧
    NewHandle sender [] hh = sender hh ∧
    (∀ o1 o2 o3 : HandleOption, NewHandle sender [o1, o2, o3] hh = o1 (o2 (o3 sender)) hh) := by
  have h : ∀ os : List HandleOption,
      NewHandle sender os hh = (os.foldr (fun opt next => opt next) sender) hh := by
    intro os
    unfold NewHandle
    rw [NewHandle.loop_eq, List.take_length]
  exact ⟨h opts, h [], fun o1 o2 o3 => h [o1, o2, o3]⟩

/-- C13, as stated, fails: with all file names hidden, the file `/src/EN.go`
becomes `HIDDEN.go`, which contains the base name `EN.go`. -/
theorem Sanitize_hidden_contains_base_name :
    (Sanitize sampleRegexLib { sampleHeartbeat 0 with Entity := "/src/EN.go" }
      hideFileNames).Entity = "HIDDEN.go" ∧
    baseL "/src/EN.go".data = "EN.go".data ∧
    "EN.go".data <:+: "HIDDEN.go".data := by
  refine ⟨by decide, by decide, "HIDD".data, [], by decide⟩

/-- C13 amended: after `Sanitize` with a file pattern that matches everything,
the entity of a file whose base name is more than an extension (not a dot file
such as `.env`) is `HIDDEN` followed by the original extension, and an entity
of any other type is `HIDDEN`; the result for a file does not contain the
original base name whenever the part of that name before the extension is not
a part of the word `HIDDEN`.  Of the regexp library the proof uses that
`remoteAddressRegex`, which is anchored at `ssh://` or `sftp://`, matches no
text that starts with `HIDDEN`. -/
theorem Sanitize_hides_entity (lib : RegexLib) (h : Heartbeat) (config : SanitizeConfig)
    (hall : ∃ p ∈ config.FilePatterns, ∀ s, p.MatchString lib s = true)
    (hhidden : ∀ s, HasPrefix s "HIDDEN" = true →
      lib.regexpMatch remoteAddressSource s = false) :
    (h.EntityType = FileType → (stemL h.Entity.data = [] → Ext h.Entity = "") →
      (Sanitize lib h config).Entity = "HIDDEN" ++ Ext h.Entity) ∧
    (h.EntityType ≠ FileType → (Sanitize lib h config).Entity = "HIDDEN") ∧
    (h.EntityType = FileType → ¬ stemL h.Entity.data <:+: "HIDDEN".data →
      ¬ baseL h.Entity.data <:+: (Sanitize lib h config).Entity.data) := by
  have hs : ShouldSanitize lib { Sanitize.check h with Patterns := config.FilePatterns } = true :=
    ShouldSanitize_of_match_all lib _ hall
  obtain ⟨p1, p2, p3⟩ := Sanitize.projectPatterns_fields lib config (Sanitize.check h) h
  obtain ⟨f1, f2, f3⟩ := Sanitize.filePatterns_fields lib config (Sanitize.check h)
    (Sanitize.projectPatterns lib config (Sanitize.check h) h) hs
  obtain ⟨b1, b2, b3⟩ := Sanitize.branchPatterns_fields lib config (Sanitize.check h)
    (Sanitize.filePatterns lib config (Sanitize.check h)
      (Sanitize.projectPatterns lib config (Sanitize.check h) h))
  obtain ⟨d1, d2, d3⟩ := Sanitize.dependencyPatterns_fields lib config (Sanitize.check h)
    (Sanitize.branchPatterns lib config (Sanitize.check h)
      (Sanitize.filePatterns lib config (Sanitize.check h)
        (Sanitize.projectPatterns lib config (Sanitize.check h) h)))
  generalize hh4 : Sanitize.dependencyPatterns lib config (Sanitize.check h)
    (Sanitize.branchPatterns lib config (Sanitize.check h)
      (Sanitize.filePatterns lib config (Sanitize.check h)
        (Sanitize.projectPatterns lib config (Sanitize.check h) h))) = h4 at d1 d2 d3
  have hE : h4.Entity = if h.EntityType = FileType then "HIDDEN" ++ Ext h.Entity else "HIDDEN" := by
    rw [d1, b1, f1, p1, p2]
  have hT : h4.EntityType = h.EntityType := by rw [d2, b2, f2, p2]
  have hS : Sanitize lib h config = hideCredentials lib (hideProjectFolder h4 config.HideProjectFolder) := by
    unfold Sanitize
    simp only
    rw [hh4]
  have hns : '/' ∉ h4.Entity.data := by
    rw [hE]
    split_ifs
    · rw [String.data_append]
      intro hm
      rcases List.mem_append.1 hm with hm | hm
      · exact absurd hm (by decide)
      · exact Ext.scan_no_slash h.Entity.data.reverse [] (by simp) '/' hm rfl
    · decide
  have hF := hideProjectFolder_Entity_of_no_slash h4 config.HideProjectFolder hns
  obtain ⟨g1, g2⟩ := hideProjectFolder_fields h4 config.HideProjectFolder
  have hR : (hideProjectFolder h4 config.HideProjectFolder).IsRemote lib = false := by
    unfold Heartbeat.IsRemote
    rw [g1, g2, hF]
    by_cases ht : h4.EntityType = FileType
    · rw [if_neg (by simp [ht])]
      split_ifs
      · rfl
      · apply hhidden
        rw [hE, if_pos (hT ▸ ht)]
        unfold HasPrefix
        rw [String.data_append]
        exact List.isPrefixOf_iff_prefix.2 (List.prefix_append _ _)
    · rw [if_pos ht]
  have hEnt : (Sanitize lib h config).Entity
      = if h.EntityType = FileType then "HIDDEN" ++ Ext h.Entity else "HIDDEN" := by
    rw [hS, hideCredentials_of_not_remote lib _ hR, hF, hE]
  refine ⟨fun ht _ => by rw [hEnt, if_pos ht], fun ht => by rw [hEnt, if_neg ht], ?_⟩
  intro ht hstem hinf
  rw [hEnt, if_pos ht, String.data_append] at hinf
  obtain ⟨e1, _, e3⟩ := Ext_decomp h.Entity.data
  rw [e1] at hinf
  exact hstem (infix_hidden_ext _ _ e3 hinf)

/-- C13 amended, at a concrete input: with all file names hidden, the file
`/src/main.go` becomes `HIDDEN.go`, which does not contain `main.go`. -/
theorem Sanitize_hides_entity_witness :
    (Sanitize sampleRegexLib { sampleHeartbeat 0 with Entity := "/src/main.go" }
      hideFileNames).Entity = "HIDDEN.go" ∧
    ¬ baseL "/src/main.go".data <:+:
      (Sanitize sampleRegexLib { sampleHeartbeat 0 with Entity := "/src/main.go" }
        hideFileNames).Entity.data :=
  have w := Sanitize_hides_entity sampleRegexLib
    { sampleHeartbeat 0 with Entity := "/src/main.go" } hideFileNames
    ⟨matchAllRegex, List.mem_singleton.2 rfl, fun _ => rfl⟩
    (fun s hs => by
      have e : sampleRegexLib.regexpMatch remoteAddressSource s
          = (HasPrefix (ToLower s) "ssh://" || HasPrefix (ToLower s) "sftp://") := by
        show (if remoteAddressSource = ".*" then true
          else if remoteAddressSource = "a^" then false
          else if remoteAddressSource = remoteAddressSource then
            HasPrefix (ToLower s) "ssh://" || HasPrefix (ToLower s) "sftp://"
          else decide ((TrimPrefix remoteAddressSource "(?i)").data <:+: (ToLower s).data)) = _
        rw [if_neg (by decide), if_neg (by decide), if_pos rfl]
      rw [e]
      unfold HasPrefix at hs
      obtain ⟨t, ht⟩ := List.isPrefixOf_iff_prefix.1 hs
      unfold HasPrefix ToLower
      rw [← ht]
      rfl)
  ⟨(w.1 (by decide) (by decide)).trans (by decide), w.2.2 (by decide) (by decide)⟩

/-- C14, as stated, fails: the non-remote file `/p/ssh://u:p@h/f` in project
`/p` becomes `ssh://u:p@h/f` when the folder is removed, which is a remote
address, so `Sanitize` also removes the credentials and returns `ssh://h/f`. -/
theorem Sanitize_relative_entity_loses_credentials :
    Heartbeat.IsRemote sampleRegexLib
      { sampleHeartbeat 0 with Entity := "/p/ssh://u:p@h/f", ProjectPath := "/p" } = false ∧
    TrimPrefix "/p/ssh://u:p@h/f" "/p/" = "ssh://u:p@h/f" ∧
    (Sanitize sampleRegexLib
      { sampleHeartbeat 0 with Entity := "/p/ssh://u:p@h/f", ProjectPath := "/p" }
      hideFolderOnly).Entity = "ssh://h/f" := by
  decide

/-- C14 amended: for a file-type heartbeat with HideProjectFolder set, no
patterns, a non-empty ProjectPath P and an entity that starts with P (one
trailing slash ensured), whose entity without that prefix is not a remote
address (or which is an unsaved entity), `Sanitize` returns the entity with
that prefix removed and ProjectRootCount unset. -/
theorem Sanitize_relative_entity (lib : RegexLib) (h : Heartbeat)
    (hfile : h.EntityType = FileType) (hP : h.ProjectPath ≠ "")
    (hpre : HasPrefix h.Entity (withSlash h.ProjectPath) = true)
    (hrel : h.IsUnsavedEntity = true ∨
      lib.regexpMatch remoteAddressSource (TrimPrefix h.Entity (withSlash h.ProjectPath)) = false) :
    (Sanitize lib h ⟨[], [], [], true, []⟩).Entity
        = TrimPrefix h.Entity (withSlash h.ProjectPath) ∧
      (Sanitize lib h ⟨[], [], [], true, []⟩).ProjectRootCount = none ∧
      h.Entity.data = (withSlash h.ProjectPath).data
        ++ (Sanitize lib h ⟨[], [], [], true, []⟩).Entity.data := by
  have hf : hideProjectFolder h true =
      { h with ProjectPath := withSlash h.ProjectPath,
               Entity := TrimPrefix h.Entity (withSlash h.ProjectPath),
               ProjectRootCount := none } := by
    unfold hideProjectFolder
    rw [if_neg (by simp [hfile]), if_pos ⟨hP, hpre⟩]
  have hr : (hideProjectFolder h true).IsRemote lib = false := by
    rw [hf]
    unfold Heartbeat.IsRemote
    rcases hrel with hu | hm
    · simp [hfile, hu]
    · simp [hfile, hm]
  rw [Sanitize_no_patterns, hideCredentials_of_not_remote lib _ hr, hf]
  refine ⟨rfl, rfl, ?_⟩
  show h.Entity.data = _ ++ (TrimPrefix h.Entity (withSlash h.ProjectPath)).data
  unfold TrimPrefix
  rw [if_pos hpre]
  unfold HasPrefix at hpre
  rw [List.isPrefixOf_iff_prefix] at hpre
  obtain ⟨t, ht⟩ := hpre
  rw [← ht]
  simp

/-- C14 amended, at a concrete input: `/p/src/main.go` in project `/p`. -/
theorem Sanitize_relative_entity_witness :
    (Sanitize sampleRegexLib
      { sampleHeartbeat 0 with Entity := "/p/src/main.go", ProjectPath := "/p",
                               ProjectRootCount := some 2 }
      ⟨[], [], [], true, []⟩).Entity = "src/main.go" ∧
    (Sanitize sampleRegexLib
      { sampleHeartbeat 0 with Entity := "/p/src/main.go", ProjectPath := "/p",
                               ProjectRootCount := some 2 }
      ⟨[], [], [], true, []⟩).ProjectRootCount = none :=
  have w := Sanitize_relative_entity sampleRegexLib
    { sampleHeartbeat 0 with Entity := "/p/src/main.go", ProjectPath := "/p",
                             ProjectRootCount := some 2 }
    (by decide) (by decide) (by decide) (by decide)
  ⟨w.1.trans (by decide), w.2.1⟩

/-- C15: `filterByPattern` returns an error exactly when the entity is not
empty, no include pattern matches it and some exclude pattern matches it; a
matching include pattern keeps the heartbeat whatever the exclude patterns. -/
theorem filterByPattern_iff (lib : RegexLib) (quote : String → String) (entity : String)
    (includes excludes : List Regex) :
    ((filterByPattern lib quote entity includes excludes).isSome = true ↔
      entity ≠ "" ∧ (∀ p ∈ includes, p.MatchString lib entity = false) ∧
        ∃ p ∈ excludes, p.MatchString lib entity = true) ∧
    ((∃ p ∈ includes, p.MatchString lib entity = true) →
      filterByPattern lib quote entity includes excludes = none) := by
  constructor
  · unfold filterByPattern
    by_cases he : entity = ""
    · simp [he]
    · rw [if_neg he]
      by_cases hi : includes.any (fun pattern => pattern.MatchString lib entity) = true
      · rw [if_pos hi]
        simp only [Option.isSome_none, Bool.false_eq_true, ne_eq, he, not_false_eq_true,
          true_and, false_iff, not_and]
        intro hall
        rw [List.any_eq_true] at hi
        obtain ⟨p, hp, hm⟩ := hi
        rw [hall p hp] at hm
        exact absurd hm (by simp)
      · rw [if_neg hi]
        have hall : ∀ p ∈ includes, p.MatchString lib entity = false := by
          intro p hp
          by_contra hne
          exact hi (List.any_eq_true.2 ⟨p, hp, by simpa using hne⟩)
        rcases hf : excludes.find? (fun pattern => pattern.MatchString lib entity) with _ | q
        · simp only [hf, Option.isSome_none, Bool.false_eq_true, ne_eq, he, not_false_eq_true,
            true_and, false_iff, not_and, not_exists]
          intro _ p hp
          have := List.find?_eq_none.1 hf p hp
          simpa using this
        · simp only [hf, Option.isSome_some, ne_eq, he, not_false_eq_true, true_and, true_iff]
          exact ⟨hall, q, List.mem_of_find?_eq_some hf, by
            have := List.find?_some hf
            simpa using this⟩
  · rintro ⟨p, hp, hm⟩
    unfold filterByPattern
    by_cases he : entity = ""
    · simp [he]
    · rw [if_neg he, if_pos (List.any_eq_true.2 ⟨p, hp, hm⟩)]

/-- C16: `parseBoolOrRegexList` never fails and returns the patterns the claim
describes: none for blank input, `.*` for `true`, `a^` for `false` (any letter
case), else one pattern per non-blank line (lines split on `\n` or `\r`, trimmed
of spaces and tabs), in order, compiled from the line prefixed with `(?i)`
unless it starts with it, lines that do not compile left out; a compiled
pattern has the text it was compiled from as its source. -/
theorem parseBoolOrRegexList_spec (lib : RegexLib) (s : String) :
    parseBoolOrRegexList lib s = (specBoolOrRegexList lib s, none) ∧
    (∀ src re, Compile lib src = some re → re.source = src) := by
  constructor
  · unfold parseBoolOrRegexList specBoolOrRegexList
    simp only
    rw [Trim_replace]
    generalize ht : specStrip (fun c => c == ' ' || c == '\t' || c == '\n' || c == '\r') s.data = t
    by_cases h1 : t = []
    · rw [if_pos h1, if_pos (by rw [h1]; rfl)]
    · rw [if_neg h1, if_neg (by
        intro h
        have := congrArg String.data h
        simp at this
        exact h1 this)]
      have hl : ∀ w : String, (∀ x ∈ w.data, x ≠ '\n' ∧ x ≠ '\r') →
          (ToLower (String.mk (t.map (fun c => if c = '\r' then '\n' else c))) = w
            ↔ t.map Char.toLower = w.data) := by
        intro w hw
        rw [← map_toLower_replace w.data t hw]
        unfold ToLower
        constructor
        · intro h
          exact congrArg String.data h
        · intro h
          exact String.ext h
      by_cases h2 : t.map Char.toLower = "false".data
      · have h3 : t.map Char.toLower ≠ "true".data := by
          rw [h2]
          decide
        rw [if_pos ((hl "false" (by decide)).2 h2), if_neg h3, if_pos h2]
        rfl
      · rw [if_neg (fun h => h2 ((hl "false" (by decide)).1 h))]
        by_cases h3 : t.map Char.toLower = "true".data
        · rw [if_pos ((hl "true" (by decide)).2 h3), if_pos h3]
          rfl
        · rw [if_neg (fun h => h3 ((hl "true" (by decide)).1 h)), if_neg h3, if_neg h2]
          congr 1
          rw [parseBoolOrRegexList.lines_eq, List.nil_append]
          unfold Split specLines
          rw [List.filterMap_map, ← ht, ← trimL_eq_specStrip]
          have hfun : (fun c => c == ' ' || c == '\t' || c == '\n' || c == '\r')
              = (fun c => "\n\t ".data.contains c) ∘ (fun c => if c = '\r' then '\n' else c) := by
            funext c
            by_cases h1 : c = '\r'
            · simp [h1]
            · by_cases h2 : c = '\n'
              · simp [h2]
              · by_cases h3 : c = '\t'
                · simp [h3]
                · by_cases h4 : c = ' '
                  · simp [h4]
                  · simp [h1, h2, h3, h4]
          rw [hfun, ← trimL_map]
          rw [filterMap_splitL_trimL (fun c => "\n\t ".data.contains c) '\n' _ ?_ ?_ (by decide),
            splitL_map_eq_splitOnP]
          · apply List.filterMap_congr
            intro piece hp
            exact linePattern_eq lib piece (splitOnP_pieces _ _ piece hp)
          · intro a b hab
            simp only [Function.comp, Trim]
            rw [hab]
          · simp only [Function.comp, Trim]
            rfl
  · intro src re h
    unfold Compile at h
    split_ifs at h
    · cases h
      rfl
    · cases h
      rfl

/-- C17, as stated, fails: for the file `/work/main.go` sent with a project
override and the project folder `/other`, detection sets ProjectPath to
`/other`, which the entity does not start with. -/
theorem WithDetection_path_outside_entity :
    (WithDetection.one sampleProjectEnv sampleRegexLib sampleProjectConfig
      overrideHeartbeat).EntityType = FileType ∧
    (WithDetection.one sampleProjectEnv sampleRegexLib sampleProjectConfig
      overrideHeartbeat).ProjectPath = "/other" ∧
    (WithDetection.one sampleProjectEnv sampleRegexLib sampleProjectConfig
      overrideHeartbeat).Entity = "/work/main.go" ∧
    HasPrefix (WithDetection.one sampleProjectEnv sampleRegexLib sampleProjectConfig
        overrideHeartbeat).Entity
      (WithDetection.one sampleProjectEnv sampleRegexLib sampleProjectConfig
        overrideHeartbeat).ProjectPath = false ∧
    detectedFolder sampleProjectEnv sampleProjectConfig overrideHeartbeat = "/other" := by
  decide

/-- C17 amended: detection leaves the entity as it is and sets ProjectPath to
the formatted folder it found, whether or not the entity lies in it: the
first non-empty of the folder of the project file or map (the project folder
override in its place when the project is the project override), the folder of
revision control and the project folder override (the override first when the
project is the alternate project), else for a file the directory of the
entity.  It changes ProjectRootCount only when ProjectPath is not empty and the
entity starts with it, and then to the slash count of ProjectPath. -/
theorem WithDetection_project_path_and_root_count (env : ProjectEnv) (lib : RegexLib)
    (config : ProjectConfig) (h : Heartbeat) :
    (WithDetection.one env lib config h).Entity = h.Entity ∧
    (WithDetection.one env lib config h).ProjectPath =
      FormatProjectFolder env
        (if env.isWindows = true ∧ detectedFolder env config h ≠ "" then
          env.windowsFormatFilePath (detectedFolder env config h)
        else detectedFolder env config h) ∧
    ((WithDetection.one env lib config h).ProjectRootCount ≠ h.ProjectRootCount →
      (WithDetection.one env lib config h).ProjectPath ≠ "" ∧
      HasPrefix (WithDetection.one env lib config h).Entity
        (WithDetection.one env lib config h).ProjectPath = true ∧
      (WithDetection.one env lib config h).ProjectRootCount =
        some (CountSlashesInProjectFolder env
          (WithDetection.one env lib config h).ProjectPath)) := by
  have hpath : (WithDetection.one env lib config h).ProjectPath =
      (WithDetection.result env lib config h).Folder := rfl
  refine ⟨?_, hpath.trans (WithDetection.result_Folder env lib config h), ?_⟩
  · unfold WithDetection.one
    generalize WithDetection.result env lib config h = r
    show (WithDetection.countSubfolders env h r).Entity = h.Entity
    unfold WithDetection.countSubfolders
    split_ifs <;> rfl
  · unfold WithDetection.one
    generalize WithDetection.result env lib config h = r
    show (WithDetection.countSubfolders env h r).ProjectRootCount ≠ h.ProjectRootCount →
        r.Folder ≠ "" ∧ HasPrefix (WithDetection.countSubfolders env h r).Entity r.Folder = true ∧
          (WithDetection.countSubfolders env h r).ProjectRootCount =
            some (CountSlashesInProjectFolder env r.Folder)
    unfold WithDetection.countSubfolders
    by_cases h1 : r.Folder ≠ "" ∧ HasPrefix h.Entity r.Folder = true
    · by_cases h2 : CountSlashesInProjectFolder env r.Folder > 0
      · rw [if_pos h1, if_pos h2]
        exact fun _ => ⟨h1.1, h1.2, rfl⟩
      · rw [if_pos h1, if_neg h2]
        exact fun hne => absurd rfl hne
    · rw [if_neg h1]
      exact fun hne => absurd rfl hne

/-- C18: with no pattern for hiding project names, the project detection
assigns is the first non-empty of: the project of `Detect` (project file or
project map), the project override, the project of `DetectWithRevControl`,
the alternate project. -/
theorem WithDetection_project_order (env : ProjectEnv) (lib : RegexLib)
    (config : ProjectConfig) (h : Heartbeat) (hhide : config.HideProjectNames = []) :
    (WithDetection.one env lib config h).Project =
      some (firstNonEmptyString [
        (Detect env config.MapPatterns (WithDetection.args h)).1.Project,
        h.ProjectOverride,
        (DetectWithRevControl env config.Submodule.DisabledPatterns
          config.Submodule.MapPatterns config.ProjectFromGitRemote
          (WithDetection.args h)).Project,
        h.ProjectAlternate]) := by
  show some (WithDetection.result env lib config h).Project = _
  have e1 : ∀ r : ProjectResult, (WithDetection.useOverride h r).Project =
      firstNonEmptyString [r.Project, h.ProjectOverride] := by
    intro r
    unfold WithDetection.useOverride
    by_cases a : r.Project = "" <;> by_cases b : h.ProjectOverride = "" <;>
      simp [firstNonEmptyString, a, b]
  have e2 : ∀ r : ProjectResult, (WithDetection.useRevControl env config h r).Project =
      firstNonEmptyString [r.Project,
        (DetectWithRevControl env config.Submodule.DisabledPatterns
          config.Submodule.MapPatterns config.ProjectFromGitRemote
          (WithDetection.args h)).Project] := by
    intro r
    unfold WithDetection.useRevControl
    by_cases a : r.Project = "" ∨ r.Branch = "" ∨ r.Folder = ""
    · rw [if_pos a]
    · rw [if_neg a]
      have : r.Project ≠ "" := fun hp => a (Or.inl hp)
      simp [firstNonEmptyString, this]
  have e3 : ∀ r : ProjectResult, (WithDetection.useAlternateProject h r).Project =
      firstNonEmptyString [r.Project, h.ProjectAlternate] := by
    intro r
    unfold WithDetection.useAlternateProject
    by_cases a : r.Project = "" <;> by_cases b : h.ProjectAlternate = "" <;>
      simp [firstNonEmptyString, a, b]
  have e4 : ∀ r : ProjectResult, (WithDetection.useAlternateBranch h r).Project = r.Project := by
    intro r
    unfold WithDetection.useAlternateBranch
    split_ifs <;> rfl
  have e5 : ∀ r : ProjectResult, (WithDetection.useFolder env h r).Project = r.Project := by
    intro r
    unfold WithDetection.useFolder
    simp only
    split_ifs <;> rfl
  have e6 : ∀ (d : DetectorID) (r : ProjectResult),
      (WithDetection.obfuscate env lib config h d r).Project = r.Project := by
    intro d r
    unfold WithDetection.obfuscate
    simp [hhide, ShouldSanitize]
  unfold WithDetection.result
  simp only [e6, e5, e4, e3, e2, e1]
  generalize (Detect env config.MapPatterns (WithDetection.args h)).1.Project = p1
  generalize (DetectWithRevControl env config.Submodule.DisabledPatterns
    config.Submodule.MapPatterns config.ProjectFromGitRemote
    (WithDetection.args h)).Project = p3
  by_cases h1 : p1 = "" <;> by_cases h2 : h.ProjectOverride = "" <;>
    by_cases h3 : p3 = "" <;> simp [firstNonEmptyString, h1, h2, h3]

/-- C18, at a concrete input: nothing is detected for `/work/main.go`, so the
project is the override `proj`, not the alternate `alt`. -/
theorem WithDetection_project_order_witness :
    sampleProjectConfig.HideProjectNames = [] ∧
    (WithDetection.one sampleProjectEnv sampleRegexLib sampleProjectConfig
      overrideHeartbeat).Project = some "proj" :=
  ⟨rfl, (WithDetection_project_order sampleProjectEnv sampleRegexLib sampleProjectConfig
    overrideHeartbeat rfl).trans (by decide)⟩

/-- C19, as stated, fails: for the origin `git@github.com:wakatime/wakatime-cli.git`
`findGitRemote` returns `wakatime/wakatime-cli`, not the final segment
`wakatime-cli`. -/
theorem findGitRemote_keeps_owner :
    findGitRemote sampleFileSystem "/r/.git/config" = .ok "wakatime/wakatime-cli" ∧
    findGitRemote sampleFileSystem "/r/.git/config" ≠ .ok "wakatime-cli" := by
  decide

/-- C19 amended: `findGitRemote` returns what follows the first `:` in the
value (the text after the first `=`) of the first `url = ` line of the first
`[remote "origin"]` section, with a trailing `.git` removed and white space
trimmed: the whole path of the remote. -/
theorem findGitRemote_after_colon (fs : FileSystem) (fp : String)
    (pre mid post : List String) (header url : String) (k v host path : List Char)
    (hex : fs.fileOrDirExists fp = true)
    (hread : ReadFile fs fp 1000 = .ok (pre ++ header :: (mid ++ url :: post)))
    (hpre : ∀ l ∈ pre, Trim l "\n\r\t" ≠ "[remote \"origin\"]")
    (hheader : Trim header "\n\r\t" = "[remote \"origin\"]")
    (hmid : ∀ l ∈ mid, HasPrefix l "[" = false ∧ HasPrefix (TrimSpace l) "url = " = false)
    (hbr : HasPrefix url "[" = false) (hurl : HasPrefix (TrimSpace url) "url = " = true)
    (hv : cutL '=' (Trim url "\n\r\t").data = some (k, v))
    (hp : cutL ':' v = some (host, path)) :
    findGitRemote fs fp = .ok (TrimSpace (TrimSuffix ⟨path⟩ ".git")) := by
  unfold findGitRemote
  rw [if_neg (by simp [hex]), hread]
  simp only
  rw [findGitRemote.lines_skip pre _ hpre, findGitRemote.lines, if_neg (by simp [hheader]),
    findGitRemote.sublines_skip mid _ hmid, findGitRemote.sublines]
  have h1 : SplitN (Trim url "\n\r\t") '=' 2 = [⟨k⟩, ⟨v⟩] := by
    unfold SplitN
    rw [splitNL_two '=' _ k v hv]
    rfl
  have h2 : SplitN ⟨v⟩ ':' 2 = [⟨host⟩, ⟨path⟩] := by
    unfold SplitN
    rw [splitNL_two ':' _ host path hp]
    rfl
  simp [hbr, hurl, h1, h2]

/-- C19 amended, at the configuration of the sample repository. -/
theorem findGitRemote_after_colon_witness :
    findGitRemote sampleFileSystem "/r/.git/config" = .ok "wakatime/wakatime-cli" :=
  findGitRemote_after_colon sampleFileSystem "/r/.git/config"
    ["[core]", "\tbare = false"] []
    ["\tfetch = +refs/heads/*:refs/remotes/origin/*", "[branch \"main\"]"]
    "[remote \"origin\"]" "\turl = git@github.com:wakatime/wakatime-cli.git"
    "url ".data " git@github.com:wakatime/wakatime-cli.git".data " git@github.com".data
    "wakatime/wakatime-cli.git".data
    (by decide) (by decide) (by decide) (by decide) (by decide) (by decide) (by decide)
    (by decide) (by decide)

/-- C20: `findGitBranch` returns `master` when the HEAD file does not exist;
when its first line is `ref: refs/heads/` followed by `B` it returns `B`
trimmed of surrounding white space, slashes included. -/
theorem findGitBranch_spec (fs : FileSystem) (fp : String) :
    (fs.fileOrDirExists fp = false → findGitBranch fs fp = .ok "master") ∧
    (∀ (B : String) (rest : List String), fs.fileOrDirExists fp = true →
      ReadFile fs fp 1 = .ok (("ref: refs/heads/" ++ B) :: rest) →
      findGitBranch fs fp = .ok (TrimSpace B)) ∧
    findGitBranch sampleFileSystem "/r/.git/HEAD" = .ok "feature/x" ∧
    findGitBranch sampleFileSystem "/r/.git/ORIG_HEAD" = .ok "master" := by
  refine ⟨?_, ?_, by decide, by decide⟩
  · intro h
    unfold findGitBranch
    rw [if_pos h]
  · intro B rest hex hread
    unfold findGitBranch
    rw [if_neg (by simp [hex]), hread]
    have hsplit : SplitN ("ref: refs/heads/" ++ B) '/' 3 = ["ref: refs", "heads", B] := by
      unfold SplitN
      rw [String.data_append]
      rfl
    have hpre : HasPrefix (TrimSpace ("ref: refs/heads/" ++ B)) "ref: " = true := by
      unfold HasPrefix TrimSpace trimL
      rw [String.data_append]
      have h1 : List.dropWhile isSpace ("ref: refs/heads/".data ++ B.data)
          = "ref: refs/heads".data ++ '/' :: B.data := rfl
      rw [h1, trimRightL_append isSpace _ _ '/' (by decide)]
      rfl
    simp only [hpre, hsplit, if_true]
    rfl

/-- C21 (code defect): `detectSpecialCases` returns Go for every path whose file
name is `go.mod`, but for a file named `CMakeLists.txt` it reports no language,
whatever the disk holds: the name it maps to CMake is `CMmakeLists.txt`. -/
theorem detectSpecialCases_file_names {Language : Type} (t : CaseTables)
    (k : LanguageNames Language) (disk : Disk) (fp : String) :
    ((filepathSplit fp).2 = "go.mod" →
      detectSpecialCases t k disk fp = some (k.LanguageGo, true)) ∧
    ((filepathSplit fp).2 = "CMakeLists.txt" →
      detectSpecialCases t k disk fp = some (k.LanguageUnknown, false)) ∧
    ((filepathSplit fp).2 = "CMmakeLists.txt" →
      detectSpecialCases t k disk fp = some (k.LanguageCMake, true)) ∧
    detectSpecialCases sampleTables sampleLanguages sampleDisk "/proj/CMakeLists.txt" =
      some ("", false) ∧
    detectSpecialCases sampleTables sampleLanguages sampleDisk "/proj/go.mod" =
      some ("Go", true) := by
  refine ⟨?_, ?_, ?_, by decide, by decide⟩
  · intro h
    unfold detectSpecialCases
    simp only [h]
    rfl
  · intro h
    have hext : t.ToLower (Ext "CMakeLists.txt") = ".txt" :=
      (ToLower_tables_ascii t _ (by decide)).trans (by decide)
    unfold detectSpecialCases detectSpecialCases.objectiveC
    simp only [h, hext]
    rw [if_neg (by decide), if_neg (by decide), if_neg (by decide), if_neg (by decide),
      if_neg (by decide)]
  · intro h
    unfold detectSpecialCases
    simp only [h]
    rw [if_neg (by decide)]
    exact if_pos trivial

/-- C22, as stated, fails: `/p/a.css` has the extension `.css`, none of `.h`,
`.c`, `.m`, `.mm`, and a name that is not special, yet with `/p/a.c` on the
disk `detectSpecialCases` reports C. -/
theorem detectSpecialCases_css_reports_C :
    detectSpecialCases sampleTables sampleLanguages sampleDisk "/p/a.css" = some ("C", true) ∧
    sampleTables.ToLower (Ext (filepathSplit "/p/a.css").2) = ".css" ∧
    (filepathSplit "/p/a.css").2 = "a.css" := by
  decide

/-- C22 amended: for a file whose lower-cased extension neither starts with
`.h` or `.c` nor is `.m` or `.mm`, and whose name is none of `go.mod`,
`CMakeLists.txt` and `CMmakeLists.txt`, `detectSpecialCases` returns and
reports no language, whatever the disk holds and whatever the case tables. -/
theorem detectSpecialCases_other_extensions {Language : Type} (t : CaseTables)
    (k : LanguageNames Language) (disk : Disk) (fp : String)
    (hgo : (filepathSplit fp).2 ≠ "go.mod")
    (_hcmake : (filepathSplit fp).2 ≠ "CMakeLists.txt")
    (hcmmake : (filepathSplit fp).2 ≠ "CMmakeLists.txt")
    (hh : HasPrefix (t.ToLower (Ext (filepathSplit fp).2)) ".h" = false)
    (hc : HasPrefix (t.ToLower (Ext (filepathSplit fp).2)) ".c" = false)
    (hm : t.ToLower (Ext (filepathSplit fp).2) ≠ ".m")
    (hmm : t.ToLower (Ext (filepathSplit fp).2) ≠ ".mm") :
    detectSpecialCases t k disk fp = some (k.LanguageUnknown, false) := by
  unfold detectSpecialCases detectSpecialCases.objectiveC
  simp only
  rw [if_neg hgo, if_neg hcmmake, if_neg (by simp [hh, hc]), if_neg hm, if_neg hmm]

/-- C22 amended, at a concrete input: a text file among C files. -/
theorem detectSpecialCases_other_extensions_witness :
    detectSpecialCases sampleTables sampleLanguages sampleDisk "/p/notes.txt" =
      some ("", false) :=
  detectSpecialCases_other_extensions sampleTables sampleLanguages sampleDisk "/p/notes.txt"
    (by decide) (by decide) (by decide) (by decide) (by decide) (by decide) (by decide)

/-- C23 (code defect): an extra heartbeat decoded from JSON with `time` 0 is
accepted with Time 0, with a non-zero `timestamp` and with none: the test
`h.Time != 0` compares a float64 held in an `any` with the int constant 0, so
it is true for every decoded number.  Whenever `time` is a JSON number, the
heartbeat returned has that number as its Time. -/
theorem parseExtraHeartbeat_accepts_zero_time :
    (parseExtraHeartbeat sampleParseEnv zeroTimeExtra).map (fun hb => hb.Time) = .ok 0 ∧
    zeroTimeExtra.Time = .float64 0 ∧
    zeroTimeExtra.Timestamp = .float64 4744437288275017728 ∧
    (parseExtraHeartbeat sampleParseEnv { zeroTimeExtra with Timestamp := .nil }).map
      (fun hb => hb.Time) = .ok 0 ∧
    (parseExtraHeartbeat sampleParseEnv { zeroTimeExtra with Time := .string "0" }).map
      (fun hb => hb.Time) = .ok 0 ∧
    (∀ (env : ParseEnv) (h : ExtraHeartbeat) (f : Float64) (hb : Heartbeat),
      h.Time = .float64 f → parseExtraHeartbeat env h = .ok hb → hb.Time = f) := by
  refine ⟨by decide, rfl, rfl, by decide, by decide, ?_⟩
  intro env h f hb hf hok
  obtain ⟨entity, entityType, cursorPosition, isWrite, lineNumber, lines, time, timestamp,
    timestampParsed, isUnsavedEntity, h1, -, h3, rfl⟩ := parseExtraHeartbeat_ok env h hb hok
  rw [hf] at h1
  cases h1
  unfold parseExtraHeartbeat.timestampParsed at h3
  rw [hf] at h3
  rw [if_pos (by simp [AnyValue.neNil, AnyValue.neZero])] at h3
  cases h3
  rfl

/-- With the empty configuration `Sanitize` is `hideCredentials`: it returns
a heartbeat that is not a remote file unchanged, and changes at most the
entity of one that is. -/
theorem Sanitize_empty_config (lib : RegexLib) (h : Heartbeat) :
    Sanitize lib h ⟨[], [], [], false, []⟩ = hideCredentials lib h ∧
    (h.IsRemote lib = false → Sanitize lib h ⟨[], [], [], false, []⟩ = h) ∧
    Sanitize lib h ⟨[], [], [], false, []⟩ =
      { h with Entity := (Sanitize lib h ⟨[], [], [], false, []⟩).Entity } := by
  have e : Sanitize lib h ⟨[], [], [], false, []⟩ = hideCredentials lib h := by
    rw [Sanitize_no_patterns, hideProjectFolder_off]
  refine ⟨e, fun hr => by rw [e, hideCredentials_of_not_remote lib h hr], ?_⟩
  rw [e]
  unfold hideCredentials
  split_ifs
  · rfl
  · rcases (lib.regexpFindStringSubmatch remoteAddressSource h.Entity)[3]? with _ | creds
    · rfl
    · rfl

/-- C24 (code defect): with the empty configuration `Sanitize` does not return
every heartbeat unchanged: it turns the remote file entity `ssh://u:p@h/f`
into `ssh://h/f`, against the sentence `On empty config will do nothing` of its
documentation.  Only remote files are touched: a heartbeat that is not a remote
file is returned unchanged, and of any heartbeat nothing but the entity
changes. -/
theorem Sanitize_empty_config_changes_remote :
    (Sanitize sampleRegexLib remoteHeartbeat emptySanitizeConfig).Entity = "ssh://h/f" ∧
    remoteHeartbeat.Entity = "ssh://u:p@h/f" ∧
    Sanitize sampleRegexLib remoteHeartbeat emptySanitizeConfig ≠ remoteHeartbeat ∧
    (∀ (lib : RegexLib) (h : Heartbeat), h.IsRemote lib = false →
      Sanitize lib h ⟨[], [], [], false, []⟩ = h) ∧
    (∀ (lib : RegexLib) (h : Heartbeat), Sanitize lib h ⟨[], [], [], false, []⟩ =
      { h with Entity := (Sanitize lib h ⟨[], [], [], false, []⟩).Entity }) :=
  ⟨by decide, by decide, by decide, fun lib h => (Sanitize_empty_config lib h).2.1,
    fun lib h => (Sanitize_empty_config lib h).2.2⟩

/-- C25 (code defect): for a heartbeat with a project and project patterns
that match every path, `Sanitize` removes the cursor position, the line number
and the lines, but keeps the dependencies. -/
theorem Sanitize_project_patterns_keep_dependencies :
    (Sanitize sampleRegexLib projectHeartbeat hideProjectMeta).Dependencies = ["os"] ∧
    (Sanitize sampleRegexLib projectHeartbeat hideProjectMeta).CursorPosition = none ∧
    (Sanitize sampleRegexLib projectHeartbeat hideProjectMeta).LineNumber = none ∧
    (Sanitize sampleRegexLib projectHeartbeat hideProjectMeta).Lines = none ∧
    projectHeartbeat.Project = some "secret" ∧
    ShouldSanitize sampleRegexLib
      { Sanitize.check projectHeartbeat with Patterns := hideProjectMeta.ProjectPatterns } = true := by
  decide

/-- C26 (code defect): with one queued heartbeat, a sender that answers every
heartbeat with status 500 and a sync limit of 25 or more (or 0, no limit),
`Sync` does not return: whatever bound is put on the number of pop-and-send
iterations, the loop uses it up. -/
theorem Sync_never_returns (syncLimit : Int) (hL : syncLimit = 0 ∨ 25 ≤ syncLimit)
    (fuel : Nat) :
    Sync sampleEnv serverError fuel syncLimit (sampleWorld 1) = none := by
  unfold Sync
  simp only
  apply Sync.loop_serverError
  rcases hL with h | h
  · rw [if_pos h]
    decide
  · have h0 : syncLimit ≠ 0 := by omega
    rw [if_neg h0]
    exact h

/-- C26, at the default sync limit of 1000 and a bound of a million iterations. -/
theorem Sync_never_returns_witness :
    Count (sampleWorld 1).bucket = 1 ∧
    Sync sampleEnv serverError 1000000 SyncMaxDefault (sampleWorld 1) = none :=
  ⟨by decide, Sync_never_returns SyncMaxDefault (Or.inr (by decide)) 1000000⟩

/-- C27 (code defect): with file names hidden, the heartbeat for
`/work/secret/main.go` gets the key `key-secret` when sent directly, but its
sanitized form, as stored in the queue, has the entity `HIDDEN.go`, from which
`WithReplacing` selects `key-default`. -/
theorem WithReplacing_key_differs_after_sanitize :
    (WithReplacing.one sampleRegexLib sampleKeyConfig secretHeartbeat).APIKey = "key-secret" ∧
    (Sanitize sampleRegexLib (WithReplacing.one sampleRegexLib sampleKeyConfig secretHeartbeat)
      hideFileNames).Entity = "HIDDEN.go" ∧
    (WithReplacing.one sampleRegexLib sampleKeyConfig
      (Sanitize sampleRegexLib (WithReplacing.one sampleRegexLib sampleKeyConfig secretHeartbeat)
        hideFileNames)).APIKey = "key-default" ∧
    MatchPattern sampleRegexLib secretHeartbeat.Entity sampleKeyConfig.MapPatterns
      = ("key-secret", true) ∧
    MatchPattern sampleRegexLib (Sanitize sampleRegexLib secretHeartbeat hideFileNames).Entity
      sampleKeyConfig.MapPatterns = ("", false) := by
  decide

/-- C28: a heartbeat `parseExtraHeartbeat` returns has LineAdditions and
LineDeletions unset, whatever the extra heartbeat holds in `line_additions`
and `line_deletions`. -/
theorem parseExtraHeartbeat_drops_line_changes (env : ParseEnv) (h : ExtraHeartbeat)
    (hb : Heartbeat) (hok : parseExtraHeartbeat env h = .ok hb) :
    hb.LineAdditions = none ∧ hb.LineDeletions = none := by
  obtain ⟨entity, entityType, cursorPosition, isWrite, lineNumber, lines, time, timestamp,
    timestampParsed, isUnsavedEntity, -, -, -, rfl⟩ := parseExtraHeartbeat_ok env h hb hok
  exact ⟨rfl, rfl⟩

/-- C28, at a concrete input: an extra heartbeat with `line_additions` 1 and
`line_deletions` 2 is parsed into a heartbeat without them. -/
theorem parseExtraHeartbeat_drops_line_changes_witness :
    zeroTimeExtra.LineAdditions = .float64 4607182418800017408 ∧
    zeroTimeExtra.LineDeletions = .float64 4611686018427387904 ∧
    ∃ hb, parseExtraHeartbeat sampleParseEnv { zeroTimeExtra with Time := .nil } = .ok hb ∧
      hb.LineAdditions = none ∧ hb.LineDeletions = none :=
  ⟨rfl, rfl, _, rfl,
    parseExtraHeartbeat_drops_line_changes sampleParseEnv { zeroTimeExtra with Time := .nil } _
      rfl⟩

/-- C29: when the parameters load and offline saving is enabled,
`SaveHeartbeats` returns nil, whatever its pipeline returns and whatever it
leaves in the queue file. -/
theorem SaveHeartbeats_returns_nil (i : SaveInput) (w : World)
    (heartbeats : Option (List Heartbeat)) (hp : i.paramsErr = none)
    (hd : i.offlineDisabled = false) :
    (SaveHeartbeats i w heartbeats).1 = none ∧
    (SaveHeartbeats i w heartbeats).2 =
      (i.handle w (match heartbeats with
        | none => i.built
        | some hh => hh)).2 := by
  unfold SaveHeartbeats
  rw [hp, hd]
  exact ⟨rfl, rfl⟩

/-- C29, at a concrete input: the queue file cannot be opened, so nothing is
written, and `SaveHeartbeats` still returns nil. -/
theorem SaveHeartbeats_returns_nil_witness :
    sampleSave.paramsErr = none ∧ sampleSave.offlineDisabled = false ∧
    (SaveHeartbeats sampleSave lockedWorld none).1 = none ∧
    (sampleSave.handle lockedWorld (sampleBatch 1)).1 ≠ .ok [] ∧
    Count (sampleSave.handle lockedWorld (sampleBatch 1)).2.bucket = 0 ∧
    (WithQueue sampleEnv Noop.SendHeartbeats lockedWorld (sampleBatch 1)).isSome = true :=
  ⟨rfl, rfl, (SaveHeartbeats_returns_nil sampleSave lockedWorld none rfl rfl).1, by
    simp only [sampleSave, WithQueue, Noop.SendHeartbeats, pushHeartbeatsWithRetry_unroll]
    decide, by
    simp only [sampleSave, WithQueue, Noop.SendHeartbeats, pushHeartbeatsWithRetry_unroll]
    decide, by
    simp only [WithQueue, Noop.SendHeartbeats, pushHeartbeatsWithRetry_unroll]
    decide⟩

/-- C30 (code defect): for a file in the Mercurial repository `/home/u/repo`
and one in the TFVC workspace `/home/u/tf`, the Project is the name of the
repository folder but the Folder is `/home/u`, the directory above it. -/
theorem Detect_folder_above_repository :
    Mercurial.Detect sampleRepos "/home/u/repo/src/main.go"
      = ⟨⟨"repo", "default", "/home/u"⟩, true, none⟩ ∧
    Tfvc.Detect sampleRepos false "/home/u/tf/a.cs" = ⟨⟨"tf", "", "/home/u"⟩, true, none⟩ ∧
    Base "/home/u" = "u" ∧
    sampleRepos.fileOrDirExists "/home/u/repo/.hg" = true ∧
    sampleRepos.fileOrDirExists "/home/u/.hg" = false ∧
    sampleRepos.fileOrDirExists "/home/u/tf/.tf/properties.tf1" = true := by
  decide

end StatTrack
